import Mathlib

/-!
Verification development for the CedarJavaFFI layer of cedar-policy/cedar-java.

The Rust sources under `CedarJavaFFI/src` are a JNI adapter around the Cedar
authorization engine.  The adapter's own control flow (`call_cedar`,
`validate_entities`, `validate_with_level`, `JEntityTypeName::new`,
`List::get`, the `Answer` envelope) is embedded directly from the source.
The Cedar engine itself (authorizer, evaluator, validator, entity-store
construction, policy parser) is a dependency whose code is not part of the
repository snapshot; those parts are modelled from the specification, and
each such definition carries a doc comment saying so.
-/

namespace CedarJavaFFI

/-- An entity unique identifier: a type name together with an identifier
string.  Modelled from the spec: "EntityUID: (type-name, identifier)". -/
structure EntityUID where
  ty : String
  id : String
deriving DecidableEq

/-- The runtime value domain.  Modelled from the spec: "Value: closed tagged
union: Boolean, Long, String, Set, Record, EntityUID-reference" (extension
values are omitted; no claim exercises them).  Set and record values are kept
in a canonical order so that structural equality coincides with set
equality. -/
inductive Value where
  | bool (b : Bool)
  | int (i : Int)
  | str (s : String)
  | set (vs : List Value)
  | record (fs : List (String × Value))
  | entity (u : EntityUID)

mutual

/-- Decidable equality on values, by mutual structural recursion through the
nested lists. -/
def decEqV : (a b : Value) → Decidable (a = b)
  | .bool a, .bool b =>
    if h : a = b then .isTrue (h ▸ rfl) else .isFalse (fun hh => h (Value.bool.inj hh))
  | .int a, .int b =>
    if h : a = b then .isTrue (h ▸ rfl) else .isFalse (fun hh => h (Value.int.inj hh))
  | .str a, .str b =>
    if h : a = b then .isTrue (h ▸ rfl) else .isFalse (fun hh => h (Value.str.inj hh))
  | .entity a, .entity b =>
    if h : a = b then .isTrue (h ▸ rfl) else .isFalse (fun hh => h (Value.entity.inj hh))
  | .set as, .set bs =>
    match decEqLV as bs with
    | .isTrue h => .isTrue (h ▸ rfl)
    | .isFalse h => .isFalse (fun hh => h (Value.set.inj hh))
  | .record as, .record bs =>
    match decEqRV as bs with
    | .isTrue h => .isTrue (h ▸ rfl)
    | .isFalse h => .isFalse (fun hh => h (Value.record.inj hh))
  | .bool _, .int _ => .isFalse nofun
  | .bool _, .str _ => .isFalse nofun
  | .bool _, .set _ => .isFalse nofun
  | .bool _, .record _ => .isFalse nofun
  | .bool _, .entity _ => .isFalse nofun
  | .int _, .bool _ => .isFalse nofun
  | .int _, .str _ => .isFalse nofun
  | .int _, .set _ => .isFalse nofun
  | .int _, .record _ => .isFalse nofun
  | .int _, .entity _ => .isFalse nofun
  | .str _, .bool _ => .isFalse nofun
  | .str _, .int _ => .isFalse nofun
  | .str _, .set _ => .isFalse nofun
  | .str _, .record _ => .isFalse nofun
  | .str _, .entity _ => .isFalse nofun
  | .set _, .bool _ => .isFalse nofun
  | .set _, .int _ => .isFalse nofun
  | .set _, .str _ => .isFalse nofun
  | .set _, .record _ => .isFalse nofun
  | .set _, .entity _ => .isFalse nofun
  | .record _, .bool _ => .isFalse nofun
  | .record _, .int _ => .isFalse nofun
  | .record _, .str _ => .isFalse nofun
  | .record _, .set _ => .isFalse nofun
  | .record _, .entity _ => .isFalse nofun
  | .entity _, .bool _ => .isFalse nofun
  | .entity _, .int _ => .isFalse nofun
  | .entity _, .str _ => .isFalse nofun
  | .entity _, .set _ => .isFalse nofun
  | .entity _, .record _ => .isFalse nofun

/-- Decidable equality on lists of values. -/
def decEqLV : (as bs : List Value) → Decidable (as = bs)
  | [], [] => .isTrue rfl
  | [], _ :: _ => .isFalse nofun
  | _ :: _, [] => .isFalse nofun
  | a :: as, b :: bs =>
    match decEqV a b, decEqLV as bs with
    | .isTrue h1, .isTrue h2 => .isTrue (by rw [h1, h2])
    | .isFalse h1, _ => .isFalse (fun hh => h1 (List.cons.inj hh).1)
    | _, .isFalse h2 => .isFalse (fun hh => h2 (List.cons.inj hh).2)

/-- Decidable equality on string-keyed value maps. -/
def decEqRV : (as bs : List (String × Value)) → Decidable (as = bs)
  | [], [] => .isTrue rfl
  | [], _ :: _ => .isFalse nofun
  | _ :: _, [] => .isFalse nofun
  | (s, a) :: as, (t, b) :: bs =>
    match decEq s t, decEqV a b, decEqRV as bs with
    | .isTrue h0, .isTrue h1, .isTrue h2 => .isTrue (by rw [h0, h1, h2])
    | .isFalse h0, _, _ =>
      .isFalse (fun hh => h0 (congrArg Prod.fst (List.cons.inj hh).1))
    | _, .isFalse h1, _ =>
      .isFalse (fun hh => h1 (congrArg Prod.snd (List.cons.inj hh).1))
    | _, _, .isFalse h2 => .isFalse (fun hh => h2 (List.cons.inj hh).2)

end

instance : DecidableEq Value := decEqV

/-- Typed evaluation errors.  Modelled from the spec's error taxonomy for the
expression evaluator. -/
inductive EvalError where
  | entityDoesNotExist
  | attributeDoesNotExist
  | typeMismatch
  | integerOverflow
deriving DecidableEq

/-- The request variables. -/
inductive Var where
  | principal
  | action
  | resource
  | context
deriving DecidableEq

/-- Condition expressions.  Modelled from the spec: short-circuiting boolean
operators, structural equality, attribute access and `has` checks, the `in`
(ancestor) relation, and overflow-checked arithmetic. -/
inductive Expr where
  | lit (v : Value)
  | var (v : Var)
  | and (a b : Expr)
  | or (a b : Expr)
  | not (e : Expr)
  | eq (a b : Expr)
  | getAttr (e : Expr) (attr : String)
  | hasAttr (e : Expr) (attr : String)
  | inE (a b : Expr)
  | add (a b : Expr)
  | sub (a b : Expr)
deriving DecidableEq

/-- An entity: a UID, attribute map, the set of direct parents, and tags.
Modelled from the spec: "Entity: owns a UID, a mapping attribute-name → Value,
a set of ancestor UIDs (direct parents only — NOT pre-closed), and an optional
mapping tag-name → Value". -/
structure EntityData where
  uid : EntityUID
  attrs : List (String × Value)
  parents : List EntityUID
  tags : List (String × Value)
deriving DecidableEq

/-- The entity store: a collection of entities keyed by UID. -/
abbrev Entities := List EntityData

/-- Look up an entity by UID. -/
def findEntity (es : Entities) (u : EntityUID) : Option EntityData :=
  es.find? (fun e => e.uid == u)

/-- Look up a key in an attribute or tag map. -/
def lookupAttr (fs : List (String × Value)) (a : String) : Option Value :=
  (fs.find? (fun f => f.1 == a)).map (fun f => f.2)

/-- Fuelled reflexive-transitive reachability over direct-parent edges.
Modelled from the spec: the "in" relation "is evaluated as the
reflexive-transitive closure over direct-parent edges".  The fuel bounds the
path length so the function is total even on a malformed (cyclic) graph. -/
def ancestorWithin (es : Entities) : Nat → EntityUID → EntityUID → Bool
  | 0, a, b => a == b
  | fuel + 1, a, b =>
    a == b ||
      match findEntity es a with
      | none => false
      | some e => e.parents.any (fun p => ancestorWithin es fuel p b)

/-- `inEntity es a b` holds when `b` equals `a` or is a (transitive) ancestor
of `a` in the store.  A path in the parent graph never needs more than
`es.length` edges. -/
def inEntity (es : Entities) (a b : EntityUID) : Bool :=
  ancestorWithin es es.length a b

/-- An authorization request: principal UID (or unspecified), action UID,
resource UID (or unspecified), and a context record.  Modelled from the
spec's external interface. -/
structure Request where
  principal : Option EntityUID
  action : EntityUID
  resource : Option EntityUID
  context : List (String × Value)
deriving DecidableEq

/-- Structural equality of values (the evaluator's `==`): "defined across all
Value kinds via structural equality; never errors; cross-kind comparisons are
simply false". -/
def valueEq (a b : Value) : Bool := a == b

/-- Signed 64-bit bounds for overflow detection on Long arithmetic. -/
def i64InRange (i : Int) : Bool := -(2 ^ 63) ≤ i && i < 2 ^ 63

/-- The expression evaluator.  Modelled from the spec's contract
`evaluate(expr, principal, action, resource, context, store) ->
Result<Value, EvalError>`: short-circuit `&&`/`||`, structural `==`,
attribute access with `EntityDoesNotExist`/`AttributeDoesNotExist`, `has`
checks that never error on absence, the `in` ancestor relation, and
overflow-checked 64-bit arithmetic.  An unspecified principal or resource
variable does not denote an entity and fails entity-dependent evaluation. -/
def evaluate (es : Entities) (req : Request) : Expr → Except EvalError Value
  | .lit v => .ok v
  | .var .principal =>
    match req.principal with
    | some u => .ok (.entity u)
    | none => .error .entityDoesNotExist
  | .var .action => .ok (.entity req.action)
  | .var .resource =>
    match req.resource with
    | some u => .ok (.entity u)
    | none => .error .entityDoesNotExist
  | .var .context => .ok (.record req.context)
  | .and a b =>
    match evaluate es req a with
    | .error e => .error e
    | .ok (.bool false) => .ok (.bool false)
    | .ok (.bool true) =>
      match evaluate es req b with
      | .error e => .error e
      | .ok (.bool c) => .ok (.bool c)
      | .ok _ => .error .typeMismatch
    | .ok _ => .error .typeMismatch
  | .or a b =>
    match evaluate es req a with
    | .error e => .error e
    | .ok (.bool true) => .ok (.bool true)
    | .ok (.bool false) =>
      match evaluate es req b with
      | .error e => .error e
      | .ok (.bool c) => .ok (.bool c)
      | .ok _ => .error .typeMismatch
    | .ok _ => .error .typeMismatch
  | .not e =>
    match evaluate es req e with
    | .error err => .error err
    | .ok (.bool c) => .ok (.bool (!c))
    | .ok _ => .error .typeMismatch
  | .eq a b =>
    match evaluate es req a with
    | .error e => .error e
    | .ok va =>
      match evaluate es req b with
      | .error e => .error e
      | .ok vb => .ok (.bool (valueEq va vb))
  | .getAttr e attr =>
    match evaluate es req e with
    | .error err => .error err
    | .ok (.entity u) =>
      match findEntity es u with
      | none => .error .entityDoesNotExist
      | some ent =>
        match lookupAttr ent.attrs attr with
        | none => .error .attributeDoesNotExist
        | some v => .ok v
    | .ok (.record fs) =>
      match lookupAttr fs attr with
      | none => .error .attributeDoesNotExist
      | some v => .ok v
    | .ok _ => .error .typeMismatch
  | .hasAttr e attr =>
    match evaluate es req e with
    | .error err => .error err
    | .ok (.entity u) =>
      match findEntity es u with
      | none => .ok (.bool false)
      | some ent => .ok (.bool (lookupAttr ent.attrs attr).isSome)
    | .ok (.record fs) => .ok (.bool (lookupAttr fs attr).isSome)
    | .ok _ => .error .typeMismatch
  | .inE a b =>
    match evaluate es req a with
    | .error e => .error e
    | .ok (.entity u) =>
      match evaluate es req b with
      | .error e => .error e
      | .ok (.entity v) => .ok (.bool (inEntity es u v))
      | .ok (.set vs) =>
        .ok (.bool (vs.any (fun w =>
          match w with
          | .entity v => inEntity es u v
          | _ => false)))
      | .ok _ => .error .typeMismatch
    | .ok _ => .error .typeMismatch
  | .add a b =>
    match evaluate es req a with
    | .error e => .error e
    | .ok (.int x) =>
      match evaluate es req b with
      | .error e => .error e
      | .ok (.int y) =>
        if i64InRange (x + y) then .ok (.int (x + y)) else .error .integerOverflow
      | .ok _ => .error .typeMismatch
    | .ok _ => .error .typeMismatch
  | .sub a b =>
    match evaluate es req a with
    | .error e => .error e
    | .ok (.int x) =>
      match evaluate es req b with
      | .error e => .error e
      | .ok (.int y) =>
        if i64InRange (x - y) then .ok (.int (x - y)) else .error .integerOverflow
      | .ok _ => .error .typeMismatch
    | .ok _ => .error .typeMismatch

/-- Policy effects. -/
inductive Effect where
  | permit
  | forbid
deriving DecidableEq

/-- A scope constraint: "any", `== UID`, `in UID`, or `is type [in UID]`.
Modelled from the spec's Policy data model. -/
inductive ScopeConstraint where
  | any
  | eq (u : EntityUID)
  | mem (u : EntityUID)
  | isTy (ty : String) (m : Option EntityUID)
deriving DecidableEq

/-- Scope matching against a possibly-unspecified request component.
Modelled from the spec: a "cheap, non-erroring structural match"; an
unspecified principal/resource "never satisfies any `==`/`in` scope
constraint, only matches unconstrained scopes". -/
def scopeMatch (es : Entities) (r : Option EntityUID) : ScopeConstraint → Bool
  | .any => true
  | .eq u =>
    match r with
    | some v => v == u
    | none => false
  | .mem u =>
    match r with
    | some v => inEntity es v u
    | none => false
  | .isTy ty m =>
    match r with
    | some v =>
      v.ty == ty &&
        (match m with
         | none => true
         | some u => inEntity es v u)
    | none => false

/-- A concrete policy: stable ID, effect, the three scope constraints and the
condition expression.  Modelled from the spec's Policy data model (templates
are linked into concrete policies before authorization; annotations play no
role in any claim and are left out). -/
structure Policy where
  id : String
  effect : Effect
  principalScope : ScopeConstraint
  actionScope : ScopeConstraint
  resourceScope : ScopeConstraint
  condition : Expr
deriving DecidableEq

/-- Whether a policy's scope applies to the request. -/
def scopeOK (es : Entities) (req : Request) (p : Policy) : Bool :=
  scopeMatch es req.principal p.principalScope &&
    scopeMatch es (some req.action) p.actionScope &&
    scopeMatch es req.resource p.resourceScope

/-- A policy is satisfied when its scope applies and its condition evaluates
to Boolean true.  Modelled from the spec's Authorizer step 2: non-Boolean
values and evaluation errors count as "not satisfied". -/
def satisfied (es : Entities) (req : Request) (p : Policy) : Bool :=
  scopeOK es req p &&
    match evaluate es req p.condition with
    | .ok (.bool true) => true
    | _ => false

/-- Render an evaluation error for diagnostics. -/
def describeError : EvalError → String
  | .entityDoesNotExist => "entity does not exist"
  | .attributeDoesNotExist => "attribute does not exist"
  | .typeMismatch => "type mismatch"
  | .integerOverflow => "integer overflow"

/-- The diagnostic attached to a policy whose condition evaluation errs or
returns a non-Boolean, per Authorizer step 2. -/
def policyDiagnostic (es : Entities) (req : Request) (p : Policy) :
    Option (String × String) :=
  if scopeOK es req p then
    match evaluate es req p.condition with
    | .error e => some (p.id, describeError e)
    | .ok (.bool _) => none
    | .ok _ => some (p.id, "condition evaluated to a non-boolean value")
  else none

/-- The authorization decision. -/
inductive Decision where
  | allow
  | deny
deriving DecidableEq

/-- The authorizer's output: decision, determining policy IDs, and per-policy
diagnostic errors. -/
structure Response where
  decision : Decision
  determiningPolicies : List String
  errors : List (String × String)
deriving DecidableEq

/-- The IDs of the satisfied policies carrying a given effect. -/
def satisfiedWithEffect (es : Entities) (req : Request) (eff : Effect)
    (ps : List Policy) : List String :=
  (ps.filter (fun p => p.effect == eff && satisfied es req p)).map (fun p => p.id)

/-- The authorizer.  Modelled from the spec's deny-overrides algorithm: any
satisfied Forbid ⇒ Deny with the satisfied Forbids determining; else any
satisfied Permit ⇒ Allow with the satisfied Permits determining; else Deny
with no determining policies.  Diagnostics never change the decision. -/
def is_authorized (req : Request) (ps : List Policy) (es : Entities) : Response :=
  if (satisfiedWithEffect es req .forbid ps).isEmpty then
    if (satisfiedWithEffect es req .permit ps).isEmpty then
      ⟨.deny, [], ps.filterMap (policyDiagnostic es req)⟩
    else
      ⟨.allow, satisfiedWithEffect es req .permit ps,
        ps.filterMap (policyDiagnostic es req)⟩
  else
    ⟨.deny, satisfiedWithEffect es req .forbid ps,
      ps.filterMap (policyDiagnostic es req)⟩

/-! ## The `Answer` envelope (src/CedarJavaFFI/src/answer.rs) -/

/-- The generic Answer type from answer.rs: success carries a JSON result
string; failure distinguishes internal faults from caller-caused bad
requests. -/
inductive Answer where
  | success (result : String)
  | failure (isInternal : Bool) (errors : List String)
deriving DecidableEq

/-- `Answer::fail_internally` from answer.rs. -/
def Answer.fail_internally (message : String) : Answer :=
  .failure true [message]

/-- `Answer::fail_bad_request` from answer.rs. -/
def Answer.fail_bad_request (errors : List String) : Answer :=
  .failure false errors

/-! ## The authorization request envelope -/

/-- The outcome of `is_authorized_json_str`: a successful answer carrying the
authorizer response, or a failure carrying parse errors. -/
inductive AuthorizationAnswer where
  | success (response : Response)
  | failure (errors : List String)
deriving DecidableEq

/-- Whether an authorization answer is a success. -/
def AuthorizationAnswer.isSuccess : AuthorizationAnswer → Bool
  | .success _ => true
  | .failure _ => false

/-- The decoded body of an `AuthorizationOperation` request: principal and
resource may be JSON `null` (encoded `none`), the policy set is flattened to
its concrete policies.  Modelled from the spec's external interface. -/
structure AuthorizationCall where
  principal : Option EntityUID
  action : EntityUID
  resource : Option EntityUID
  context : List (String × Value)
  policies : List Policy
  entities : Entities
deriving DecidableEq

/-- Modelled from the spec: the engine's `is_authorized_json_str` entry point
is not under src/; only its caller `call_cedar` and its tests are.  In the
engine version this adapter binds, the request parser requires concrete
principal and resource UIDs, so a `null` principal or resource is rejected
and the whole call returns `AuthorizationAnswer::Failure` — the behaviour
pinned by `test_unspecified_principal_call_succeeds` and
`test_unspecified_resource_call_succeeds` in src/CedarJavaFFI/src/tests.rs,
both of which assert an authorization failure. -/
def is_authorized_call (c : AuthorizationCall) : AuthorizationAnswer :=
  match c.principal, c.resource with
  | some p, some r =>
    .success (is_authorized ⟨some p, c.action, some r, c.context⟩ c.policies c.entities)
  | _, _ => .failure ["failed to parse request: expected an entity uid, got null"]

/-! ## Entity validation (src/CedarJavaFFI/src/interface.rs, validate_entities) -/

/-- Attribute types as declared in a schema shape.  Modelled from the spec's
Schema data model (flat record shapes suffice for the claims). -/
inductive AttrType where
  | boolT
  | longT
  | stringT
  | entityT (ty : String)
deriving DecidableEq

/-- A schema entity-type declaration: shape (attribute name, type, required)
and the allowed parent types.  Modelled from the spec: "entity type
declarations (each with a shape = record type, allowed parent types)". -/
structure EntityTypeDecl where
  name : String
  shape : List (String × AttrType × Bool)
  memberOfTypes : List String
deriving DecidableEq

/-- A parsed schema, as far as entity validation needs it. -/
structure SchemaM where
  entityTypes : List EntityTypeDecl
deriving DecidableEq

/-- Whether a value conforms to a declared attribute type. -/
def valueHasType : Value → AttrType → Bool
  | .bool _, .boolT => true
  | .int _, .longT => true
  | .str _, .stringT => true
  | .entity u, .entityT t => u.ty == t
  | _, _ => false

/-- The textual form of a UID, as it appears in engine error messages. -/
def uidString (u : EntityUID) : String :=
  u.ty ++ "::\"" ++ u.id ++ "\""

/-- The first UID that occurs more than once in the list. -/
def firstDuplicate : List EntityUID → Option EntityUID
  | [] => none
  | u :: rest => if rest.contains u then some u else firstDuplicate rest

/-- Fuelled reachability in one or more parent steps: does some chain of
direct-parent edges of positive length lead from `a` to `b`? -/
def reachesWithin (es : Entities) : Nat → EntityUID → EntityUID → Bool
  | 0, _, _ => false
  | fuel + 1, a, b =>
    match findEntity es a with
    | none => false
    | some e => e.parents.any (fun p => p == b || reachesWithin es fuel p b)

/-- A UID lies on a cycle of the parent graph when it reaches itself in at
least one step.  Paths never need more than `es.length` edges. -/
def onCycle (es : Entities) (u : EntityUID) : Bool :=
  reachesWithin es es.length u u

/-- The first entity in the store whose UID lies on a cycle. -/
def findCycleVertex (es : Entities) : Option EntityUID :=
  (es.find? (fun e => onCycle es e.uid)).map (fun e => e.uid)

/-- The error message the engine produces when the parent graph is cyclic,
as pinned by `validate_entities_detect_cycle_fails` in tests.rs. -/
def cycleMsg (u : EntityUID) : String :=
  "input graph has a cycle containing vertex `" ++ uidString u ++ "`"

/-- Whether one entity's attributes and parents conform to the schema;
returns a descriptive error message on the first mismatch. -/
def entityConforms (schema : SchemaM) (e : EntityData) : Option String :=
  match schema.entityTypes.find? (fun d => d.name == e.uid.ty) with
  | none => some ("entity `" ++ uidString e.uid ++ "` has type `" ++ e.uid.ty ++
      "` which is not declared in the schema")
  | some decl =>
    if ¬ (e.attrs.all (fun f =>
        (decl.shape.find? (fun d => d.1 == f.1)).any (fun d => valueHasType f.2 d.2.1))) then
      some ("entity `" ++ uidString e.uid ++ "` has an attribute that does not match its schema shape")
    else if ¬ (decl.shape.all (fun d => !d.2.2 || (lookupAttr e.attrs d.1).isSome)) then
      some ("entity `" ++ uidString e.uid ++ "` is missing a required attribute")
    else if ¬ (e.parents.all (fun p => decl.memberOfTypes.contains p.ty)) then
      some ("entity `" ++ uidString e.uid ++ "` has a parent of a type that is not allowed")
    else none

/-- The first schema-conformance error among the entities. -/
def firstShapeError (schema : SchemaM) : Entities → Option String
  | [] => none
  | e :: rest =>
    match entityConforms schema e with
    | some msg => some msg
    | none => firstShapeError schema rest

/-- The five variants of `EntitiesError` matched in interface.rs. -/
inductive EntitiesErr where
  | serialization (msg : String)
  | deserialization (msg : String)
  | duplicate (msg : String)
  | transitiveClosure (msg : String)
  | invalidEntity (msg : String)
deriving DecidableEq

/-- `err.to_string()` for each `EntitiesError` variant, as interface.rs
extracts it. -/
def EntitiesErr.message : EntitiesErr → String
  | .serialization msg => msg
  | .deserialization msg => msg
  | .duplicate msg => msg
  | .transitiveClosure msg => msg
  | .invalidEntity msg => msg

/-- Modelled from the spec: `Entities::from_json_value` is engine code not
under src/.  The spec's entity-graph validation "checks each entity's
attributes match its declared shape and that the ancestor graph is acyclic
and type-consistent; output is success or a list of descriptive errors
(duplicate UID, cycle, shape mismatch)", and the store "must detect and
reject cycles ... at construction time".  The checks run in the spec's
order: duplicate UID, then cycle, then shape.  The argument is the
deserialization outcome of the request's `entities` JSON value. -/
def entitiesFromJson (schema : SchemaM) (ents : Except String Entities) :
    Except EntitiesErr Unit :=
  match ents with
  | .error msg => .error (.deserialization msg)
  | .ok es =>
    match firstDuplicate (es.map (fun e => e.uid)) with
    | some u => .error (.duplicate ("duplicate entity entry `" ++ uidString u ++ "`"))
    | none =>
      match findCycleVertex es with
      | some u => .error (.transitiveClosure (cycleMsg u))
      | none =>
        match firstShapeError schema es with
        | some msg => .error (.invalidEntity msg)
        | none => .ok ()

/-- Decidable equality for `Except` outcomes. -/
def exceptDecEq {α β : Type} [DecidableEq α] [DecidableEq β] :
    (a b : Except α β) → Decidable (a = b)
  | .ok a, .ok b =>
    if h : a = b then .isTrue (h ▸ rfl) else .isFalse (fun hh => h (Except.ok.inj hh))
  | .error a, .error b =>
    if h : a = b then .isTrue (h ▸ rfl) else .isFalse (fun hh => h (Except.error.inj hh))
  | .ok _, .error _ => .isFalse nofun
  | .error _, .ok _ => .isFalse nofun

instance {α β : Type} [DecidableEq α] [DecidableEq β] : DecidableEq (Except α β) :=
  exceptDecEq

/-- The decoded `ValidateEntityCall` from interface.rs: a schema JSON value
and an entities JSON value.  Each field is embedded as the outcome of the
engine-side parse applied to it (`Schema::from_json_value` respectively the
entity deserializer). -/
structure ValidateEntityCall where
  schema : Except String SchemaM
  entities : Except String Entities
deriving DecidableEq

/-- `validate_entities` from interface.rs: a schema parse error or any
`EntitiesError` becomes `Answer::fail_bad_request` with the error's message;
success returns `Answer::Success` with result "null". -/
def validate_entities (call : ValidateEntityCall) : Answer :=
  match call.schema with
  | .error e => Answer.fail_bad_request [e]
  | .ok schema =>
    match entitiesFromJson schema call.entities with
    | .error err => Answer.fail_bad_request [err.message]
    | .ok _ => .success "null"

/-- `json_validate_entities` from interface.rs: the serde deserialization
error of the request envelope propagates via `?`. -/
def json_validate_entities (input : Except String ValidateEntityCall) :
    Except String Answer :=
  match input with
  | .error e => .error e
  | .ok call => .ok (validate_entities call)

/-- The `ValidateEntities` arm of `call_cedar` from interface.rs.  The input
is the serde parse outcome of the raw input string.  `call_cedar` ends with
`result.unwrap_or_else(|err| panic!(...))`, so a propagated serde error
panics the calling thread: the panic is modelled as `none`. -/
def call_cedar_validate_entities (input : Except String ValidateEntityCall) :
    Option Answer :=
  match json_validate_entities input with
  | .ok ans => some ans
  | .error _ => none

/-! ## Level validation (src/CedarJavaFFI/src/helpers.rs) -/

/-- Modelled from the spec: the validator's level computation — "count the
maximum number of chained entity-dereferences (`var.attr1.attr2...`)
appearing in any single policy".  Each attribute access or `has` check off a
sub-expression adds one dereference; other operators take the maximum over
their children. -/
def derefLevel : Expr → Nat
  | .lit _ => 0
  | .var _ => 0
  | .and a b => max (derefLevel a) (derefLevel b)
  | .or a b => max (derefLevel a) (derefLevel b)
  | .not e => derefLevel e
  | .eq a b => max (derefLevel a) (derefLevel b)
  | .getAttr e _ => derefLevel e + 1
  | .hasAttr e _ => derefLevel e + 1
  | .inE a b => max (derefLevel a) (derefLevel b)
  | .add a b => max (derefLevel a) (derefLevel b)
  | .sub a b => max (derefLevel a) (derefLevel b)

/-- A policy-ID-tagged validation diagnostic, mirroring the
`ValidationError` records built in helpers.rs. -/
structure ValidationErr where
  policyId : String
  error : String
deriving DecidableEq

/-- The message of a level-exceeded validation error, as pinned by
`test_invalid_policy_validates_with_errors` in helpers.rs. -/
def levelErrorMsg (pid : String) (required maxLevel : Nat) : String :=
  "for policy `" ++ pid ++ "`, this policy requires level " ++ toString required ++
    ", which exceeds the maximum allowed level (" ++ toString maxLevel ++ ")"

/-- Modelled from the spec: `Validator::validate_with_level` is engine code
not under src/.  For every policy whose required level exceeds
`maxLevel`, it emits one validation error "naming the policy and both the
required and maximum levels".  All diagnostics are policy-ID-tagged and
validation always completes. -/
def validatePoliciesWithLevel (ps : List Policy) (maxLevel : Nat) : List ValidationErr :=
  ps.filterMap (fun p =>
    if derefLevel p.condition > maxLevel then
      some ⟨p.id, levelErrorMsg p.id (derefLevel p.condition) maxLevel⟩
    else none)

/-- The validation settings from helpers.rs (only the mode). -/
structure ValidationSettings where
  mode : String
deriving DecidableEq

/-- The `ValidationAnswer` envelope produced by `validate_with_level`:
success carries validation errors, validation warnings and other (schema)
warnings; failure carries parse errors and warnings. -/
inductive ValidationAnswer where
  | success (validationErrors : List ValidationErr)
      (validationWarnings : List ValidationErr) (otherWarnings : List String)
  | failure (errors : List String) (warnings : List String)
deriving DecidableEq

/-- The `LevelValidationCall` from helpers.rs.  The `schema` and `policies`
fields are embedded as the outcomes of `FFISchema::parse` (a schema plus its
warnings) and `FFIPolicySet::parse` (a policy set, or a list of parse
errors) applied to them. -/
structure LevelValidationCall where
  validationSettings : ValidationSettings
  schema : Except String (SchemaM × List String)
  policies : Except (List String) (List Policy)
  maxDerefLevel : Nat
deriving DecidableEq

/-- The `WithWarnings` wrapper from helpers.rs. -/
structure WithWarnings (α : Type) where
  t : α
  warnings : List String

/-- `LevelValidationCall::get_components` from helpers.rs: collect the
policy-set parse errors (falling back to an empty policy set), then the
schema parse outcome; only when no error occurred and the schema parsed does
it return the components together with the schema warnings, otherwise the
errors with no warnings. -/
def LevelValidationCall.get_components (c : LevelValidationCall) :
    WithWarnings (Except (List String) (List Policy × SchemaM × ValidationSettings × Nat)) :=
  let ep := match c.policies with
    | .ok ps => ([], ps)
    | .error es => (es, [])
  let pair := match c.schema with
    | .ok (schema, warnings) => (ep.1, some (schema, warnings))
    | .error e => (ep.1 ++ [e], none)
  match pair with
  | (errs, some (schema, warnings)) =>
    if errs.isEmpty then
      ⟨.ok (ep.2, schema, c.validationSettings, c.maxDerefLevel), warnings⟩
    else ⟨.error errs, []⟩
  | (errs, none) => ⟨.error errs, []⟩

/-- `validate_with_level` from helpers.rs: on successfully parsed
components, run the validator and return `ValidationAnswer::Success` with
its (possibly empty) error and warning lists and the schema warnings; on a
parse failure return `ValidationAnswer::Failure` with the collected
errors. -/
def validate_with_level (c : LevelValidationCall) : ValidationAnswer :=
  match c.get_components with
  | ⟨.ok (policies, _schema, _settings, maxLevel), warnings⟩ =>
    .success (validatePoliciesWithLevel policies maxLevel) [] warnings
  | ⟨.error errors, warnings⟩ => .failure errors warnings

/-! ## Entity type names (src/CedarJavaFFI/src/objects.rs) -/

/-- Characters allowed in an entity-type-name identifier. -/
def isIdentChar (c : Char) : Bool :=
  c.isAlphanum || c == '_'

/-- A valid identifier: nonempty and made of identifier characters. -/
def isIdent (s : String) : Bool :=
  !s.data.isEmpty && s.data.all isIdentChar

/-- An entity type name: the nonempty sequence of its `::`-separated
components (namespace components followed by the basename). -/
structure EntityTypeName where
  path : List String
deriving DecidableEq

/-- Split a character list at every occurrence of `::`. -/
def splitColons : List Char → List (List Char)
  | [] => [[]]
  | [c] => [[c]]
  | c :: d :: rest =>
    if c = ':' ∧ d = ':' then [] :: splitColons rest
    else
      match splitColons (d :: rest) with
      | [] => [[c]]
      | g :: gs => (c :: g) :: gs

/-- Whether a character list contains two adjacent colons (Rust's
`s.contains("::")`). -/
def containsColonPair : List Char → Bool
  | [] => false
  | [_] => false
  | c :: d :: rest => (c = ':' && d = ':') || containsColonPair (d :: rest)

/-- Rust's `Vec::join("::")` on the component strings. -/
def joinColons : List String → String
  | [] => ""
  | [s] => s
  | s :: t :: rest => s ++ "::" ++ joinColons (t :: rest)

/-- Rust's `s.contains("::")` on strings. -/
def containsColons (s : String) : Bool :=
  containsColonPair s.data

/-- Modelled from the spec: `EntityTypeName::from_str` is engine code not
under src/.  Per the spec's data model, a type name "is a namespaced
double-colon-separated identifier sequence": the string splits on `::` and
every component must be a (nonempty) identifier. -/
def parseEntityTypeName (s : String) : Except String EntityTypeName :=
  let parts := (splitColons s.data).map (fun cs => String.mk cs)
  if parts.all isIdent then .ok ⟨parts⟩
  else .error ("invalid entity type name: " ++ s)

/-- `JEntityTypeName::new` from objects.rs: append the basename to the
namespace components, reject the whole list when any component contains
`::`, otherwise join with `::` and parse the result. -/
def jEntityTypeNameNew (basename : String) (ns : List String) :
    Except String EntityTypeName :=
  let fullTypeName := ns ++ [basename]
  if fullTypeName.any containsColons then
    .error "components of the type name cannot contain colons"
  else
    parseEntityTypeName (joinColons fullTypeName)

/-- `JEntityTypeName::cast` from objects.rs: reads the namespace components
and basename off the Java object and then runs the same check-join-parse
logic as `new`. -/
def jEntityTypeNameCast (ns : List String) (basename : String) :
    Except String EntityTypeName :=
  let fullTypeName := ns ++ [basename]
  if fullTypeName.any containsColons then
    .error "components of the type name cannot contain colons"
  else
    parseEntityTypeName (joinColons fullTypeName)

/-! ## Java list access (src/CedarJavaFFI/src/jlist.rs, utils.rs) -/

/-- The JNI error enumeration from utils.rs (String stands in for the
borrowed message types). -/
inductive InternalJNIError where
  | badMemberType (expected got : String)
  | typeError (expected got : String)
  | nullPointer
  | indexOutOfBounds (len idx : Int)
deriving DecidableEq

/-- Java's `List.get(i)`: the element at `i`, or an
`IndexOutOfBoundsException` (encoded `none`) when `i` is negative or at
least the size of the list. -/
def javaListGet {α : Type} (l : List α) (i : Int) : Option α :=
  if h : 0 ≤ i ∧ i.toNat < l.length then some (l.get ⟨i.toNat, h.2⟩) else none

/-- `List::get` from jlist.rs: call the underlying Java `get`; if it threw
(the JNI exception check fires), return an `IndexOutOfBounds` error carrying
the list's length and the offending index, otherwise return the element. -/
def listGet {α : Type} (l : List α) (i : Int) : Except InternalJNIError α :=
  match javaListGet l i with
  | none => .error (.indexOutOfBounds (l.length : Int) i)
  | some v => .ok v

/-! ## Policy text: canonical printing and parsing

`parse_policy_internal` in interface.rs calls `Policy::from_str` and prints
the parsed policy with `format!("{}", p)`, both engine code not under src/.
Modelled from the spec: the policy surface syntax over the spec's Policy
data model — annotations, an effect, the three scope constraints (`any`,
`== UID`, `in UID`, `is Type [in UID]`), and a conjunction of
`when`/`unless` clauses over condition expressions — with a canonical
printer and a parser for that grammar.  UID identifiers, string literals,
attribute names, record keys and annotation values are arbitrary strings
printed in escaped, quoted form. -/

/-- The request variables usable in the modelled condition grammar. -/
inductive PVar where
  | principal
  | action
  | resource
  | context
deriving DecidableEq

/-- Condition expressions of the modelled policy grammar (spec §4.1):
boolean, integer and string literals, request variables, entity UID
literals, `!`, the fully parenthesised binary operators `&&`, `||`, `==`,
`in`, `+`, `-`, attribute access and `has`, set and record literals, and
extension function calls. -/
inductive PExpr where
  | litTrue
  | litFalse
  | litInt (i : Int)
  | litStr (s : String)
  | pvar (v : PVar)
  | euid (u : EntityUID)
  | notE (e : PExpr)
  | andE (a b : PExpr)
  | orE (a b : PExpr)
  | eqE (a b : PExpr)
  | memE (a b : PExpr)
  | addE (a b : PExpr)
  | subE (a b : PExpr)
  | getA (e : PExpr) (attr : String)
  | hasA (e : PExpr) (attr : String)
  | setE (es : List PExpr)
  | recordE (fs : List (String × PExpr))
  | extE (fname : String) (args : List PExpr)

/-- Characters that may extend an identifier-or-type-path token. -/
def identish (c : Char) : Bool :=
  isIdentChar c || c == ':'

/-- Escape a raw string body for quoted printing: `"` and `\` receive a
backslash. -/
def escapeChars : List Char → List Char
  | [] => []
  | c :: rest => (if c = '"' ∨ c = '\\' then ['\\', c] else [c]) ++ escapeChars rest

/-- Read a quoted-string body up to its closing quote, undoing the escapes;
returns the raw body and the input after the closing quote. -/
def unescapeQuoted : List Char → Option (List Char × List Char)
  | [] => none
  | [c] => if c = '"' then some ([], []) else none
  | c :: d :: rest =>
    if c = '"' then some ([], d :: rest)
    else if c = '\\' then
      if d = '"' ∨ d = '\\' then
        match unescapeQuoted rest with
        | some (s, r) => some (d :: s, r)
        | none => none
      else none
    else
      match unescapeQuoted (d :: rest) with
      | some (s, r) => some (c :: s, r)
      | none => none

/-- The decimal digit character of `d < 10`. -/
def digitChar : Nat → Char
  | 0 => '0' | 1 => '1' | 2 => '2' | 3 => '3' | 4 => '4'
  | 5 => '5' | 6 => '6' | 7 => '7' | 8 => '8' | _ => '9'

/-- The numeric value of a decimal digit character. -/
def digitVal (c : Char) : Nat :=
  c.toNat - 48

/-- Decimal digits of `n`, most significant first (any `fuel > n`
suffices). -/
def printNatAux : Nat → Nat → List Char
  | 0, _ => []
  | fuel + 1, n =>
    if n < 10 then [digitChar n]
    else printNatAux fuel (n / 10) ++ [digitChar (n % 10)]

/-- Decimal printing of a natural number. -/
def printNatChars (n : Nat) : List Char :=
  printNatAux (n + 1) n

/-- Fold decimal digit characters onto an accumulator. -/
def foldDigits (acc : Nat) : List Char → Nat
  | [] => acc
  | c :: rest => foldDigits (acc * 10 + digitVal c) rest

/-- Decimal printing of an integer literal. -/
def printIntChars (i : Int) : List Char :=
  if i < 0 then '-' :: printNatChars i.natAbs else printNatChars i.natAbs

/-- Canonical printing of an entity UID literal; the identifier may be any
string and is printed in escaped, quoted form. -/
def printEuid (u : EntityUID) : List Char :=
  u.ty.data ++ [':', ':', '"'] ++ escapeChars u.id.data ++ ['"']

/-- The characters of a request variable. -/
def pvarChars : PVar → List Char
  | .principal => "principal".data
  | .action => "action".data
  | .resource => "resource".data
  | .context => "context".data

mutual

/-- Canonical printing of condition expressions. -/
def printExpr : PExpr → List Char
  | .litTrue => "true".data
  | .litFalse => "false".data
  | .litInt i => printIntChars i
  | .litStr s => '"' :: (escapeChars s.data ++ ['"'])
  | .pvar v => pvarChars v
  | .euid u => printEuid u
  | .notE e => '!' :: printExpr e
  | .andE a b => '(' :: (printExpr a ++ " && ".data ++ printExpr b ++ [')'])
  | .orE a b => '(' :: (printExpr a ++ " || ".data ++ printExpr b ++ [')'])
  | .eqE a b => '(' :: (printExpr a ++ " == ".data ++ printExpr b ++ [')'])
  | .memE a b => '(' :: (printExpr a ++ " in ".data ++ printExpr b ++ [')'])
  | .addE a b => '(' :: (printExpr a ++ " + ".data ++ printExpr b ++ [')'])
  | .subE a b => '(' :: (printExpr a ++ " - ".data ++ printExpr b ++ [')'])
  | .getA e attr =>
    '(' :: (printExpr e ++ " . ".data ++ '"' :: (escapeChars attr.data ++ "\")".data))
  | .hasA e attr =>
    '(' :: (printExpr e ++ " has ".data ++ '"' :: (escapeChars attr.data ++ "\")".data))
  | .setE es => '[' :: (printExprList es ++ [']'])
  | .recordE fs => '{' :: (printRecordList fs ++ ['}'])
  | .extE f args => f.data ++ '(' :: (printExprList args ++ [')'])

/-- Canonical printing of comma-separated expressions. -/
def printExprList : List PExpr → List Char
  | [] => []
  | [e] => printExpr e
  | e :: e2 :: rest => printExpr e ++ ',' :: ' ' :: printExprList (e2 :: rest)

/-- Canonical printing of comma-separated record fields. -/
def printRecordList : List (String × PExpr) → List Char
  | [] => []
  | [(k, v)] => '"' :: (escapeChars k.data ++ '"' :: ':' :: ' ' :: printExpr v)
  | (k, v) :: p :: rest =>
    ('"' :: (escapeChars k.data ++ '"' :: ':' :: ' ' :: printExpr v)) ++
      ',' :: ' ' :: printRecordList (p :: rest)

end

mutual

/-- A fuel bound sufficient to parse a printed expression. -/
def exprMeasure : PExpr → Nat
  | .litTrue => 1
  | .litFalse => 1
  | .litInt _ => 1
  | .litStr _ => 1
  | .pvar _ => 1
  | .euid _ => 1
  | .notE e => exprMeasure e + 1
  | .andE a b => max (exprMeasure a) (exprMeasure b) + 1
  | .orE a b => max (exprMeasure a) (exprMeasure b) + 1
  | .eqE a b => max (exprMeasure a) (exprMeasure b) + 1
  | .memE a b => max (exprMeasure a) (exprMeasure b) + 1
  | .addE a b => max (exprMeasure a) (exprMeasure b) + 1
  | .subE a b => max (exprMeasure a) (exprMeasure b) + 1
  | .getA e _ => exprMeasure e + 1
  | .hasA e _ => exprMeasure e + 1
  | .setE es => listMeasure es + 1
  | .recordE fs => recMeasure fs + 1
  | .extE _ args => listMeasure args + 1

/-- Fuel bound for comma-separated expression lists. -/
def listMeasure : List PExpr → Nat
  | [] => 1
  | e :: es => max (exprMeasure e) (listMeasure es) + 1

/-- Fuel bound for comma-separated record fields. -/
def recMeasure : List (String × PExpr) → Nat
  | [] => 1
  | (_, v) :: fs => max (exprMeasure v) (recMeasure fs) + 1

end

/-- Consume an expected literal character sequence from the input. -/
def expectChars : List Char → List Char → Option (List Char)
  | [], input => some input
  | _ :: _, [] => none
  | c :: cs, d :: input => if c = d then expectChars cs input else none

/-- Consume a keyword, requiring that it is not merely a prefix of a longer
identifier-ish token. -/
def keywordAt (kw : List Char) (input : List Char) : Option (List Char) :=
  match expectChars kw input with
  | none => none
  | some rest =>
    match rest with
    | [] => some []
    | c :: _ => if identish c then none else some rest

/-- Whether the input does not begin with a decimal digit. -/
def headNotDigit : List Char → Bool
  | [] => true
  | c :: _ => !c.isDigit

/-- Parse an entity UID literal: an identifier-ish type path ending in `::`
and not starting with a digit, then the escaped identifier between double
quotes. -/
def parseEuid (input : List Char) : Option (EntityUID × List Char) :=
  match input.dropWhile identish with
  | '"' :: rest2 =>
    match (input.takeWhile identish).reverse with
    | ':' :: ':' :: stemRev =>
      if stemRev.isEmpty then none
      else if headNotDigit stemRev.reverse then
        match unescapeQuoted rest2 with
        | some (idRaw, rest3) => some (⟨String.mk stemRev.reverse, String.mk idRaw⟩, rest3)
        | none => none
      else none
    | _ => none
  | _ => none

/-- The fully parenthesised binary operators of the condition grammar. -/
inductive OpTag where
  | andO
  | orO
  | eqO
  | memO
  | addO
  | subO
  | getO
  | hasO
deriving DecidableEq

/-- Recognise the operator separator after a parenthesised left operand. -/
def opSplit : List Char → Option (OpTag × List Char)
  | ' ' :: '&' :: '&' :: ' ' :: r => some (.andO, r)
  | ' ' :: '|' :: '|' :: ' ' :: r => some (.orO, r)
  | ' ' :: '=' :: '=' :: ' ' :: r => some (.eqO, r)
  | ' ' :: 'i' :: 'n' :: ' ' :: r => some (.memO, r)
  | ' ' :: '+' :: ' ' :: r => some (.addO, r)
  | ' ' :: '-' :: ' ' :: r => some (.subO, r)
  | ' ' :: '.' :: ' ' :: '"' :: r => some (.getO, r)
  | ' ' :: 'h' :: 'a' :: 's' :: ' ' :: '"' :: r => some (.hasO, r)
  | _ => none

mutual

/-- Parse a condition expression (the fuel bounds the nesting depth). -/
def parseExpr : Nat → List Char → Option (PExpr × List Char)
  | 0, _ => none
  | fuel + 1, input =>
    match keywordAt "true".data input with
    | some rest => some (.litTrue, rest)
    | none =>
    match keywordAt "false".data input with
    | some rest => some (.litFalse, rest)
    | none =>
    match keywordAt "principal".data input with
    | some rest => some (.pvar .principal, rest)
    | none =>
    match keywordAt "action".data input with
    | some rest => some (.pvar .action, rest)
    | none =>
    match keywordAt "resource".data input with
    | some rest => some (.pvar .resource, rest)
    | none =>
    match keywordAt "context".data input with
    | some rest => some (.pvar .context, rest)
    | none =>
    match input with
    | '!' :: rest =>
      match parseExpr fuel rest with
      | some (e, rest2) => some (.notE e, rest2)
      | none => none
    | '(' :: rest =>
      match parseExpr fuel rest with
      | none => none
      | some (a, rest2) =>
        match opSplit rest2 with
        | some (.andO, rest3) =>
          match parseExpr fuel rest3 with
          | none => none
          | some (b, rest4) =>
            match rest4 with
            | ')' :: rest5 => some (.andE a b, rest5)
            | _ => none
        | some (.orO, rest3) =>
          match parseExpr fuel rest3 with
          | none => none
          | some (b, rest4) =>
            match rest4 with
            | ')' :: rest5 => some (.orE a b, rest5)
            | _ => none
        | some (.eqO, rest3) =>
          match parseExpr fuel rest3 with
          | none => none
          | some (b, rest4) =>
            match rest4 with
            | ')' :: rest5 => some (.eqE a b, rest5)
            | _ => none
        | some (.memO, rest3) =>
          match parseExpr fuel rest3 with
          | none => none
          | some (b, rest4) =>
            match rest4 with
            | ')' :: rest5 => some (.memE a b, rest5)
            | _ => none
        | some (.addO, rest3) =>
          match parseExpr fuel rest3 with
          | none => none
          | some (b, rest4) =>
            match rest4 with
            | ')' :: rest5 => some (.addE a b, rest5)
            | _ => none
        | some (.subO, rest3) =>
          match parseExpr fuel rest3 with
          | none => none
          | some (b, rest4) =>
            match rest4 with
            | ')' :: rest5 => some (.subE a b, rest5)
            | _ => none
        | some (.getO, rest3) =>
          match unescapeQuoted rest3 with
          | some (attr, rest4) =>
            match rest4 with
            | ')' :: rest5 => some (.getA a (String.mk attr), rest5)
            | _ => none
          | none => none
        | some (.hasO, rest3) =>
          match unescapeQuoted rest3 with
          | some (attr, rest4) =>
            match rest4 with
            | ')' :: rest5 => some (.hasA a (String.mk attr), rest5)
            | _ => none
          | none => none
        | none => none
    | '[' :: rest =>
      match rest with
      | ']' :: rest2 => some (.setE [], rest2)
      | _ =>
        match parseExprList fuel ']' rest with
        | some (es, rest2) => some (.setE es, rest2)
        | none => none
    | '{' :: rest =>
      match rest with
      | '}' :: rest2 => some (.recordE [], rest2)
      | _ =>
        match parseRecordList fuel rest with
        | some (fs, rest2) => some (.recordE fs, rest2)
        | none => none
    | '"' :: rest =>
      match unescapeQuoted rest with
      | some (s, rest2) => some (.litStr (String.mk s), rest2)
      | none => none
    | c :: restc =>
      if c = '-' then
        if (restc.takeWhile Char.isDigit).isEmpty then none
        else
          some (.litInt (-(Int.ofNat (foldDigits 0 (restc.takeWhile Char.isDigit)))),
            restc.dropWhile Char.isDigit)
      else if c.isDigit then
        some (.litInt (Int.ofNat (foldDigits 0 ((c :: restc).takeWhile Char.isDigit))),
          (c :: restc).dropWhile Char.isDigit)
      else
        match (c :: restc).dropWhile identish with
        | '(' :: restArgs =>
          if ((c :: restc).takeWhile identish).isEmpty then none
          else
            match restArgs with
            | ')' :: rest2 =>
              some (.extE (String.mk ((c :: restc).takeWhile identish)) [], rest2)
            | _ =>
              match parseExprList fuel ')' restArgs with
              | some (args, rest2) =>
                some (.extE (String.mk ((c :: restc).takeWhile identish)) args, rest2)
              | none => none
        | _ =>
          match parseEuid (c :: restc) with
          | some (u, rest) => some (.euid u, rest)
          | none => none
    | [] => none

/-- Parse one or more comma-separated expressions up to the closing
character, consuming it. -/
def parseExprList : Nat → Char → List Char → Option (List PExpr × List Char)
  | 0, _, _ => none
  | fuel + 1, closer, input =>
    match parseExpr fuel input with
    | none => none
    | some (e, rest) =>
      match rest with
      | ',' :: ' ' :: rest2 =>
        match parseExprList fuel closer rest2 with
        | some (es, rest3) => some (e :: es, rest3)
        | none => none
      | d :: rest2 => if d = closer then some ([e], rest2) else none
      | [] => none

/-- Parse one or more comma-separated record fields up to `}`, consuming
it. -/
def parseRecordList : Nat → List Char → Option (List (String × PExpr) × List Char)
  | 0, _ => none
  | fuel + 1, input =>
    match input with
    | '"' :: rest =>
      match unescapeQuoted rest with
      | some (k, rest1) =>
        match rest1 with
        | ':' :: ' ' :: rest2 =>
          match parseExpr fuel rest2 with
          | none => none
          | some (v, rest3) =>
            match rest3 with
            | ',' :: ' ' :: rest4 =>
              match parseRecordList fuel rest4 with
              | some (fs, rest5) => some ((String.mk k, v) :: fs, rest5)
              | none => none
            | '}' :: rest4 => some ([(String.mk k, v)], rest4)
            | _ => none
        | _ => none
      | none => none
    | _ => none

end

/-- A scope constraint of the modelled textual grammar: any, `== UID`,
`in UID`, or `is Type [in UID]`. -/
inductive ScopeText where
  | any
  | eqS (u : EntityUID)
  | memS (u : EntityUID)
  | isS (ty : String) (m : Option EntityUID)
deriving DecidableEq

/-- Canonical printing of a scope constraint headed by variable `v`. -/
def printScope (v : List Char) : ScopeText → List Char
  | .any => v
  | .eqS u => v ++ " == ".data ++ printEuid u
  | .memS u => v ++ " in ".data ++ printEuid u
  | .isS ty none => v ++ " is ".data ++ ty.data
  | .isS ty (some u) => v ++ " is ".data ++ ty.data ++ " in ".data ++ printEuid u

/-- Parse a scope constraint headed by variable `v`. -/
def parseScope (v : List Char) (input : List Char) : Option (ScopeText × List Char) :=
  match expectChars v input with
  | none => none
  | some rest =>
    match rest with
    | ' ' :: '=' :: '=' :: ' ' :: rest2 =>
      match parseEuid rest2 with
      | some (u, rest3) => some (.eqS u, rest3)
      | none => none
    | ' ' :: 'i' :: 'n' :: ' ' :: rest2 =>
      match parseEuid rest2 with
      | some (u, rest3) => some (.memS u, rest3)
      | none => none
    | ' ' :: 'i' :: 's' :: ' ' :: rest2 =>
      if (rest2.takeWhile identish).isEmpty then none
      else
        match rest2.dropWhile identish with
        | ' ' :: 'i' :: 'n' :: ' ' :: rest3 =>
          match parseEuid rest3 with
          | some (u, rest4) =>
            some (.isS (String.mk (rest2.takeWhile identish)) (some u), rest4)
          | none => none
        | restOther => some (.isS (String.mk (rest2.takeWhile identish)) none, restOther)
    | _ => some (.any, rest)

/-- A `when` (`kindWhen = true`) or `unless` clause. -/
structure CondText where
  kindWhen : Bool
  body : PExpr

/-- Canonical printing of one condition clause. -/
def printCond (c : CondText) : List Char :=
  (if c.kindWhen then " when \x7b ".data else " unless \x7b ".data) ++
    printExpr c.body ++ " \x7d".data

/-- Canonical printing of the condition clauses. -/
def printConds : List CondText → List Char
  | [] => []
  | c :: cs => printCond c ++ printConds cs

/-- Parse the (possibly empty) sequence of condition clauses. -/
def parseConds : Nat → List Char → Option (List CondText × List Char)
  | 0, _ => none
  | fuel + 1, input =>
    match expectChars " when \x7b ".data input with
    | some rest =>
      match parseExpr rest.length rest with
      | some (e, rest2) =>
        match expectChars " \x7d".data rest2 with
        | some rest3 =>
          match parseConds fuel rest3 with
          | some (cs, rest4) => some (⟨true, e⟩ :: cs, rest4)
          | none => none
        | none => none
      | none => none
    | none =>
      match expectChars " unless \x7b ".data input with
      | some rest =>
        match parseExpr rest.length rest with
        | some (e, rest2) =>
          match expectChars " \x7d".data rest2 with
          | some rest3 =>
            match parseConds fuel rest3 with
            | some (cs, rest4) => some (⟨false, e⟩ :: cs, rest4)
            | none => none
          | none => none
        | none => none
      | none => some ([], input)

/-- Canonical printing of the annotations, each `@key("value") `. -/
def printAnnots : List (String × String) → List Char
  | [] => []
  | (k, v) :: rest =>
    '@' :: (k.data ++ '(' :: '"' :: (escapeChars v.data ++ '"' :: ')' :: ' ' :: printAnnots rest))

/-- Parse the (possibly empty) sequence of leading annotations. -/
def parseAnnots : Nat → List Char → Option (List (String × String) × List Char)
  | 0, _ => none
  | fuel + 1, input =>
    match input with
    | '@' :: rest =>
      if (rest.takeWhile isIdentChar).isEmpty then none
      else
        match rest.dropWhile isIdentChar with
        | '(' :: '"' :: rest2 =>
          match unescapeQuoted rest2 with
          | some (v, rest3) =>
            match rest3 with
            | ')' :: ' ' :: rest4 =>
              match parseAnnots fuel rest4 with
              | some (as_, rest5) =>
                some ((String.mk (rest.takeWhile isIdentChar), String.mk v) :: as_, rest5)
              | none => none
            | _ => none
          | none => none
        | _ => none
    | _ => some ([], input)

/-- A policy in the modelled textual grammar. -/
structure PolicyText where
  annots : List (String × String)
  effect : Effect
  principalScope : ScopeText
  actionScope : ScopeText
  resourceScope : ScopeText
  conds : List CondText

/-- Canonical printing of a policy, character level. -/
def printPolicyChars (p : PolicyText) : List Char :=
  printAnnots p.annots ++
    (match p.effect with
     | .permit => "permit(".data
     | .forbid => "forbid(".data) ++
    printScope "principal".data p.principalScope ++ ", ".data ++
    printScope "action".data p.actionScope ++ ", ".data ++
    printScope "resource".data p.resourceScope ++ [')'] ++
    printConds p.conds ++ [';']

/-- Canonical printing of a policy. -/
def printPolicy (p : PolicyText) : String :=
  String.mk (printPolicyChars p)

/-- Parse the body of a policy after its annotations and effect keyword; the
trailing `;` must end the input, mirroring `Policy::from_str` consuming the
whole string. -/
def parsePolicyAfterEffect (annots : List (String × String)) (eff : Effect)
    (rest0 : List Char) : Option PolicyText :=
  match parseScope "principal".data rest0 with
  | none => none
  | some (ps, rest1) =>
    match expectChars ", ".data rest1 with
    | none => none
    | some rest2 =>
      match parseScope "action".data rest2 with
      | none => none
      | some (sa, rest3) =>
        match expectChars ", ".data rest3 with
        | none => none
        | some rest4 =>
          match parseScope "resource".data rest4 with
          | none => none
          | some (rs, rest5) =>
            match rest5 with
            | ')' :: rest6 =>
              match parseConds (rest6.length + 1) rest6 with
              | none => none
              | some (cs, rest7) =>
                match rest7 with
                | [';'] => some ⟨annots, eff, ps, sa, rs, cs⟩
                | _ => none
            | _ => none

/-- Parse a policy, character level: annotations, then the effect, then the
body. -/
def parsePolicyChars (input : List Char) : Option PolicyText :=
  match parseAnnots (input.length + 1) input with
  | none => none
  | some (annots, rest) =>
    match expectChars "permit(".data rest with
    | some rest0 => parsePolicyAfterEffect annots .permit rest0
    | none =>
      match expectChars "forbid(".data rest with
      | some rest0 => parsePolicyAfterEffect annots .forbid rest0
      | none => none

/-- Parse a policy from its text. -/
def parsePolicyText (s : String) : Option PolicyText :=
  parsePolicyChars s.data

/-! ## Well-formedness of printable policies -/

/-- A printable type path: nonempty and identifier-ish. -/
def wfTy (s : String) : Bool :=
  !s.data.isEmpty && s.data.all identish

/-- A printable entity UID: a nonempty identifier-ish type path not starting
with a digit; the identifier may be any string. -/
def wfEuid (u : EntityUID) : Bool :=
  wfTy u.ty && headNotDigit u.ty.data

/-- The reserved words of the modelled condition grammar. -/
def grammarKeywords : List String :=
  ["true", "false", "principal", "action", "resource", "context"]

/-- A printable extension-function name: identifier-ish, not starting with a
digit, and not a reserved word. -/
def wfExtName (f : String) : Bool :=
  wfTy f && headNotDigit f.data && !grammarKeywords.contains f

mutual

/-- Well-formedness of condition expressions. -/
def wfExpr : PExpr → Bool
  | .litTrue => true
  | .litFalse => true
  | .litInt _ => true
  | .litStr _ => true
  | .pvar _ => true
  | .euid u => wfEuid u
  | .notE e => wfExpr e
  | .andE a b => wfExpr a && wfExpr b
  | .orE a b => wfExpr a && wfExpr b
  | .eqE a b => wfExpr a && wfExpr b
  | .memE a b => wfExpr a && wfExpr b
  | .addE a b => wfExpr a && wfExpr b
  | .subE a b => wfExpr a && wfExpr b
  | .getA e _ => wfExpr e
  | .hasA e _ => wfExpr e
  | .setE es => wfExprList es
  | .recordE fs => wfRecList fs
  | .extE f args => wfExtName f && wfExprList args

/-- Well-formedness of expression lists. -/
def wfExprList : List PExpr → Bool
  | [] => true
  | e :: es => wfExpr e && wfExprList es

/-- Well-formedness of record fields. -/
def wfRecList : List (String × PExpr) → Bool
  | [] => true
  | (_, v) :: fs => wfExpr v && wfRecList fs

end

/-- Well-formedness of a scope constraint. -/
def wfScope : ScopeText → Bool
  | .any => true
  | .eqS u => wfEuid u
  | .memS u => wfEuid u
  | .isS ty none => wfTy ty
  | .isS ty (some u) => wfTy ty && wfEuid u

/-- Well-formedness of the condition clauses. -/
def wfConds : List CondText → Bool
  | [] => true
  | c :: cs => wfExpr c.body && wfConds cs

/-- Well-formedness of the annotations: each key is an identifier. -/
def wfAnnots : List (String × String) → Bool
  | [] => true
  | (k, _) :: rest => isIdent k && wfAnnots rest

/-- Well-formedness of a policy. -/
def wfPolicy (p : PolicyText) : Bool :=
  wfAnnots p.annots && wfScope p.principalScope && wfScope p.actionScope &&
    wfScope p.resourceScope && wfConds p.conds

/-- Whether the input does not begin inside an identifier-ish token. -/
def headDelim : List Char → Bool
  | [] => true
  | c :: _ => !identish c

/-- Whether the input does not begin with a space. -/
def headNonSpace : List Char → Bool
  | [] => true
  | c :: _ => c != ' '

/-- Characters that can begin a printed expression. -/
def exprHeadChar (c : Char) : Bool :=
  identish c || c = '!' || c = '(' || c = '[' || c = '{' || c = '"' || c = '-'

/-! ## Concrete scenario data -/

/-- The UID `User::"alice"`. -/
def aliceUID : EntityUID := ⟨"User", "alice"⟩

/-- The policy `forbid(principal == User::"alice", action, resource);` from
the spec's deny-overrides scenario. -/
def forbidAlice : Policy :=
  ⟨"forbid0", .forbid, .eq aliceUID, .any, .any, .lit (.bool true)⟩

/-- The policy `permit(principal, action, resource);`. -/
def permitAll : Policy :=
  ⟨"permit0", .permit, .any, .any, .any, .lit (.bool true)⟩

/-- A request by `User::"alice"` to view `Resource::"thing"`. -/
def reqAlice : Request :=
  ⟨some aliceUID, ⟨"Action", "view"⟩, some ⟨"Resource", "thing"⟩, []⟩

/-- The `AuthorizationOperation` request body of
`test_unspecified_principal_call_succeeds` in tests.rs: a `null` principal,
action `Action::"view"`, resource `Resource::"thing"`, the single static
policy `"001": permit(principal, action, resource);`, and no entities. -/
def nullPrincipalCall : AuthorizationCall :=
  ⟨none, ⟨"Action", "view"⟩, some ⟨"Resource", "thing"⟩, [],
    [⟨"001", .permit, .any, .any, .any, .lit (.bool true)⟩], []⟩

/-- A well-formed `ValidateEntityCall` with an empty schema and no
entities. -/
def emptyValidateEntityCall : ValidateEntityCall := ⟨.ok ⟨[]⟩, .ok []⟩

/-- The `UserGroup` schema of `validate_entities_detect_cycle_fails`. -/
def userGroupSchema : SchemaM :=
  ⟨[⟨"PhotoApp::UserGroup", [], ["PhotoApp::UserGroup"]⟩]⟩

/-- The cyclic entity graph of `validate_entities_detect_cycle_fails`:
`ABCTeam` and `AVTeam` are each other's parents. -/
def cyclicGroups : Entities :=
  [⟨⟨"PhotoApp::UserGroup", "ABCTeam"⟩, [], [⟨"PhotoApp::UserGroup", "AVTeam"⟩], []⟩,
   ⟨⟨"PhotoApp::UserGroup", "AVTeam"⟩, [], [⟨"PhotoApp::UserGroup", "ABCTeam"⟩], []⟩]

/-- The `ValidateEntities` request carrying the cyclic group graph. -/
def cyclicCall : ValidateEntityCall := ⟨.ok userGroupSchema, .ok cyclicGroups⟩

/-- The condition `principal in resource.owner.friend`: two chained
entity-typed dereferences. -/
def chainedCond : Expr :=
  .inE (.var .principal) (.getAttr (.getAttr (.var .resource) "owner") "friend")

/-- `policy0` of the level-validation tests in helpers.rs:
`permit(principal in UserGroup::"alice_friends", action ==
Action::"viewPhoto", resource) when {principal in
resource.owner.friend};`. -/
def policy0 : Policy :=
  ⟨"policy0", .permit, .mem ⟨"UserGroup", "alice_friends"⟩,
    .eq ⟨"Action", "viewPhoto"⟩, .any, chainedCond⟩

/-- The photo-app schema fragment of the level-validation tests, with the
entity-typed attributes `User.friend : User` and `Photo.owner : User`. -/
def photoSchema : SchemaM :=
  ⟨[⟨"User", [("friend", .entityT "User", true)], ["UserGroup"]⟩,
    ⟨"Photo", [("owner", .entityT "User", true)], ["Album", "Account"]⟩,
    ⟨"Album", [], ["Album", "Account"]⟩,
    ⟨"Account", [], []⟩,
    ⟨"UserGroup", [], []⟩]⟩

/-- The call of `test_invalid_policy_validates_with_errors`
(`maxDerefLevel = 1`). -/
def levelCall1 : LevelValidationCall :=
  ⟨⟨"strict"⟩, .ok (photoSchema, []), .ok [policy0], 1⟩

/-- The call of `test_correct_policy_validates_without_errors`
(`maxDerefLevel = 2`). -/
def levelCall2 : LevelValidationCall :=
  ⟨⟨"strict"⟩, .ok (photoSchema, []), .ok [policy0], 2⟩

/-- The annotated policy text of the C8 witness: an annotation, an
`is … in` principal scope, an `==` action scope, and a `when` clause using
`has`, `!`, attribute access on `context` and an integer literal. -/
def c8wText : String :=
  "@id(\"p0\") permit(principal is User in Group::\"g\", action == Action::\"view\", resource) when \x7b ((principal has \"tag\") && !((context . \"n\") == 5)) \x7d;"

/-- The parse of the C8 witness text. -/
def c8wPolicy : PolicyText :=
  ⟨[("id", "p0")], .permit, .isS "User" (some ⟨"Group", "g"⟩),
   .eqS ⟨"Action", "view"⟩, .any,
   [⟨true, .andE (.hasA (.pvar .principal) "tag")
      (.notE (.eqE (.getA (.pvar .context) "n") (.litInt 5)))⟩]⟩

/-! ## Theorems -/

/-- If some policy with the given effect is satisfied, the satisfied-ID list
for that effect is nonempty. -/
theorem satisfiedWithEffect_ne_nil {es : Entities} {req : Request} {eff : Effect}
    {ps : List Policy} (h : ∃ p ∈ ps, p.effect = eff ∧ satisfied es req p = true) :
    satisfiedWithEffect es req eff ps ≠ [] := by
  obtain ⟨p, hp, heff, hsat⟩ := h
  have hmem : p ∈ ps.filter (fun p => p.effect == eff && satisfied es req p) :=
    List.mem_filter.mpr ⟨hp, by simp [heff, hsat]⟩
  unfold satisfiedWithEffect
  intro hnil
  rw [List.map_eq_nil_iff] at hnil
  rw [hnil] at hmem
  exact List.not_mem_nil p hmem

/-- C1: if any applicable Forbid policy is satisfied, the decision is Deny —
regardless of satisfied Permits — and the determining policies are exactly
the satisfied Forbid policies. -/
theorem c1_deny_overrides (req : Request) (ps : List Policy) (es : Entities)
    (h : ∃ p ∈ ps, p.effect = .forbid ∧ satisfied es req p = true) :
    (is_authorized req ps es).decision = .deny ∧
    (is_authorized req ps es).determiningPolicies =
      (ps.filter (fun p => p.effect == .forbid && satisfied es req p)).map
        (fun p => p.id) := by
  have hne := satisfiedWithEffect_ne_nil h
  have hempty : (satisfiedWithEffect es req .forbid ps).isEmpty = false := by
    cases hl : satisfiedWithEffect es req .forbid ps with
    | nil => exact absurd hl hne
    | cons a l => rfl
  unfold is_authorized
  rw [hempty]
  exact ⟨rfl, rfl⟩

/-- C1 witness: `forbid(principal == User::"alice", action, resource);`
together with `permit(principal, action, resource);`, request by alice:
Deny, determined by the forbid policy alone. -/
theorem c1_deny_overrides_witness :
    (∃ p ∈ [forbidAlice, permitAll], p.effect = .forbid ∧
      satisfied [] reqAlice p = true) ∧
    (is_authorized reqAlice [forbidAlice, permitAll] []).decision = .deny ∧
    (is_authorized reqAlice [forbidAlice, permitAll] []).determiningPolicies =
      (([forbidAlice, permitAll]).filter
        (fun p => p.effect == .forbid && satisfied [] reqAlice p)).map
        (fun p => p.id) :=
  ⟨by decide, c1_deny_overrides reqAlice [forbidAlice, permitAll] [] (by decide)⟩

/-- Shared helper: `validate_entities` answers either Success "null" or a
non-internal bad-request failure. -/
theorem validate_entities_cases (call : ValidateEntityCall) :
    validate_entities call = .success "null" ∨
      ∃ errs, validate_entities call = Answer.fail_bad_request errs := by
  obtain ⟨sch, ents⟩ := call
  cases sch with
  | error e => exact Or.inr ⟨[e], rfl⟩
  | ok schema =>
    have hv : validate_entities ⟨.ok schema, ents⟩ =
        (match entitiesFromJson schema ents with
         | .error err => Answer.fail_bad_request [err.message]
         | .ok _ => .success "null") := rfl
    cases h : entitiesFromJson schema ents with
    | error err =>
      refine Or.inr ⟨[err.message], ?_⟩
      rw [hv, h]
    | ok u =>
      refine Or.inl ?_
      rw [hv, h]

/-- C2 counterexample: on an input string that is not well-formed JSON (for
example `"{]"`, whose serde parse outcome is the error shown), the
`ValidateEntities` arm of `call_cedar` panics (modelled `none`) instead of
returning an Answer. -/
theorem c2_malformed_input_panics :
    call_cedar_validate_entities
      (.error "expected value at line 1 column 2") = none := rfl

/-- C2 amended: for inputs whose envelope deserializes as a
`ValidateEntityCall`, `call_cedar` returns the serialized Answer and any
failure is a non-internal bad request; when the envelope fails to
deserialize, the serde error propagates and `call_cedar` panics. -/
theorem c2_validate_entities_answers (input : Except String ValidateEntityCall) :
    (∀ call, input = .ok call →
      call_cedar_validate_entities input = some (validate_entities call) ∧
      (validate_entities call = .success "null" ∨
        ∃ errs, validate_entities call = Answer.fail_bad_request errs)) ∧
    (∀ e, input = .error e → call_cedar_validate_entities input = none) := by
  constructor
  · intro call h
    subst h
    exact ⟨rfl, validate_entities_cases call⟩
  · intro e h
    subst h
    rfl

/-- C2 witness: a well-formed empty call gets a successful Answer. -/
theorem c2_validate_entities_answers_witness :
    Except.ok emptyValidateEntityCall =
        (Except.ok emptyValidateEntityCall : Except String ValidateEntityCall) ∧
    call_cedar_validate_entities (.ok emptyValidateEntityCall) =
      some (validate_entities emptyValidateEntityCall) ∧
    (validate_entities emptyValidateEntityCall = .success "null" ∨
      ∃ errs, validate_entities emptyValidateEntityCall = Answer.fail_bad_request errs) :=
  ⟨rfl,
    ((c2_validate_entities_answers (.ok emptyValidateEntityCall)).1
      emptyValidateEntityCall rfl).1,
    ((c2_validate_entities_answers (.ok emptyValidateEntityCall)).1
      emptyValidateEntityCall rfl).2⟩

/-- C3 counterexample: the request of
`test_unspecified_principal_call_succeeds` — a `null` principal with the
policy `permit(principal, action, resource);` — does not succeed: the call
returns an authorization failure (exactly what the test asserts). -/
theorem c3_null_principal_fails :
    (is_authorized_call nullPrincipalCall).isSuccess = false := by decide

/-- C3 amended: an `AuthorizationOperation` request with a `null`
(unspecified) principal or resource is rejected by the request parser and
returns `AuthorizationAnswer::Failure` rather than a decision. -/
theorem c3_null_component_rejected (c : AuthorizationCall)
    (h : c.principal = none ∨ c.resource = none) :
    is_authorized_call c =
      .failure ["failed to parse request: expected an entity uid, got null"] := by
  rcases h with h | h <;>
    cases hp : c.principal <;>
      cases hr : c.resource <;>
        simp_all [is_authorized_call]

/-- C3 witness: the amended statement at the test's request. -/
theorem c3_null_component_rejected_witness :
    (nullPrincipalCall.principal = none ∨ nullPrincipalCall.resource = none) ∧
    is_authorized_call nullPrincipalCall =
      .failure ["failed to parse request: expected an entity uid, got null"] :=
  ⟨Or.inl rfl, c3_null_component_rejected nullPrincipalCall (Or.inl rfl)⟩

/-- C4: for the policy requiring two chained entity dereferences
(`principal in resource.owner.friend`), validating with `maxDerefLevel = 1`
yields exactly one validation error tagged `policy0` naming levels 2 and 1,
while `maxDerefLevel = 2` yields no validation errors. -/
theorem c4_level_validation :
    validate_with_level levelCall1 =
      .success [⟨"policy0",
        "for policy `policy0`, this policy requires level 2, which exceeds the maximum allowed level (1)"⟩]
        [] [] ∧
    validate_with_level levelCall2 = .success [] [] [] := by decide

/-- C5: a cyclic parent graph (no duplicate UIDs) makes `validate_entities`
fail with a non-internal answer whose message names a vertex lying on a
cycle. -/
theorem c5_cycle_rejected (call : ValidateEntityCall) (schema : SchemaM)
    (es : Entities) (hs : call.schema = .ok schema) (he : call.entities = .ok es)
    (hnodup : firstDuplicate (es.map (fun e => e.uid)) = none)
    (hcyc : ∃ e ∈ es, onCycle es e.uid = true) :
    ∃ u, onCycle es u = true ∧
      validate_entities call = Answer.fail_bad_request [cycleMsg u] := by
  have hsome : (es.find? (fun e => onCycle es e.uid)).isSome :=
    List.find?_isSome.mpr (by
      obtain ⟨e, he', hc⟩ := hcyc
      exact ⟨e, he', hc⟩)
  obtain ⟨e₀, hfind⟩ := Option.isSome_iff_exists.mp hsome
  have hc₀ := List.find?_some hfind
  simp only at hc₀
  obtain ⟨schF, entsF⟩ := call
  simp only at hs he
  subst hs
  subst he
  refine ⟨e₀.uid, hc₀, ?_⟩
  have h2b : findCycleVertex es = some e₀.uid := by
    unfold findCycleVertex
    rw [hfind]
    rfl
  have h2 : entitiesFromJson schema (.ok es) =
      .error (.transitiveClosure (cycleMsg e₀.uid)) := by
    simp only [entitiesFromJson]
    rw [hnodup, h2b]
  have h3 : validate_entities ⟨.ok schema, .ok es⟩ =
      (match entitiesFromJson schema (.ok es) with
       | .error err => Answer.fail_bad_request [err.message]
       | .ok _ => .success "null") := rfl
  rw [h3, h2]
  rfl

/-- C5 witness: the two mutually-parenting `PhotoApp::UserGroup` groups of
`validate_entities_detect_cycle_fails`. -/
theorem c5_cycle_rejected_witness :
    (cyclicCall.schema = .ok userGroupSchema ∧
      cyclicCall.entities = .ok cyclicGroups ∧
      firstDuplicate (cyclicGroups.map (fun e => e.uid)) = none ∧
      (∃ e ∈ cyclicGroups, onCycle cyclicGroups e.uid = true)) ∧
    ∃ u, onCycle cyclicGroups u = true ∧
      validate_entities cyclicCall = Answer.fail_bad_request [cycleMsg u] :=
  ⟨⟨rfl, rfl, by decide, by decide⟩,
    c5_cycle_rejected cyclicCall userGroupSchema cyclicGroups rfl rfl
      (by decide) (by decide)⟩

/-- C6: every deserialized `ValidateEntityCall` gets either Success "null"
or a non-internal bad-request failure — never an internal failure. -/
theorem c6_validate_entities_never_internal (call : ValidateEntityCall) :
    validate_entities call = .success "null" ∨
      ∃ errs, validate_entities call = Answer.fail_bad_request errs :=
  validate_entities_cases call

/-- C7: when both the policy set and the schema parse, `validate_with_level`
returns Success carrying the (possibly empty) diagnostics; Failure arises
only from a policy-set or schema parse error. -/
theorem c7_validation_always_completes (c : LevelValidationCall) :
    (∀ ps schema w, c.policies = .ok ps → c.schema = .ok (schema, w) →
      validate_with_level c =
        .success (validatePoliciesWithLevel ps c.maxDerefLevel) [] w) ∧
    (∀ es ws, validate_with_level c = .failure es ws →
      (∃ msgs, c.policies = .error msgs) ∨ (∃ msg, c.schema = .error msg)) := by
  obtain ⟨settings, schF, polF, maxL⟩ := c
  constructor
  · intro ps sch w hp hs
    simp only at hp hs
    subst hp
    subst hs
    rfl
  · intro es ws hf
    cases hp : polF with
    | error msgs => exact Or.inl ⟨msgs, rfl⟩
    | ok ps =>
      cases hs : schF with
      | error msg => exact Or.inr ⟨msg, rfl⟩
      | ok pr =>
        obtain ⟨sch, w⟩ := pr
        subst hp
        subst hs
        simp [validate_with_level, LevelValidationCall.get_components] at hf

/-- C7 witness: the concrete well-parsed level-validation call. -/
theorem c7_validation_always_completes_witness :
    levelCall2.policies = .ok [policy0] ∧
    levelCall2.schema = .ok (photoSchema, []) ∧
    validate_with_level levelCall2 =
      .success (validatePoliciesWithLevel [policy0] levelCall2.maxDerefLevel) [] [] :=
  ⟨rfl, rfl,
    (c7_validation_always_completes levelCall2).1 [policy0] photoSchema [] rfl rfl⟩

/-- Rebuilding a string from its characters is the identity. -/
theorem strMkData (s : String) : String.mk s.data = s := by
  cases s
  rfl

/-- Mapping rebuild-from-characters over strings is the identity. -/
theorem map_mk_data (l : List String) :
    l.map ((fun cs => String.mk cs) ∘ String.data) = l := by
  induction l with
  | nil => rfl
  | cons p l ih => simp only [List.map_cons, Function.comp_apply, strMkData, ih]

/-- Splitting after a colon-free group followed by `::` peels off the
group. -/
theorem splitColons_append (g rest : List Char) (h : ∀ c ∈ g, c ≠ ':') :
    splitColons (g ++ ':' :: ':' :: rest) = g :: splitColons rest := by
  induction g with
  | nil => simp [splitColons]
  | cons a g ih =>
    have ha : a ≠ ':' := h a (List.mem_cons_self a g)
    have h' : ∀ c ∈ g, c ≠ ':' := fun c hc => h c (List.mem_cons_of_mem a hc)
    cases g with
    | nil => simp [splitColons, ha]
    | cons b g' =>
      have hrec := ih h'
      have hstep : splitColons (a :: b :: (g' ++ ':' :: ':' :: rest)) =
          if a = ':' ∧ b = ':' then [] :: splitColons (g' ++ ':' :: ':' :: rest)
          else
            match splitColons (b :: (g' ++ ':' :: ':' :: rest)) with
            | [] => [[a]]
            | g :: gs => (a :: g) :: gs := rfl
      rw [List.cons_append, List.cons_append, hstep, if_neg (by simp [ha])]
      rw [List.cons_append] at hrec
      rw [hrec]

/-- Splitting a colon-free group is the identity. -/
theorem splitColons_no_colon (g : List Char) (h : ∀ c ∈ g, c ≠ ':') :
    splitColons g = [g] := by
  induction g with
  | nil => rfl
  | cons a g ih =>
    have ha : a ≠ ':' := h a (List.mem_cons_self a g)
    have h' : ∀ c ∈ g, c ≠ ':' := fun c hc => h c (List.mem_cons_of_mem a hc)
    cases g with
    | nil => rfl
    | cons b g' =>
      have hstep : splitColons (a :: b :: g') =
          if a = ':' ∧ b = ':' then [] :: splitColons g'
          else
            match splitColons (b :: g') with
            | [] => [[a]]
            | g :: gs => (a :: g) :: gs := rfl
      rw [hstep, if_neg (by simp [ha]), ih h']

/-- Splitting the `::`-join of nonempty colon-free components recovers the
components. -/
theorem splitColons_joinColons (parts : List String) (hne : parts ≠ [])
    (h : ∀ p ∈ parts, ∀ c ∈ p.data, c ≠ ':') :
    splitColons (joinColons parts).data = parts.map String.data := by
  induction parts with
  | nil => exact absurd rfl hne
  | cons p parts ih =>
    cases parts with
    | nil =>
      simp only [joinColons, List.map]
      exact splitColons_no_colon p.data (h p (List.mem_cons_self p []))
    | cons q rest =>
      have hdata : (p ++ "::" ++ joinColons (q :: rest)).data =
          p.data ++ ':' :: ':' :: (joinColons (q :: rest)).data := by
        simp [String.data_append]
      rw [joinColons, hdata,
        splitColons_append p.data _ (h p (List.mem_cons_self p _)),
        ih (by simp) (fun r hr => h r (List.mem_cons_of_mem p hr))]
      rfl

/-- An identifier contains no colon. -/
theorem isIdent_no_colon (s : String) (h : isIdent s = true) :
    ∀ c ∈ s.data, c ≠ ':' := by
  intro c hc hceq
  unfold isIdent at h
  have h2 := ((Bool.and_eq_true _ _).mp h).2
  have h3 := List.all_eq_true.mp h2 c hc
  subst hceq
  exact absurd h3 (by decide)

/-- Colon-free character lists contain no colon pair. -/
theorem no_colon_containsColonPair (l : List Char) (h : ∀ c ∈ l, c ≠ ':') :
    containsColonPair l = false := by
  induction l with
  | nil => rfl
  | cons a l ih =>
    have ha : a ≠ ':' := h a (List.mem_cons_self a l)
    have h' : ∀ c ∈ l, c ≠ ':' := fun c hc => h c (List.mem_cons_of_mem a hc)
    cases l with
    | nil => rfl
    | cons b l' =>
      rw [containsColonPair, ih h']
      simp [ha]

/-- An identifier does not contain `::`. -/
theorem isIdent_containsColons (s : String) (h : isIdent s = true) :
    containsColons s = false :=
  no_colon_containsColonPair s.data (isIdent_no_colon s h)

/-- Parsing the `::`-join of identifier components yields exactly those
components. -/
theorem parseEntityTypeName_joinColons (parts : List String) (hne : parts ≠ [])
    (h : parts.all isIdent = true) :
    parseEntityTypeName (joinColons parts) = .ok ⟨parts⟩ := by
  have hcol : ∀ p ∈ parts, ∀ c ∈ p.data, c ≠ ':' := fun p hp =>
    isIdent_no_colon p (List.all_eq_true.mp h p hp)
  unfold parseEntityTypeName
  rw [splitColons_joinColons parts hne hcol, List.map_map, map_mk_data, if_pos h]

/-- C9: `JEntityTypeName::new` and `JEntityTypeName::cast` reject any
component containing `::`; otherwise the result is the parse of the
components joined with `::`, and on identifier components it is exactly the
given component path — no component can smuggle in extra namespace
levels. -/
theorem c9_type_name_components (basename : String) (ns : List String) :
    ((ns ++ [basename]).any containsColons = true →
      jEntityTypeNameNew basename ns =
        .error "components of the type name cannot contain colons" ∧
      jEntityTypeNameCast ns basename =
        .error "components of the type name cannot contain colons") ∧
    ((ns ++ [basename]).any containsColons = false →
      jEntityTypeNameNew basename ns =
        parseEntityTypeName (joinColons (ns ++ [basename])) ∧
      jEntityTypeNameCast ns basename =
        parseEntityTypeName (joinColons (ns ++ [basename]))) ∧
    ((ns ++ [basename]).all isIdent = true →
      jEntityTypeNameNew basename ns = .ok ⟨ns ++ [basename]⟩ ∧
      jEntityTypeNameCast ns basename = .ok ⟨ns ++ [basename]⟩) := by
  refine ⟨fun h => ?_, fun h => ?_, fun h => ?_⟩
  · constructor <;> simp [jEntityTypeNameNew, jEntityTypeNameCast, h]
  · constructor <;> simp [jEntityTypeNameNew, jEntityTypeNameCast, h]
  · have hnc : (ns ++ [basename]).any containsColons = false := by
      rw [List.any_eq_false]
      intro p hp
      rw [isIdent_containsColons p (List.all_eq_true.mp h p hp)]
      exact Bool.false_ne_true
    have hp := parseEntityTypeName_joinColons (ns ++ [basename]) (by simp) h
    constructor <;> simp [jEntityTypeNameNew, jEntityTypeNameCast, hnc, hp]

/-- C9 witness: basename `User` under namespace `PhotoApp` builds exactly
`PhotoApp::User`. -/
theorem c9_type_name_components_witness :
    (["PhotoApp"] ++ ["User"]).all isIdent = true ∧
    jEntityTypeNameNew "User" ["PhotoApp"] = .ok ⟨["PhotoApp", "User"]⟩ ∧
    jEntityTypeNameCast ["PhotoApp"] "User" = .ok ⟨["PhotoApp", "User"]⟩ :=
  ⟨by decide,
    ((c9_type_name_components "User" ["PhotoApp"]).2.2 (by decide)).1,
    ((c9_type_name_components "User" ["PhotoApp"]).2.2 (by decide)).2⟩

/-- C10: `List::get` is total — Ok with the element in bounds, an
`IndexOutOfBounds` error recording the length and the index out of
bounds. -/
theorem c10_list_get_total {α : Type} (l : List α) (i : Int) :
    (∀ h : 0 ≤ i ∧ i.toNat < l.length,
      listGet l i = .ok (l.get ⟨i.toNat, h.2⟩)) ∧
    (¬(0 ≤ i ∧ i.toNat < l.length) →
      listGet l i = .error (.indexOutOfBounds (l.length : Int) i)) := by
  constructor
  · intro h
    unfold listGet javaListGet
    rw [dif_pos h]
  · intro h
    unfold listGet javaListGet
    rw [dif_neg h]

/-- C10 witness: in bounds at index 1 of a two-element list, out of bounds
at index 5. -/
theorem c10_list_get_total_witness :
    (0 ≤ (1 : Int) ∧ (1 : Int).toNat < ([10, 20] : List Nat).length) ∧
    listGet ([10, 20] : List Nat) 1 = .ok 20 ∧
    ¬(0 ≤ (5 : Int) ∧ (5 : Int).toNat < ([10, 20] : List Nat).length) ∧
    listGet ([10, 20] : List Nat) 5 = .error (.indexOutOfBounds 2 5) :=
  ⟨by decide, (c10_list_get_total [10, 20] 1).1 (by decide), by decide,
    (c10_list_get_total [10, 20] 5).2 (by decide)⟩

/-! ### Character-level lemmas for the policy-text round trip -/

/-- Consuming an expected prefix succeeds and returns the remainder. -/
theorem expectChars_append (pre rest : List Char) :
    expectChars pre (pre ++ rest) = some rest := by
  induction pre with
  | nil => rfl
  | cons c cs ih => simp [expectChars, ih]

/-- A keyword parses off its own print when followed by a delimiter. -/
theorem keywordAt_self (kw rest : List Char) (h : headDelim rest = true) :
    keywordAt kw (kw ++ rest) = some rest := by
  unfold keywordAt
  rw [expectChars_append]
  cases rest with
  | nil => rfl
  | cons c xs =>
    unfold headDelim at h
    simp only [Bool.not_eq_true'] at h
    simp [h]

/-- A keyword check steps over one matching character. -/
theorem keywordAt_cons_eq (k : Char) (kw : List Char) (xs : List Char) :
    keywordAt (k :: kw) (k :: xs) = keywordAt kw xs := by
  simp [keywordAt, expectChars]

/-- A keyword check fails on a mismatching head character. -/
theorem keywordAt_ne_head (k : Char) (kw : List Char) (c : Char) (xs : List Char)
    (h : k ≠ c) : keywordAt (k :: kw) (c :: xs) = none := by
  simp [keywordAt, expectChars, h]

/-- A keyword of identifier characters never matches an identifier-ish block
containing a colon. -/
theorem keywordAt_colon_block (block kw rest : List Char)
    (hkw : kw.all isIdentChar = true) (hb : block.all identish = true)
    (hc : ':' ∈ block) : keywordAt kw (block ++ rest) = none := by
  induction block generalizing kw with
  | nil => simp at hc
  | cons b block' ih =>
    have hb1 : identish b = true := (List.all_eq_true.mp hb) b (List.mem_cons_self b block')
    have hb' : block'.all identish = true :=
      List.all_eq_true.mpr (fun c hcm =>
        List.all_eq_true.mp hb c (List.mem_cons_of_mem b hcm))
    cases kw with
    | nil =>
      simp [keywordAt, expectChars, hb1]
    | cons k kw' =>
      have hk : isIdentChar k = true := (List.all_eq_true.mp hkw) k (List.mem_cons_self k kw')
      have hkw' : kw'.all isIdentChar = true :=
        List.all_eq_true.mpr (fun c hcm =>
          List.all_eq_true.mp hkw c (List.mem_cons_of_mem k hcm))
      by_cases hkb : k = b
      · subst hkb
        rw [List.cons_append, keywordAt_cons_eq]
        have hbne : k ≠ ':' := by
          intro hh
          rw [hh] at hk
          exact absurd hk (by decide)
        have hc' : ':' ∈ block' := by
          cases List.mem_cons.mp hc with
          | inl h0 => exact absurd h0.symm hbne
          | inr h0 => exact h0
        exact ih kw' hkw' hb' hc'
      · rw [List.cons_append]
        simp [keywordAt, expectChars, hkb]

/-- A keyword never matches a different identifier-ish block followed by a
non-identifier character. -/
theorem keywordAt_ident_block : ∀ (B kw : List Char) (c : Char) (rest : List Char),
    kw.all isIdentChar = true → B.all identish = true → B ≠ kw →
    identish c = false → keywordAt kw (B ++ c :: rest) = none := by
  intro B
  induction B with
  | nil =>
    intro kw c rest hkw hb hne hc
    cases kw with
    | nil => exact absurd rfl hne
    | cons k kw' =>
      have hk : isIdentChar k = true := (List.all_eq_true.mp hkw) k (List.mem_cons_self k kw')
      have hkc : k ≠ c := by
        intro he
        subst he
        simp [identish, hk] at hc
      exact keywordAt_ne_head k kw' c rest hkc
  | cons b B' ih =>
    intro kw c rest hkw hb hne hc
    have hb1 : identish b = true := (List.all_eq_true.mp hb) b (List.mem_cons_self b B')
    have hb' : B'.all identish = true :=
      List.all_eq_true.mpr (fun x hx => List.all_eq_true.mp hb x (List.mem_cons_of_mem b hx))
    cases kw with
    | nil => simp [keywordAt, expectChars, hb1]
    | cons k kw' =>
      have hkw' : kw'.all isIdentChar = true :=
        List.all_eq_true.mpr (fun x hx => List.all_eq_true.mp hkw x (List.mem_cons_of_mem k hx))
      by_cases hkb : k = b
      · subst hkb
        rw [List.cons_append, keywordAt_cons_eq]
        have hne' : B' ≠ kw' := by
          intro he
          exact hne (by rw [he])
        exact ih kw' c rest hkw' hb' hne' hc
      · rw [List.cons_append]
        simp [keywordAt, expectChars, hkb]

/-- takeWhile and dropWhile split an append at the first failing element. -/
theorem takeWhileP_append {α : Type} (p : α → Bool) (xs ys : List α)
    (h1 : ∀ c ∈ xs, p c = true) (h2 : ∀ y, ys.head? = some y → p y = false) :
    (xs ++ ys).takeWhile p = xs ∧ (xs ++ ys).dropWhile p = ys := by
  induction xs with
  | nil =>
    cases ys with
    | nil => exact ⟨rfl, rfl⟩
    | cons y ys' =>
      have hy := h2 y rfl
      simp [List.takeWhile_cons, List.dropWhile_cons, hy]
  | cons x xs ih =>
    have hx := h1 x (List.mem_cons_self x xs)
    have h1' : ∀ c ∈ xs, p c = true := fun c hc => h1 c (List.mem_cons_of_mem x hc)
    have ⟨iht, ihd⟩ := ih h1'
    simp [List.takeWhile_cons, List.dropWhile_cons, hx, iht, ihd]

/-- Every element kept by takeWhile satisfies the predicate. -/
theorem takeWhile_all {α : Type} (p : α → Bool) (l : List α) :
    (l.takeWhile p).all p = true := by
  induction l with
  | nil => rfl
  | cons x xs ih =>
    rw [List.takeWhile_cons]
    cases hx : p x with
    | false => rfl
    | true => simp [hx, ih]

/-- A nonempty list has a nonempty reverse. -/
theorem reverse_isEmpty_false {α : Type} (l : List α) (h : l.isEmpty = false) :
    l.reverse.isEmpty = false := by
  cases l with
  | nil => simp at h
  | cons a l' => simp

/-- Unescaping undoes escaping, up to the closing quote. -/
theorem escape_unescape (s rest : List Char) :
    unescapeQuoted (escapeChars s ++ '"' :: rest) = some (s, rest) := by
  induction s with
  | nil =>
    cases rest with
    | nil => rfl
    | cons d r => rfl
  | cons c s ih =>
    by_cases hc : c = '"' ∨ c = '\\'
    · have hshape : escapeChars (c :: s) ++ '"' :: rest =
          '\\' :: c :: (escapeChars s ++ '"' :: rest) := by
        simp [escapeChars, hc]
      rw [hshape]
      have hstep : unescapeQuoted ('\\' :: c :: (escapeChars s ++ '"' :: rest)) =
          (if c = '"' ∨ c = '\\' then
            match unescapeQuoted (escapeChars s ++ '"' :: rest) with
            | some (s', r) => some (c :: s', r)
            | none => none
           else none) := rfl
      rw [hstep, if_pos hc, ih]
    · push_neg at hc
      have hshape : escapeChars (c :: s) ++ '"' :: rest =
          c :: (escapeChars s ++ '"' :: rest) := by
        simp [escapeChars, hc.1, hc.2]
      rw [hshape]
      cases hL : escapeChars s ++ '"' :: rest with
      | nil => simp at hL
      | cons y L' =>
        have hstep : unescapeQuoted (c :: y :: L') =
            (if c = '"' then some ([], y :: L')
             else if c = '\\' then
               (if y = '"' ∨ y = '\\' then
                 match unescapeQuoted L' with
                 | some (s', r) => some (y :: s', r)
                 | none => none
                else none)
             else
               match unescapeQuoted (y :: L') with
               | some (s', r) => some (c :: s', r)
               | none => none) := rfl
        rw [hstep, if_neg hc.1, if_neg hc.2, ← hL, ih]

/-- The value of a digit character of `d < 10`. -/
theorem digitVal_digitChar : ∀ d : Nat, d < 10 → digitVal (digitChar d) = d := by decide

/-- Digit characters are digits. -/
theorem digitChar_isDigit : ∀ d : Nat, d < 10 → (digitChar d).isDigit = true := by decide

/-- Folding digits distributes over append. -/
theorem foldDigits_append (acc : Nat) (xs ys : List Char) :
    foldDigits acc (xs ++ ys) = foldDigits (foldDigits acc xs) ys := by
  induction xs generalizing acc with
  | nil => rfl
  | cons c xs ih =>
    have h1 : foldDigits acc ((c :: xs) ++ ys) =
        foldDigits (acc * 10 + digitVal c) (xs ++ ys) := rfl
    have h2 : foldDigits acc (c :: xs) = foldDigits (acc * 10 + digitVal c) xs := rfl
    rw [h1, h2, ih]

/-- The decimal printer produces nonempty all-digit output that folds back
to its input. -/
theorem printNatAux_spec : ∀ (fuel n : Nat), n < fuel →
    printNatAux fuel n ≠ [] ∧ (printNatAux fuel n).all Char.isDigit = true ∧
    ∀ acc, foldDigits acc (printNatAux fuel n) =
      acc * 10 ^ (printNatAux fuel n).length + n := by
  intro fuel
  induction fuel with
  | zero => intro n h; omega
  | succ f ih =>
    intro n h
    by_cases h10 : n < 10
    · have hrw : printNatAux (f + 1) n = [digitChar n] := by
        simp [printNatAux, h10]
      refine ⟨by simp [hrw], by simp [hrw, digitChar_isDigit n h10], ?_⟩
      intro acc
      have hstep : foldDigits acc [digitChar n] =
          acc * 10 + digitVal (digitChar n) := rfl
      rw [hrw, hstep, digitVal_digitChar n h10]
      simp
    · have hlt : n / 10 < f := by
        have h1 : n / 10 < n := Nat.div_lt_self (by omega) (by omega)
        omega
      obtain ⟨hne, hdig, hfold⟩ := ih (n / 10) hlt
      have hrw : printNatAux (f + 1) n =
          printNatAux f (n / 10) ++ [digitChar (n % 10)] := by
        simp [printNatAux, h10]
      have hmod : n % 10 < 10 := Nat.mod_lt _ (by omega)
      refine ⟨by simp [hrw], ?_, ?_⟩
      · rw [hrw]
        simp [List.all_append, hdig, digitChar_isDigit _ hmod]
      · intro acc
        have hstep : ∀ m : Nat, foldDigits m [digitChar (n % 10)] =
            m * 10 + digitVal (digitChar (n % 10)) := fun m => rfl
        rw [hrw, foldDigits_append, hfold acc, hstep, digitVal_digitChar _ hmod,
          List.length_append, List.length_singleton, pow_succ, ← mul_assoc]
        have hdm := Nat.div_add_mod n 10
        generalize acc * 10 ^ (printNatAux f (n / 10)).length = t
        omega

/-- The decimal printer round-trips on naturals. -/
theorem printNatChars_spec (n : Nat) :
    printNatChars n ≠ [] ∧ (printNatChars n).all Char.isDigit = true ∧
    foldDigits 0 (printNatChars n) = n := by
  obtain ⟨h1, h2, h3⟩ := printNatAux_spec (n + 1) n (by omega)
  refine ⟨h1, h2, ?_⟩
  have := h3 0
  simpa using this

/-- Digits are identifier-ish characters. -/
theorem isDigit_identish (c : Char) (h : c.isDigit = true) : identish c = true := by
  simp [identish, isIdentChar, Char.isAlphanum, h]

/-- Every expression has positive fuel measure. -/
theorem exprMeasure_pos (e : PExpr) : 1 ≤ exprMeasure e := by
  cases e <;> simp [exprMeasure]

/-- Every expression list has positive fuel measure. -/
theorem listMeasure_pos (es : List PExpr) : 1 ≤ listMeasure es := by
  cases es <;> simp [listMeasure]

/-- Every record-field list has positive fuel measure. -/
theorem recMeasure_pos (fs : List (String × PExpr)) : 1 ≤ recMeasure fs := by
  cases fs with
  | nil => simp [recMeasure]
  | cons p fs => obtain ⟨k, v⟩ := p; simp [recMeasure]

/-- Elements measure below their list. -/
theorem mem_listMeasure (es : List PExpr) (e : PExpr) (h : e ∈ es) :
    exprMeasure e < listMeasure es := by
  induction es with
  | nil => simp at h
  | cons x xs ih =>
    cases List.mem_cons.mp h with
    | inl he =>
      subst he
      have := le_max_left (exprMeasure e) (listMeasure xs)
      simp only [listMeasure]
      omega
    | inr hm =>
      have h1 := ih hm
      have := le_max_right (exprMeasure x) (listMeasure xs)
      simp only [listMeasure]
      omega

/-- Field values measure below their record list. -/
theorem mem_recMeasure (fs : List (String × PExpr)) (p : String × PExpr) (h : p ∈ fs) :
    exprMeasure p.2 < recMeasure fs := by
  induction fs with
  | nil => simp at h
  | cons x xs ih =>
    obtain ⟨k, v⟩ := x
    cases List.mem_cons.mp h with
    | inl he =>
      subst he
      have hpv : ((k, v) : String × PExpr).2 = v := rfl
      have := le_max_left (exprMeasure v) (recMeasure xs)
      simp only [recMeasure, hpv]
      omega
    | inr hm =>
      have h1 := ih hm
      have := le_max_right (exprMeasure v) (recMeasure xs)
      simp only [recMeasure]
      omega

/-- Members of a well-formed expression list are well-formed. -/
theorem wfExprList_mem (es : List PExpr) (h : wfExprList es = true)
    (e : PExpr) (he : e ∈ es) : wfExpr e = true := by
  induction es with
  | nil => simp at he
  | cons x xs ih =>
    have hx : wfExpr x = true := ((Bool.and_eq_true _ _).mp h).1
    have hxs : wfExprList xs = true := ((Bool.and_eq_true _ _).mp h).2
    cases List.mem_cons.mp he with
    | inl h0 => subst h0; exact hx
    | inr h0 => exact ih hxs h0

/-- Values of a well-formed record list are well-formed. -/
theorem wfRecList_mem (fs : List (String × PExpr)) (h : wfRecList fs = true)
    (p : String × PExpr) (hp : p ∈ fs) : wfExpr p.2 = true := by
  induction fs with
  | nil => simp at hp
  | cons x xs ih =>
    obtain ⟨k, v⟩ := x
    have hx : wfExpr v = true := ((Bool.and_eq_true _ _).mp h).1
    have hxs : wfRecList xs = true := ((Bool.and_eq_true _ _).mp h).2
    cases List.mem_cons.mp hp with
    | inl h0 => subst h0; exact hx
    | inr h0 => exact ih hxs h0

/-- A printed expression is nonempty and starts with an expression-head
character. -/
theorem printExpr_head (e : PExpr) (hwf : wfExpr e = true) :
    ∃ c t, printExpr e = c :: t ∧ exprHeadChar c = true := by
  cases e with
  | litTrue => exact ⟨'t', _, rfl, by decide⟩
  | litFalse => exact ⟨'f', _, rfl, by decide⟩
  | litInt i =>
    by_cases hneg : i < 0
    · refine ⟨'-', printNatChars i.natAbs, ?_, by decide⟩
      simp [printExpr, printIntChars, hneg]
    · obtain ⟨h1, h2, _⟩ := printNatChars_spec i.natAbs
      cases hpn : printNatChars i.natAbs with
      | nil => exact absurd hpn h1
      | cons c t =>
        have hcdig : c.isDigit = true := by
          rw [hpn, List.all_cons] at h2
          exact ((Bool.and_eq_true _ _).mp h2).1
        refine ⟨c, t, ?_, ?_⟩
        · simp [printExpr, printIntChars, hneg, hpn]
        · simp [exprHeadChar, isDigit_identish c hcdig]
  | litStr s => exact ⟨'"', _, rfl, by decide⟩
  | pvar v =>
    cases v with
    | principal => exact ⟨'p', _, rfl, by decide⟩
    | action => exact ⟨'a', _, rfl, by decide⟩
    | resource => exact ⟨'r', _, rfl, by decide⟩
    | context => exact ⟨'c', _, rfl, by decide⟩
  | euid u =>
    have h2 : u.ty.data.all identish = true :=
      ((Bool.and_eq_true _ _).mp ((Bool.and_eq_true _ _).mp hwf).1).2
    have h1 : u.ty.data.isEmpty = false := by
      have := ((Bool.and_eq_true _ _).mp ((Bool.and_eq_true _ _).mp hwf).1).1
      simpa using this
    cases hty : u.ty.data with
    | nil => rw [hty] at h1; simp at h1
    | cons c t =>
      have hcid : identish c = true := by
        rw [hty, List.all_cons] at h2
        exact ((Bool.and_eq_true _ _).mp h2).1
      refine ⟨c, t ++ [':', ':', '"'] ++ escapeChars u.id.data ++ ['"'], ?_, ?_⟩
      · simp [printExpr, printEuid, hty]
      · simp [exprHeadChar, hcid]
  | notE e1 => exact ⟨'!', _, rfl, by decide⟩
  | andE a b => exact ⟨'(', _, rfl, by decide⟩
  | orE a b => exact ⟨'(', _, rfl, by decide⟩
  | eqE a b => exact ⟨'(', _, rfl, by decide⟩
  | memE a b => exact ⟨'(', _, rfl, by decide⟩
  | addE a b => exact ⟨'(', _, rfl, by decide⟩
  | subE a b => exact ⟨'(', _, rfl, by decide⟩
  | getA e1 attr => exact ⟨'(', _, rfl, by decide⟩
  | hasA e1 attr => exact ⟨'(', _, rfl, by decide⟩
  | setE es => exact ⟨'[', _, rfl, by decide⟩
  | recordE fs => exact ⟨'{', _, rfl, by decide⟩
  | extE f args =>
    have hwt : wfTy f = true :=
      ((Bool.and_eq_true _ _).mp ((Bool.and_eq_true _ _).mp
        ((Bool.and_eq_true _ _).mp hwf).1).1).1
    have h2 : f.data.all identish = true := ((Bool.and_eq_true _ _).mp hwt).2
    have h1 : f.data.isEmpty = false := by
      have := ((Bool.and_eq_true _ _).mp hwt).1
      simpa using this
    cases hty : f.data with
    | nil => rw [hty] at h1; simp at h1
    | cons c t =>
      have hcid : identish c = true := by
        rw [hty, List.all_cons] at h2
        exact ((Bool.and_eq_true _ _).mp h2).1
      refine ⟨c, t ++ '(' :: (printExprList args ++ [')']), ?_, ?_⟩
      · simp [printExpr, hty]
      · simp [exprHeadChar, hcid]

/-- The printed form of a nonempty expression list starts with the head of
its first element's print. -/
theorem printExprList_cons_head (e : PExpr) (t : List PExpr) (c : Char)
    (t0 : List Char) (h : printExpr e = c :: t0) :
    ∃ t', printExprList (e :: t) = c :: t' := by
  cases t with
  | nil => exact ⟨t0, h⟩
  | cons e2 rest =>
    refine ⟨t0 ++ ',' :: ' ' :: printExprList (e2 :: rest), ?_⟩
    simp [printExprList, h]

/-- The printed form of a nonempty record list starts with a quote. -/
theorem printRecordList_cons_head (p : String × PExpr) (t : List (String × PExpr)) :
    ∃ t', printRecordList (p :: t) = '"' :: t' := by
  obtain ⟨k, v⟩ := p
  cases t with
  | nil => exact ⟨escapeChars k.data ++ '"' :: ':' :: ' ' :: printExpr v, rfl⟩
  | cons p2 rest =>
    refine ⟨(escapeChars k.data ++ '"' :: ':' :: ' ' :: printExpr v) ++
      ',' :: ' ' :: printRecordList (p2 :: rest), ?_⟩
    simp [printRecordList]

/-- List-print length bound, given element bounds. -/
theorem printExprList_length_aux (es : List PExpr)
    (hel : ∀ e ∈ es, exprMeasure e ≤ (printExpr e).length ∧ 1 ≤ (printExpr e).length) :
    listMeasure es ≤ (printExprList es).length + 1 := by
  induction es with
  | nil => simp [listMeasure, printExprList]
  | cons e t ih =>
    obtain ⟨he, hep⟩ := hel e (List.mem_cons_self e t)
    have ht := ih (fun x hx => hel x (List.mem_cons_of_mem e hx))
    cases t with
    | nil =>
      have hlm : listMeasure [e] = max (exprMeasure e) 1 + 1 := rfl
      have hpl : printExprList [e] = printExpr e := rfl
      rw [hlm, hpl]
      have hmax : max (exprMeasure e) 1 ≤ (printExpr e).length := max_le he hep
      omega
    | cons e2 rest =>
      have hlm : listMeasure (e :: e2 :: rest) =
          max (exprMeasure e) (listMeasure (e2 :: rest)) + 1 := rfl
      have hpl : printExprList (e :: e2 :: rest) =
          printExpr e ++ ',' :: ' ' :: printExprList (e2 :: rest) := rfl
      rw [hlm, hpl]
      simp only [List.length_append, List.length_cons]
      have h3 : max (exprMeasure e) (listMeasure (e2 :: rest)) ≤
          (printExpr e).length + (printExprList (e2 :: rest)).length + 1 := by
        apply max_le <;> omega
      omega

/-- Record-print length bound, given element bounds. -/
theorem printRecordList_length_aux (fs : List (String × PExpr))
    (hel : ∀ p ∈ fs, exprMeasure p.2 ≤ (printExpr p.2).length ∧ 1 ≤ (printExpr p.2).length) :
    recMeasure fs ≤ (printRecordList fs).length + 1 := by
  induction fs with
  | nil => simp [recMeasure, printRecordList]
  | cons p t ih =>
    obtain ⟨k, v⟩ := p
    have hkv : ((k, v) : String × PExpr).2 = v := rfl
    obtain ⟨he, hep⟩ := hel (k, v) (List.mem_cons_self (k, v) t)
    rw [hkv] at he hep
    have ht := ih (fun x hx => hel x (List.mem_cons_of_mem (k, v) hx))
    cases t with
    | nil =>
      have hrm : recMeasure [(k, v)] = max (exprMeasure v) 1 + 1 := rfl
      have hshape : printRecordList [(k, v)] =
          '"' :: (escapeChars k.data ++ '"' :: ':' :: ' ' :: printExpr v) := rfl
      rw [hrm, hshape]
      simp only [List.length_cons, List.length_append]
      have hmax : max (exprMeasure v) 1 ≤ (printExpr v).length := max_le he hep
      omega
    | cons p2 rest =>
      have hrm : recMeasure ((k, v) :: p2 :: rest) =
          max (exprMeasure v) (recMeasure (p2 :: rest)) + 1 := rfl
      have hshape : printRecordList ((k, v) :: p2 :: rest) =
          ('"' :: (escapeChars k.data ++ '"' :: ':' :: ' ' :: printExpr v)) ++
            ',' :: ' ' :: printRecordList (p2 :: rest) := rfl
      rw [hrm, hshape]
      simp only [List.length_append, List.length_cons]
      have h3 : max (exprMeasure v) (recMeasure (p2 :: rest)) ≤
          (escapeChars k.data).length + (printExpr v).length +
            (printRecordList (p2 :: rest)).length + 4 := by
        apply max_le <;> omega
      omega

/-- The print of an expression is at least as long as its fuel measure. -/
theorem printExpr_length_bound : ∀ (N : Nat) (e : PExpr), exprMeasure e ≤ N →
    exprMeasure e ≤ (printExpr e).length := by
  intro N
  induction N with
  | zero =>
    intro e hN
    have := exprMeasure_pos e
    omega
  | succ N ih =>
    intro e hN
    have hel : ∀ (l : List PExpr), listMeasure l ≤ N + 1 →
        ∀ x ∈ l, exprMeasure x ≤ (printExpr x).length ∧ 1 ≤ (printExpr x).length := by
      intro l hl x hx
      have h1 := mem_listMeasure l x hx
      have h2 := ih x (by omega)
      have := exprMeasure_pos x
      exact ⟨h2, by omega⟩
    have her : ∀ (l : List (String × PExpr)), recMeasure l ≤ N + 1 →
        ∀ x ∈ l, exprMeasure x.2 ≤ (printExpr x.2).length ∧ 1 ≤ (printExpr x.2).length := by
      intro l hl x hx
      have h1 := mem_recMeasure l x hx
      have h2 := ih x.2 (by omega)
      have := exprMeasure_pos x.2
      exact ⟨h2, by omega⟩
    cases e with
    | litTrue => decide
    | litFalse => decide
    | litInt i =>
      obtain ⟨h1, _, _⟩ := printNatChars_spec i.natAbs
      have hpos : 1 ≤ (printNatChars i.natAbs).length := by
        cases hpn : printNatChars i.natAbs with
        | nil => exact absurd hpn h1
        | cons c t => simp
      by_cases hneg : i < 0 <;>
        simp [printExpr, printIntChars, exprMeasure, hneg] <;> omega
    | litStr s => simp [printExpr, exprMeasure]
    | pvar v => cases v <;> decide
    | euid u =>
      simp [printExpr, printEuid, exprMeasure, List.length_append]
      omega
    | notE e1 =>
      have hm : exprMeasure (PExpr.notE e1) = exprMeasure e1 + 1 := rfl
      have h1 := ih e1 (by rw [hm] at hN; omega)
      have hpl : printExpr (PExpr.notE e1) = '!' :: printExpr e1 := rfl
      rw [hm, hpl]
      simp only [List.length_cons]
      omega
    | andE a b =>
      have hm : exprMeasure (PExpr.andE a b) =
          max (exprMeasure a) (exprMeasure b) + 1 := rfl
      have hub : max (exprMeasure a) (exprMeasure b) ≤ N := by
        rw [hm] at hN
        omega
      have ha := ih a (le_trans (le_max_left _ _) hub)
      have hb := ih b (le_trans (le_max_right _ _) hub)
      have hpl : printExpr (PExpr.andE a b) =
          '(' :: (printExpr a ++ " && ".data ++ printExpr b ++ [')']) := rfl
      rw [hm, hpl]
      simp only [List.length_cons, List.length_append]
      have h3 : max (exprMeasure a) (exprMeasure b) ≤
          (printExpr a).length + (printExpr b).length := by
        apply max_le <;> omega
      omega
    | orE a b =>
      have hm : exprMeasure (PExpr.orE a b) =
          max (exprMeasure a) (exprMeasure b) + 1 := rfl
      have hub : max (exprMeasure a) (exprMeasure b) ≤ N := by
        rw [hm] at hN
        omega
      have ha := ih a (le_trans (le_max_left _ _) hub)
      have hb := ih b (le_trans (le_max_right _ _) hub)
      have hpl : printExpr (PExpr.orE a b) =
          '(' :: (printExpr a ++ " || ".data ++ printExpr b ++ [')']) := rfl
      rw [hm, hpl]
      simp only [List.length_cons, List.length_append]
      have h3 : max (exprMeasure a) (exprMeasure b) ≤
          (printExpr a).length + (printExpr b).length := by
        apply max_le <;> omega
      omega
    | eqE a b =>
      have hm : exprMeasure (PExpr.eqE a b) =
          max (exprMeasure a) (exprMeasure b) + 1 := rfl
      have hub : max (exprMeasure a) (exprMeasure b) ≤ N := by
        rw [hm] at hN
        omega
      have ha := ih a (le_trans (le_max_left _ _) hub)
      have hb := ih b (le_trans (le_max_right _ _) hub)
      have hpl : printExpr (PExpr.eqE a b) =
          '(' :: (printExpr a ++ " == ".data ++ printExpr b ++ [')']) := rfl
      rw [hm, hpl]
      simp only [List.length_cons, List.length_append]
      have h3 : max (exprMeasure a) (exprMeasure b) ≤
          (printExpr a).length + (printExpr b).length := by
        apply max_le <;> omega
      omega
    | memE a b =>
      have hm : exprMeasure (PExpr.memE a b) =
          max (exprMeasure a) (exprMeasure b) + 1 := rfl
      have hub : max (exprMeasure a) (exprMeasure b) ≤ N := by
        rw [hm] at hN
        omega
      have ha := ih a (le_trans (le_max_left _ _) hub)
      have hb := ih b (le_trans (le_max_right _ _) hub)
      have hpl : printExpr (PExpr.memE a b) =
          '(' :: (printExpr a ++ " in ".data ++ printExpr b ++ [')']) := rfl
      rw [hm, hpl]
      simp only [List.length_cons, List.length_append]
      have h3 : max (exprMeasure a) (exprMeasure b) ≤
          (printExpr a).length + (printExpr b).length := by
        apply max_le <;> omega
      omega
    | addE a b =>
      have hm : exprMeasure (PExpr.addE a b) =
          max (exprMeasure a) (exprMeasure b) + 1 := rfl
      have hub : max (exprMeasure a) (exprMeasure b) ≤ N := by
        rw [hm] at hN
        omega
      have ha := ih a (le_trans (le_max_left _ _) hub)
      have hb := ih b (le_trans (le_max_right _ _) hub)
      have hpl : printExpr (PExpr.addE a b) =
          '(' :: (printExpr a ++ " + ".data ++ printExpr b ++ [')']) := rfl
      rw [hm, hpl]
      simp only [List.length_cons, List.length_append]
      have h3 : max (exprMeasure a) (exprMeasure b) ≤
          (printExpr a).length + (printExpr b).length := by
        apply max_le <;> omega
      omega
    | subE a b =>
      have hm : exprMeasure (PExpr.subE a b) =
          max (exprMeasure a) (exprMeasure b) + 1 := rfl
      have hub : max (exprMeasure a) (exprMeasure b) ≤ N := by
        rw [hm] at hN
        omega
      have ha := ih a (le_trans (le_max_left _ _) hub)
      have hb := ih b (le_trans (le_max_right _ _) hub)
      have hpl : printExpr (PExpr.subE a b) =
          '(' :: (printExpr a ++ " - ".data ++ printExpr b ++ [')']) := rfl
      rw [hm, hpl]
      simp only [List.length_cons, List.length_append]
      have h3 : max (exprMeasure a) (exprMeasure b) ≤
          (printExpr a).length + (printExpr b).length := by
        apply max_le <;> omega
      omega
    | getA e1 attr =>
      have hm : exprMeasure (PExpr.getA e1 attr) = exprMeasure e1 + 1 := rfl
      have h1 := ih e1 (by rw [hm] at hN; omega)
      have hpl : printExpr (PExpr.getA e1 attr) =
          '(' :: (printExpr e1 ++ " . ".data ++
            '"' :: (escapeChars attr.data ++ "\")".data)) := rfl
      rw [hm, hpl]
      simp only [List.length_cons, List.length_append]
      omega
    | hasA e1 attr =>
      have hm : exprMeasure (PExpr.hasA e1 attr) = exprMeasure e1 + 1 := rfl
      have h1 := ih e1 (by rw [hm] at hN; omega)
      have hpl : printExpr (PExpr.hasA e1 attr) =
          '(' :: (printExpr e1 ++ " has ".data ++
            '"' :: (escapeChars attr.data ++ "\")".data)) := rfl
      rw [hm, hpl]
      simp only [List.length_cons, List.length_append]
      omega
    | setE es =>
      have hm : exprMeasure (PExpr.setE es) = listMeasure es + 1 := rfl
      have hl : listMeasure es ≤ N + 1 := by rw [hm] at hN; omega
      have hb := printExprList_length_aux es (hel es hl)
      have hpl : printExpr (PExpr.setE es) = '[' :: (printExprList es ++ [']']) := rfl
      rw [hm, hpl]
      simp only [List.length_cons, List.length_append, List.length_singleton]
      omega
    | recordE fs =>
      have hm : exprMeasure (PExpr.recordE fs) = recMeasure fs + 1 := rfl
      have hl : recMeasure fs ≤ N + 1 := by rw [hm] at hN; omega
      have hb := printRecordList_length_aux fs (her fs hl)
      have hpl : printExpr (PExpr.recordE fs) =
          '{' :: (printRecordList fs ++ ['}']) := rfl
      rw [hm, hpl]
      simp only [List.length_cons, List.length_append, List.length_singleton]
      omega
    | extE f args =>
      have hm : exprMeasure (PExpr.extE f args) = listMeasure args + 1 := rfl
      have hl : listMeasure args ≤ N + 1 := by rw [hm] at hN; omega
      have hb := printExprList_length_aux args (hel args hl)
      have hpl : printExpr (PExpr.extE f args) =
          f.data ++ '(' :: (printExprList args ++ [')']) := rfl
      rw [hm, hpl]
      simp only [List.length_cons, List.length_append, List.length_singleton]
      omega

/-- The print of an expression is at least as long as its fuel measure. -/
theorem printExpr_length (e : PExpr) : exprMeasure e ≤ (printExpr e).length :=
  printExpr_length_bound (exprMeasure e) e le_rfl

/-- The identifier-ish block of a printed UID. -/
theorem euid_block_all (u : EntityUID) (h : wfEuid u = true) :
    (u.ty.data ++ [':', ':']).all identish = true := by
  have h2 : u.ty.data.all identish = true :=
    ((Bool.and_eq_true _ _).mp ((Bool.and_eq_true _ _).mp h).1).2
  refine List.all_eq_true.mpr ?_
  intro c hc
  cases List.mem_append.mp hc with
  | inl hl => exact List.all_eq_true.mp h2 c hl
  | inr hr =>
    have : c = ':' := by
      cases List.mem_cons.mp hr with
      | inl h0 => exact h0
      | inr h0 => simpa using h0
    subst this
    decide

/-- Parsing a printed entity UID recovers it and leaves the remainder. -/
theorem parseEuid_print (u : EntityUID) (rest : List Char) (h : wfEuid u = true) :
    parseEuid (printEuid u ++ rest) = some (u, rest) := by
  have h1 : u.ty.data.isEmpty = false := by
    have := ((Bool.and_eq_true _ _).mp ((Bool.and_eq_true _ _).mp h).1).1
    simpa using this
  have h2 : u.ty.data.all identish = true :=
    ((Bool.and_eq_true _ _).mp ((Bool.and_eq_true _ _).mp h).1).2
  have h3 : headNotDigit u.ty.data = true :=
    ((Bool.and_eq_true _ _).mp h).2
  have hin : printEuid u ++ rest =
      (u.ty.data ++ [':', ':']) ++ ('"' :: (escapeChars u.id.data ++ '"' :: rest)) := by
    simp [printEuid]
  have hsplit := takeWhileP_append identish (u.ty.data ++ [':', ':'])
      ('"' :: (escapeChars u.id.data ++ '"' :: rest))
      (fun c hc => List.all_eq_true.mp (euid_block_all u h) c hc)
      (by
        intro y hy
        injection hy with hy'
        subst hy'
        decide)
  have h1r := reverse_isEmpty_false u.ty.data h1
  rw [hin]
  unfold parseEuid
  rw [hsplit.1, hsplit.2]
  simp [List.reverse_append, h1r, h3, escape_unescape, strMkData]

/-- Any successfully parsed entity UID is well-formed. -/
theorem parseEuid_wf (input : List Char) (u : EntityUID) (rest : List Char)
    (h : parseEuid input = some (u, rest)) : wfEuid u = true := by
  unfold parseEuid at h
  split at h
  next rest2 hdrop =>
    split at h
    next stemRev hrev =>
      split at h
      next hemp => simp at h
      next hemp =>
        split at h
        next hdig =>
          split at h
          next idRaw rest3 hun =>
            simp only [Option.some.injEq, Prod.mk.injEq] at h
            obtain ⟨hu, hrest⟩ := h
            subst hu
            unfold wfEuid wfTy
            have htake : input.takeWhile identish = stemRev.reverse ++ [':', ':'] := by
              have := congrArg List.reverse hrev
              simpa using this
            have hstem : ∀ c ∈ stemRev.reverse, identish c = true := by
              intro c hc
              have hmem : c ∈ input.takeWhile identish := by
                rw [htake]
                exact List.mem_append_left _ hc
              exact List.all_eq_true.mp (takeWhile_all identish input) c hmem
            have hne : (stemRev.reverse).isEmpty = false := by
              cases hsr : stemRev with
              | nil => rw [hsr] at hemp; simp at hemp
              | cons a t => simp
            simp only [Bool.and_eq_true]
            refine ⟨⟨?_, ?_⟩, ?_⟩
            · simp only [Bool.not_eq_true']
              exact hne
            · exact List.all_eq_true.mpr hstem
            · exact hdig
          next => simp at h
        next => simp at h
    next => simp at h
  next => simp at h

/-- Head-of-rest characters are delimiters after headDelim. -/
theorem headDelim_no_digit (rest : List Char) (hd : headDelim rest = true) :
    ∀ y, rest.head? = some y → Char.isDigit y = false := by
  intro y hy
  cases rest with
  | nil => simp at hy
  | cons r0 rs =>
    have hy0 : r0 = y := by simpa using hy
    subst hy0
    have hidf : identish r0 = false := by
      have hh : headDelim (r0 :: rs) = !identish r0 := rfl
      rw [hh] at hd
      simpa using hd
    cases hdg : r0.isDigit with
    | false => rfl
    | true => exact absurd (isDigit_identish r0 hdg) (by simp [hidf])

set_option maxHeartbeats 1600000 in
/-- Reduction of the expression parser on an identifier-ish head that is not
a keyword. -/
theorem parseExpr_atom_step (f : Nat) (c : Char) (xs : List Char)
    (hk1 : keywordAt "true".data (c :: xs) = none)
    (hk2 : keywordAt "false".data (c :: xs) = none)
    (hk3 : keywordAt "principal".data (c :: xs) = none)
    (hk4 : keywordAt "action".data (c :: xs) = none)
    (hk5 : keywordAt "resource".data (c :: xs) = none)
    (hk6 : keywordAt "context".data (c :: xs) = none)
    (hc : identish c = true) :
    parseExpr (f + 1) (c :: xs) =
      (if c = '-' then
        (if (xs.takeWhile Char.isDigit).isEmpty then none
         else
           some (.litInt (-(Int.ofNat (foldDigits 0 (xs.takeWhile Char.isDigit)))),
             xs.dropWhile Char.isDigit))
       else if c.isDigit then
         some (.litInt (Int.ofNat (foldDigits 0 ((c :: xs).takeWhile Char.isDigit))),
           (c :: xs).dropWhile Char.isDigit)
       else
         match (c :: xs).dropWhile identish with
         | '(' :: restArgs =>
           if ((c :: xs).takeWhile identish).isEmpty then none
           else
             match restArgs with
             | ')' :: rest2 =>
               some (.extE (String.mk ((c :: xs).takeWhile identish)) [], rest2)
             | _ =>
               match parseExprList f ')' restArgs with
               | some (args, rest2) =>
                 some (.extE (String.mk ((c :: xs).takeWhile identish)) args, rest2)
               | none => none
         | _ =>
           match parseEuid (c :: xs) with
           | some (u, rest) => some (.euid u, rest)
           | none => none) := by
  simp only [parseExpr, hk1, hk2, hk3, hk4, hk5, hk6]
  split
  next heq =>
    exfalso
    injection heq with h1 _
    subst h1
    exact absurd hc (by decide)
  next heq =>
    exfalso
    injection heq with h1 _
    subst h1
    exact absurd hc (by decide)
  next heq =>
    exfalso
    injection heq with h1 _
    subst h1
    exact absurd hc (by decide)
  next heq =>
    exfalso
    injection heq with h1 _
    subst h1
    exact absurd hc (by decide)
  next heq =>
    exfalso
    injection heq with h1 _
    subst h1
    exact absurd hc (by decide)
  next c' restc heq =>
    injection heq with h1 h2
    subst h1
    subst h2
    rfl
  next heq => exact absurd heq (by simp)

/-- Parsing a printed comma-separated expression list recovers it. -/
theorem parseExprList_print_aux (closer : Char) (hcl : identish closer = false)
    (hcm : closer ≠ ',') :
    ∀ (es : List PExpr), es ≠ [] →
    (∀ e ∈ es, wfExpr e = true) →
    (∀ e ∈ es, ∀ (fuel : Nat) (rest : List Char), headDelim rest = true →
      exprMeasure e ≤ fuel → parseExpr fuel (printExpr e ++ rest) = some (e, rest)) →
    ∀ (fuel : Nat) (rest : List Char), listMeasure es ≤ fuel →
      parseExprList fuel closer (printExprList es ++ closer :: rest) = some (es, rest) := by
  intro es
  induction es with
  | nil => intro h; exact absurd rfl h
  | cons e t ih =>
    intro _ hwf hIH fuel rest hf
    cases fuel with
    | zero =>
      have := listMeasure_pos (e :: t)
      omega
    | succ f =>
      have hwe : wfExpr e = true := hwf e (List.mem_cons_self e t)
      have hmle : exprMeasure e ≤ f := by
        have h1 : listMeasure (e :: t) = max (exprMeasure e) (listMeasure t) + 1 := rfl
        have h2 := le_max_left (exprMeasure e) (listMeasure t)
        omega
      cases t with
      | nil =>
        have hpl : printExprList [e] = printExpr e := rfl
        rw [hpl]
        have hdl : headDelim (closer :: rest) = true := by
          have hh : headDelim (closer :: rest) = !identish closer := rfl
          rw [hh, hcl]
          rfl
        have hpe := hIH e (List.mem_cons_self e []) f (closer :: rest) hdl hmle
        simp only [parseExprList, hpe]
        split
        next rest2 heq =>
          exfalso
          injection heq with hc0 _
          exact hcm hc0
        next d rest2 heq =>
          injection heq with hd0 hr0
          subst hd0
          subst hr0
          simp
        next heq => exact absurd heq (by simp)
      | cons e2 t2 =>
        have hshape : printExprList (e :: e2 :: t2) ++ closer :: rest =
            printExpr e ++ (',' :: ' ' :: (printExprList (e2 :: t2) ++ closer :: rest)) := by
          have h0 : printExprList (e :: e2 :: t2) =
              printExpr e ++ ',' :: ' ' :: printExprList (e2 :: t2) := rfl
          rw [h0]
          simp [List.append_assoc]
        rw [hshape]
        have hdl : headDelim (',' :: ' ' :: (printExprList (e2 :: t2) ++ closer :: rest)) =
            true := rfl
        have hpe := hIH e (List.mem_cons_self e (e2 :: t2)) f _ hdl hmle
        simp only [parseExprList, hpe]
        have hml2 : listMeasure (e2 :: t2) ≤ f := by
          have h1 : listMeasure (e :: e2 :: t2) =
              max (exprMeasure e) (listMeasure (e2 :: t2)) + 1 := rfl
          have h2 := le_max_right (exprMeasure e) (listMeasure (e2 :: t2))
          omega
        rw [ih (by simp) (fun x hx => hwf x (List.mem_cons_of_mem e hx))
          (fun x hx => hIH x (List.mem_cons_of_mem e hx)) f rest hml2]

/-- Parsing a printed comma-separated record-field list recovers it. -/
theorem parseRecordList_print_aux :
    ∀ (fs : List (String × PExpr)), fs ≠ [] →
    (∀ p ∈ fs, wfExpr p.2 = true) →
    (∀ p ∈ fs, ∀ (fuel : Nat) (rest : List Char), headDelim rest = true →
      exprMeasure p.2 ≤ fuel → parseExpr fuel (printExpr p.2 ++ rest) = some (p.2, rest)) →
    ∀ (fuel : Nat) (rest : List Char), recMeasure fs ≤ fuel →
      parseRecordList fuel (printRecordList fs ++ '}' :: rest) = some (fs, rest) := by
  intro fs
  induction fs with
  | nil => intro h; exact absurd rfl h
  | cons p t ih =>
    intro _ hwf hIH fuel rest hf
    obtain ⟨k, v⟩ := p
    cases fuel with
    | zero =>
      have := recMeasure_pos ((k, v) :: t)
      omega
    | succ f =>
      have hkv2 : ((k, v) : String × PExpr).2 = v := rfl
      have hwe : wfExpr v = true := by
        have := hwf (k, v) (List.mem_cons_self (k, v) t)
        rwa [hkv2] at this
      have hmle : exprMeasure v ≤ f := by
        have h1 : recMeasure ((k, v) :: t) = max (exprMeasure v) (recMeasure t) + 1 := rfl
        have h2 := le_max_left (exprMeasure v) (recMeasure t)
        omega
      have hIHv : ∀ (fuel : Nat) (rest : List Char), headDelim rest = true →
          exprMeasure v ≤ fuel → parseExpr fuel (printExpr v ++ rest) = some (v, rest) := by
        intro fuel rest hdl hm
        have h0 := hIH (k, v) (List.mem_cons_self (k, v) t) fuel rest hdl
        rw [hkv2] at h0
        exact h0 hm
      cases t with
      | nil =>
        have hshape : printRecordList [(k, v)] ++ '}' :: rest =
            '"' :: (escapeChars k.data ++
              ('"' :: (':' :: ' ' :: (printExpr v ++ '}' :: rest)))) := by
          have h0 : printRecordList [(k, v)] =
              '"' :: (escapeChars k.data ++ '"' :: ':' :: ' ' :: printExpr v) := rfl
          rw [h0]
          simp [List.append_assoc]
        rw [hshape]
        have hun := escape_unescape k.data (':' :: ' ' :: (printExpr v ++ '}' :: rest))
        have hpe := hIHv f ('}' :: rest) rfl hmle
        simp only [parseRecordList, hun, hpe]
      | cons p2 t2 =>
        have hshape : printRecordList ((k, v) :: p2 :: t2) ++ '}' :: rest =
            '"' :: (escapeChars k.data ++
              ('"' :: (':' :: ' ' :: (printExpr v ++
                (',' :: ' ' :: (printRecordList (p2 :: t2) ++ '}' :: rest)))))) := by
          have h0 : printRecordList ((k, v) :: p2 :: t2) =
              ('"' :: (escapeChars k.data ++ '"' :: ':' :: ' ' :: printExpr v)) ++
                ',' :: ' ' :: printRecordList (p2 :: t2) := rfl
          rw [h0]
          simp [List.append_assoc]
        rw [hshape]
        have hun := escape_unescape k.data
          (':' :: ' ' :: (printExpr v ++ (',' :: ' ' :: (printRecordList (p2 :: t2) ++ '}' :: rest))))
        have hpe := hIHv f (',' :: ' ' :: (printRecordList (p2 :: t2) ++ '}' :: rest)) rfl hmle
        have hmr2 : recMeasure (p2 :: t2) ≤ f := by
          have h1 : recMeasure ((k, v) :: p2 :: t2) =
              max (exprMeasure v) (recMeasure (p2 :: t2)) + 1 := rfl
          have h2 := le_max_right (exprMeasure v) (recMeasure (p2 :: t2))
          omega
        have hih := ih (by simp) (fun x hx => hwf x (List.mem_cons_of_mem (k, v) hx))
          (fun x hx => hIH x (List.mem_cons_of_mem (k, v) hx)) f rest hmr2
        simp only [parseRecordList, hun, hpe, hih]

/-- Parsing a printed expression recovers it, for any sufficient fuel, when
the remainder does not extend an identifier-ish token. -/
theorem parseExpr_print_bound : ∀ (N : Nat) (e : PExpr), exprMeasure e ≤ N →
    wfExpr e = true → ∀ (fuel : Nat) (rest : List Char), headDelim rest = true →
    exprMeasure e ≤ fuel → parseExpr fuel (printExpr e ++ rest) = some (e, rest) := by
  intro N
  induction N with
  | zero =>
    intro e hN
    exact absurd hN (by have := exprMeasure_pos e; omega)
  | succ N ih =>
    intro e hN hwf fuel rest hd hf
    cases fuel with
    | zero => exact absurd hf (by have := exprMeasure_pos e; omega)
    | succ f =>
      cases e with
    | litTrue =>
      have hk := keywordAt_self "true".data rest hd
      simp only [parseExpr, printExpr, hk]
    | litFalse =>
      have k1 : keywordAt "true".data ("false".data ++ rest) = none := rfl
      have hk := keywordAt_self "false".data rest hd
      simp only [parseExpr, printExpr, k1, hk]
    | pvar v =>
      cases v with
      | principal =>
        have k1 : keywordAt "true".data ("principal".data ++ rest) = none := rfl
        have k2 : keywordAt "false".data ("principal".data ++ rest) = none := rfl
        have hk := keywordAt_self "principal".data rest hd
        simp only [parseExpr, printExpr, pvarChars, k1, k2, hk]
      | action =>
        have k1 : keywordAt "true".data ("action".data ++ rest) = none := rfl
        have k2 : keywordAt "false".data ("action".data ++ rest) = none := rfl
        have k3 : keywordAt "principal".data ("action".data ++ rest) = none := rfl
        have hk := keywordAt_self "action".data rest hd
        simp only [parseExpr, printExpr, pvarChars, k1, k2, k3, hk]
      | resource =>
        have k1 : keywordAt "true".data ("resource".data ++ rest) = none := rfl
        have k2 : keywordAt "false".data ("resource".data ++ rest) = none := rfl
        have k3 : keywordAt "principal".data ("resource".data ++ rest) = none := rfl
        have k4 : keywordAt "action".data ("resource".data ++ rest) = none := rfl
        have hk := keywordAt_self "resource".data rest hd
        simp only [parseExpr, printExpr, pvarChars, k1, k2, k3, k4, hk]
      | context =>
        have k1 : keywordAt "true".data ("context".data ++ rest) = none := rfl
        have k2 : keywordAt "false".data ("context".data ++ rest) = none := rfl
        have k3 : keywordAt "principal".data ("context".data ++ rest) = none := rfl
        have k4 : keywordAt "action".data ("context".data ++ rest) = none := rfl
        have k5 : keywordAt "resource".data ("context".data ++ rest) = none := rfl
        have hk := keywordAt_self "context".data rest hd
        simp only [parseExpr, printExpr, pvarChars, k1, k2, k3, k4, k5, hk]
    | litInt i =>
      obtain ⟨hne, hdig, hfold⟩ := printNatChars_spec i.natAbs
      have hsplit := takeWhileP_append Char.isDigit (printNatChars i.natAbs) rest
          (fun c hc => List.all_eq_true.mp hdig c hc) (headDelim_no_digit rest hd)
      by_cases hneg : i < 0
      · have hshape : printExpr (PExpr.litInt i) ++ rest =
            '-' :: (printNatChars i.natAbs ++ rest) := by
          have h0 : printExpr (PExpr.litInt i) = printIntChars i := rfl
          rw [h0]
          simp [printIntChars, hneg]
        rw [hshape]
        have hstep : parseExpr (f + 1) ('-' :: (printNatChars i.natAbs ++ rest)) =
            (if ((printNatChars i.natAbs ++ rest).takeWhile Char.isDigit).isEmpty then none
             else
               some (.litInt (-(Int.ofNat (foldDigits 0
                   ((printNatChars i.natAbs ++ rest).takeWhile Char.isDigit)))),
                 (printNatChars i.natAbs ++ rest).dropWhile Char.isDigit)) := rfl
        rw [hstep, hsplit.1, hsplit.2]
        have hemp : (printNatChars i.natAbs).isEmpty = false := by
          cases hpn : printNatChars i.natAbs with
          | nil => exact absurd hpn hne
          | cons c0 t0 => rfl
        rw [hemp]
        have hval : -(Int.ofNat (foldDigits 0 (printNatChars i.natAbs))) = i := by
          rw [hfold]
          simp only [Int.ofNat_eq_natCast]
          omega
        simp only [Bool.false_eq_true, if_false, hval]
      · have hshape : printExpr (PExpr.litInt i) ++ rest = printNatChars i.natAbs ++ rest := by
          have h0 : printExpr (PExpr.litInt i) = printIntChars i := rfl
          rw [h0]
          simp [printIntChars, hneg]
        cases hpn : printNatChars i.natAbs with
        | nil => exact absurd hpn hne
        | cons c0 t0 =>
          have hcdig : c0.isDigit = true := by
            rw [hpn, List.all_cons] at hdig
            exact ((Bool.and_eq_true _ _).mp hdig).1
          have hcident := isDigit_identish c0 hcdig
          have hin : printNatChars i.natAbs ++ rest = c0 :: (t0 ++ rest) := by
            rw [hpn]
            rfl
          have hk1 : keywordAt "true".data (c0 :: (t0 ++ rest)) = none :=
            keywordAt_ne_head 't' _ c0 _
              (fun he => by rw [← he] at hcdig; exact absurd hcdig (by decide))
          have hk2 : keywordAt "false".data (c0 :: (t0 ++ rest)) = none :=
            keywordAt_ne_head 'f' _ c0 _
              (fun he => by rw [← he] at hcdig; exact absurd hcdig (by decide))
          have hk3 : keywordAt "principal".data (c0 :: (t0 ++ rest)) = none :=
            keywordAt_ne_head 'p' _ c0 _
              (fun he => by rw [← he] at hcdig; exact absurd hcdig (by decide))
          have hk4 : keywordAt "action".data (c0 :: (t0 ++ rest)) = none :=
            keywordAt_ne_head 'a' _ c0 _
              (fun he => by rw [← he] at hcdig; exact absurd hcdig (by decide))
          have hk5 : keywordAt "resource".data (c0 :: (t0 ++ rest)) = none :=
            keywordAt_ne_head 'r' _ c0 _
              (fun he => by rw [← he] at hcdig; exact absurd hcdig (by decide))
          have hk6 : keywordAt "context".data (c0 :: (t0 ++ rest)) = none :=
            keywordAt_ne_head 'c' _ c0 _
              (fun he => by rw [← he] at hcdig; exact absurd hcdig (by decide))
          rw [hshape, hin,
            parseExpr_atom_step f c0 (t0 ++ rest) hk1 hk2 hk3 hk4 hk5 hk6 hcident]
          have hnd : ¬(c0 = '-') :=
            fun he => by rw [he] at hcdig; exact absurd hcdig (by decide)
          rw [if_neg hnd, if_pos hcdig, ← hin, hsplit.1, hsplit.2, hfold]
          have hval : Int.ofNat i.natAbs = i := by
            simp only [Int.ofNat_eq_natCast]
            omega
          rw [hval]
    | litStr s =>
      have hshape : printExpr (PExpr.litStr s) ++ rest =
          '"' :: (escapeChars s.data ++ '"' :: rest) := by
        have h0 : printExpr (PExpr.litStr s) = '"' :: (escapeChars s.data ++ ['"']) := rfl
        rw [h0]
        simp [List.append_assoc]
      rw [hshape]
      have k1 : ∀ X : List Char, keywordAt "true".data ('"' :: X) = none := fun _ => rfl
      have k2 : ∀ X : List Char, keywordAt "false".data ('"' :: X) = none := fun _ => rfl
      have k3 : ∀ X : List Char, keywordAt "principal".data ('"' :: X) = none := fun _ => rfl
      have k4 : ∀ X : List Char, keywordAt "action".data ('"' :: X) = none := fun _ => rfl
      have k5 : ∀ X : List Char, keywordAt "resource".data ('"' :: X) = none := fun _ => rfl
      have k6 : ∀ X : List Char, keywordAt "context".data ('"' :: X) = none := fun _ => rfl
      simp only [parseExpr, k1, k2, k3, k4, k5, k6]
      rw [escape_unescape s.data rest]
    | euid u =>
      have hwe : wfEuid u = true := hwf
      have hba := euid_block_all u hwe
      have hcol : ':' ∈ u.ty.data ++ [':', ':'] :=
        List.mem_append_right _ (List.mem_cons_self _ _)
      have hblock : printEuid u ++ rest =
          (u.ty.data ++ [':', ':']) ++ ('"' :: (escapeChars u.id.data ++ '"' :: rest)) := by
        simp [printEuid]
      have h1 : u.ty.data.isEmpty = false := by
        have := ((Bool.and_eq_true _ _).mp ((Bool.and_eq_true _ _).mp hwe).1).1
        simpa using this
      have h2 : u.ty.data.all identish = true :=
        ((Bool.and_eq_true _ _).mp ((Bool.and_eq_true _ _).mp hwe).1).2
      have h3 : headNotDigit u.ty.data = true := ((Bool.and_eq_true _ _).mp hwe).2
      have hsplit := takeWhileP_append identish (u.ty.data ++ [':', ':'])
          ('"' :: (escapeChars u.id.data ++ '"' :: rest))
          (fun c hc => List.all_eq_true.mp hba c hc)
          (by
            intro y hy
            have hy0 : '"' = y := by simpa using hy
            subst hy0
            decide)
      have hdropq : (printEuid u ++ rest).dropWhile identish =
          '"' :: (escapeChars u.id.data ++ '"' :: rest) := by
        rw [hblock]
        exact hsplit.2
      cases hty : u.ty.data with
      | nil => rw [hty] at h1; simp at h1
      | cons c0 t0 =>
        have hc0id : identish c0 = true := by
          rw [hty, List.all_cons] at h2
          exact ((Bool.and_eq_true _ _).mp h2).1
        have hc0nd : c0.isDigit = false := by
          rw [hty] at h3
          have hh : headNotDigit (c0 :: t0) = !c0.isDigit := rfl
          rw [hh] at h3
          simpa using h3
        have hin : printEuid u ++ rest =
            c0 :: (t0 ++ [':', ':', '"'] ++ escapeChars u.id.data ++ ['"'] ++ rest) := by
          simp [printEuid, hty, List.append_assoc]
        have hk1 : keywordAt "true".data (printEuid u ++ rest) = none := by
          rw [hblock]
          exact keywordAt_colon_block _ _ _ (by decide) hba hcol
        have hk2 : keywordAt "false".data (printEuid u ++ rest) = none := by
          rw [hblock]
          exact keywordAt_colon_block _ _ _ (by decide) hba hcol
        have hk3 : keywordAt "principal".data (printEuid u ++ rest) = none := by
          rw [hblock]
          exact keywordAt_colon_block _ _ _ (by decide) hba hcol
        have hk4 : keywordAt "action".data (printEuid u ++ rest) = none := by
          rw [hblock]
          exact keywordAt_colon_block _ _ _ (by decide) hba hcol
        have hk5 : keywordAt "resource".data (printEuid u ++ rest) = none := by
          rw [hblock]
          exact keywordAt_colon_block _ _ _ (by decide) hba hcol
        have hk6 : keywordAt "context".data (printEuid u ++ rest) = none := by
          rw [hblock]
          exact keywordAt_colon_block _ _ _ (by decide) hba hcol
        rw [hin] at hk1 hk2 hk3 hk4 hk5 hk6
        have hpeq : printExpr (PExpr.euid u) = printEuid u := rfl
        rw [hpeq, hin,
          parseExpr_atom_step f c0 _ hk1 hk2 hk3 hk4 hk5 hk6 hc0id]
        have hnd : ¬(c0 = '-') :=
          fun he => by rw [he] at hc0id; exact absurd hc0id (by decide)
        rw [if_neg hnd, if_neg (by simp [hc0nd]), ← hin, hdropq]
        show (match parseEuid (printEuid u ++ rest) with
              | some (u', r') => some (PExpr.euid u', r')
              | none => none) = some (PExpr.euid u, rest)
        rw [parseEuid_print u rest hwe]
    | notE e1 =>
      have hwa : wfExpr e1 = true := hwf
      have hmeq : exprMeasure (PExpr.notE e1) = exprMeasure e1 + 1 := rfl
      have hfa : exprMeasure e1 ≤ f := by rw [hmeq] at hf; omega
      have hNa : exprMeasure e1 ≤ N := by rw [hmeq] at hN; omega
      have hshape : printExpr (PExpr.notE e1) ++ rest = '!' :: (printExpr e1 ++ rest) := by
        have h0 : printExpr (PExpr.notE e1) = '!' :: printExpr e1 := rfl
        rw [h0]
        rfl
      rw [hshape]
      have k1 : ∀ X : List Char, keywordAt "true".data ('!' :: X) = none := fun _ => rfl
      have k2 : ∀ X : List Char, keywordAt "false".data ('!' :: X) = none := fun _ => rfl
      have k3 : ∀ X : List Char, keywordAt "principal".data ('!' :: X) = none := fun _ => rfl
      have k4 : ∀ X : List Char, keywordAt "action".data ('!' :: X) = none := fun _ => rfl
      have k5 : ∀ X : List Char, keywordAt "resource".data ('!' :: X) = none := fun _ => rfl
      have k6 : ∀ X : List Char, keywordAt "context".data ('!' :: X) = none := fun _ => rfl
      simp only [parseExpr, k1, k2, k3, k4, k5, k6]
      rw [ih e1 hNa hwa f rest hd hfa]
    | andE a b =>
      have hwa : wfExpr a = true := ((Bool.and_eq_true _ _).mp hwf).1
      have hwb : wfExpr b = true := ((Bool.and_eq_true _ _).mp hwf).2
      have hmeq : exprMeasure (PExpr.andE a b) =
          max (exprMeasure a) (exprMeasure b) + 1 := rfl
      have hfa : exprMeasure a ≤ f := by
        rw [hmeq] at hf
        have := le_max_left (exprMeasure a) (exprMeasure b)
        omega
      have hfb : exprMeasure b ≤ f := by
        rw [hmeq] at hf
        have := le_max_right (exprMeasure a) (exprMeasure b)
        omega
      have hNa : exprMeasure a ≤ N := by
        rw [hmeq] at hN
        have := le_max_left (exprMeasure a) (exprMeasure b)
        omega
      have hNb : exprMeasure b ≤ N := by
        rw [hmeq] at hN
        have := le_max_right (exprMeasure a) (exprMeasure b)
        omega
      have hshape : printExpr (PExpr.andE a b) ++ rest =
          '(' :: (printExpr a ++ (" && ".data ++ (printExpr b ++ ')' :: rest))) := by
        have h0 : printExpr (PExpr.andE a b) =
            '(' :: (printExpr a ++ " && ".data ++ printExpr b ++ [')']) := rfl
        rw [h0]
        simp [List.append_assoc]
      rw [hshape]
      have k1 : ∀ X : List Char, keywordAt "true".data ('(' :: X) = none := fun _ => rfl
      have k2 : ∀ X : List Char, keywordAt "false".data ('(' :: X) = none := fun _ => rfl
      have k3 : ∀ X : List Char, keywordAt "principal".data ('(' :: X) = none := fun _ => rfl
      have k4 : ∀ X : List Char, keywordAt "action".data ('(' :: X) = none := fun _ => rfl
      have k5 : ∀ X : List Char, keywordAt "resource".data ('(' :: X) = none := fun _ => rfl
      have k6 : ∀ X : List Char, keywordAt "context".data ('(' :: X) = none := fun _ => rfl
      simp only [parseExpr, k1, k2, k3, k4, k5, k6]
      rw [ih a hNa hwa f (" && ".data ++ (printExpr b ++ ')' :: rest)) rfl hfa]
      have hop : ∀ Y : List Char, opSplit (" && ".data ++ Y) = some (.andO, Y) :=
        fun _ => rfl
      simp only [hop]
      rw [ih b hNb hwb f (')' :: rest) rfl hfb]
      rfl
    | orE a b =>
      have hwa : wfExpr a = true := ((Bool.and_eq_true _ _).mp hwf).1
      have hwb : wfExpr b = true := ((Bool.and_eq_true _ _).mp hwf).2
      have hmeq : exprMeasure (PExpr.orE a b) =
          max (exprMeasure a) (exprMeasure b) + 1 := rfl
      have hfa : exprMeasure a ≤ f := by
        rw [hmeq] at hf
        have := le_max_left (exprMeasure a) (exprMeasure b)
        omega
      have hfb : exprMeasure b ≤ f := by
        rw [hmeq] at hf
        have := le_max_right (exprMeasure a) (exprMeasure b)
        omega
      have hNa : exprMeasure a ≤ N := by
        rw [hmeq] at hN
        have := le_max_left (exprMeasure a) (exprMeasure b)
        omega
      have hNb : exprMeasure b ≤ N := by
        rw [hmeq] at hN
        have := le_max_right (exprMeasure a) (exprMeasure b)
        omega
      have hshape : printExpr (PExpr.orE a b) ++ rest =
          '(' :: (printExpr a ++ (" || ".data ++ (printExpr b ++ ')' :: rest))) := by
        have h0 : printExpr (PExpr.orE a b) =
            '(' :: (printExpr a ++ " || ".data ++ printExpr b ++ [')']) := rfl
        rw [h0]
        simp [List.append_assoc]
      rw [hshape]
      have k1 : ∀ X : List Char, keywordAt "true".data ('(' :: X) = none := fun _ => rfl
      have k2 : ∀ X : List Char, keywordAt "false".data ('(' :: X) = none := fun _ => rfl
      have k3 : ∀ X : List Char, keywordAt "principal".data ('(' :: X) = none := fun _ => rfl
      have k4 : ∀ X : List Char, keywordAt "action".data ('(' :: X) = none := fun _ => rfl
      have k5 : ∀ X : List Char, keywordAt "resource".data ('(' :: X) = none := fun _ => rfl
      have k6 : ∀ X : List Char, keywordAt "context".data ('(' :: X) = none := fun _ => rfl
      simp only [parseExpr, k1, k2, k3, k4, k5, k6]
      rw [ih a hNa hwa f (" || ".data ++ (printExpr b ++ ')' :: rest)) rfl hfa]
      have hop : ∀ Y : List Char, opSplit (" || ".data ++ Y) = some (.orO, Y) :=
        fun _ => rfl
      simp only [hop]
      rw [ih b hNb hwb f (')' :: rest) rfl hfb]
      rfl
    | eqE a b =>
      have hwa : wfExpr a = true := ((Bool.and_eq_true _ _).mp hwf).1
      have hwb : wfExpr b = true := ((Bool.and_eq_true _ _).mp hwf).2
      have hmeq : exprMeasure (PExpr.eqE a b) =
          max (exprMeasure a) (exprMeasure b) + 1 := rfl
      have hfa : exprMeasure a ≤ f := by
        rw [hmeq] at hf
        have := le_max_left (exprMeasure a) (exprMeasure b)
        omega
      have hfb : exprMeasure b ≤ f := by
        rw [hmeq] at hf
        have := le_max_right (exprMeasure a) (exprMeasure b)
        omega
      have hNa : exprMeasure a ≤ N := by
        rw [hmeq] at hN
        have := le_max_left (exprMeasure a) (exprMeasure b)
        omega
      have hNb : exprMeasure b ≤ N := by
        rw [hmeq] at hN
        have := le_max_right (exprMeasure a) (exprMeasure b)
        omega
      have hshape : printExpr (PExpr.eqE a b) ++ rest =
          '(' :: (printExpr a ++ (" == ".data ++ (printExpr b ++ ')' :: rest))) := by
        have h0 : printExpr (PExpr.eqE a b) =
            '(' :: (printExpr a ++ " == ".data ++ printExpr b ++ [')']) := rfl
        rw [h0]
        simp [List.append_assoc]
      rw [hshape]
      have k1 : ∀ X : List Char, keywordAt "true".data ('(' :: X) = none := fun _ => rfl
      have k2 : ∀ X : List Char, keywordAt "false".data ('(' :: X) = none := fun _ => rfl
      have k3 : ∀ X : List Char, keywordAt "principal".data ('(' :: X) = none := fun _ => rfl
      have k4 : ∀ X : List Char, keywordAt "action".data ('(' :: X) = none := fun _ => rfl
      have k5 : ∀ X : List Char, keywordAt "resource".data ('(' :: X) = none := fun _ => rfl
      have k6 : ∀ X : List Char, keywordAt "context".data ('(' :: X) = none := fun _ => rfl
      simp only [parseExpr, k1, k2, k3, k4, k5, k6]
      rw [ih a hNa hwa f (" == ".data ++ (printExpr b ++ ')' :: rest)) rfl hfa]
      have hop : ∀ Y : List Char, opSplit (" == ".data ++ Y) = some (.eqO, Y) :=
        fun _ => rfl
      simp only [hop]
      rw [ih b hNb hwb f (')' :: rest) rfl hfb]
      rfl
    | memE a b =>
      have hwa : wfExpr a = true := ((Bool.and_eq_true _ _).mp hwf).1
      have hwb : wfExpr b = true := ((Bool.and_eq_true _ _).mp hwf).2
      have hmeq : exprMeasure (PExpr.memE a b) =
          max (exprMeasure a) (exprMeasure b) + 1 := rfl
      have hfa : exprMeasure a ≤ f := by
        rw [hmeq] at hf
        have := le_max_left (exprMeasure a) (exprMeasure b)
        omega
      have hfb : exprMeasure b ≤ f := by
        rw [hmeq] at hf
        have := le_max_right (exprMeasure a) (exprMeasure b)
        omega
      have hNa : exprMeasure a ≤ N := by
        rw [hmeq] at hN
        have := le_max_left (exprMeasure a) (exprMeasure b)
        omega
      have hNb : exprMeasure b ≤ N := by
        rw [hmeq] at hN
        have := le_max_right (exprMeasure a) (exprMeasure b)
        omega
      have hshape : printExpr (PExpr.memE a b) ++ rest =
          '(' :: (printExpr a ++ (" in ".data ++ (printExpr b ++ ')' :: rest))) := by
        have h0 : printExpr (PExpr.memE a b) =
            '(' :: (printExpr a ++ " in ".data ++ printExpr b ++ [')']) := rfl
        rw [h0]
        simp [List.append_assoc]
      rw [hshape]
      have k1 : ∀ X : List Char, keywordAt "true".data ('(' :: X) = none := fun _ => rfl
      have k2 : ∀ X : List Char, keywordAt "false".data ('(' :: X) = none := fun _ => rfl
      have k3 : ∀ X : List Char, keywordAt "principal".data ('(' :: X) = none := fun _ => rfl
      have k4 : ∀ X : List Char, keywordAt "action".data ('(' :: X) = none := fun _ => rfl
      have k5 : ∀ X : List Char, keywordAt "resource".data ('(' :: X) = none := fun _ => rfl
      have k6 : ∀ X : List Char, keywordAt "context".data ('(' :: X) = none := fun _ => rfl
      simp only [parseExpr, k1, k2, k3, k4, k5, k6]
      rw [ih a hNa hwa f (" in ".data ++ (printExpr b ++ ')' :: rest)) rfl hfa]
      have hop : ∀ Y : List Char, opSplit (" in ".data ++ Y) = some (.memO, Y) :=
        fun _ => rfl
      simp only [hop]
      rw [ih b hNb hwb f (')' :: rest) rfl hfb]
      rfl
    | addE a b =>
      have hwa : wfExpr a = true := ((Bool.and_eq_true _ _).mp hwf).1
      have hwb : wfExpr b = true := ((Bool.and_eq_true _ _).mp hwf).2
      have hmeq : exprMeasure (PExpr.addE a b) =
          max (exprMeasure a) (exprMeasure b) + 1 := rfl
      have hfa : exprMeasure a ≤ f := by
        rw [hmeq] at hf
        have := le_max_left (exprMeasure a) (exprMeasure b)
        omega
      have hfb : exprMeasure b ≤ f := by
        rw [hmeq] at hf
        have := le_max_right (exprMeasure a) (exprMeasure b)
        omega
      have hNa : exprMeasure a ≤ N := by
        rw [hmeq] at hN
        have := le_max_left (exprMeasure a) (exprMeasure b)
        omega
      have hNb : exprMeasure b ≤ N := by
        rw [hmeq] at hN
        have := le_max_right (exprMeasure a) (exprMeasure b)
        omega
      have hshape : printExpr (PExpr.addE a b) ++ rest =
          '(' :: (printExpr a ++ (" + ".data ++ (printExpr b ++ ')' :: rest))) := by
        have h0 : printExpr (PExpr.addE a b) =
            '(' :: (printExpr a ++ " + ".data ++ printExpr b ++ [')']) := rfl
        rw [h0]
        simp [List.append_assoc]
      rw [hshape]
      have k1 : ∀ X : List Char, keywordAt "true".data ('(' :: X) = none := fun _ => rfl
      have k2 : ∀ X : List Char, keywordAt "false".data ('(' :: X) = none := fun _ => rfl
      have k3 : ∀ X : List Char, keywordAt "principal".data ('(' :: X) = none := fun _ => rfl
      have k4 : ∀ X : List Char, keywordAt "action".data ('(' :: X) = none := fun _ => rfl
      have k5 : ∀ X : List Char, keywordAt "resource".data ('(' :: X) = none := fun _ => rfl
      have k6 : ∀ X : List Char, keywordAt "context".data ('(' :: X) = none := fun _ => rfl
      simp only [parseExpr, k1, k2, k3, k4, k5, k6]
      rw [ih a hNa hwa f (" + ".data ++ (printExpr b ++ ')' :: rest)) rfl hfa]
      have hop : ∀ Y : List Char, opSplit (" + ".data ++ Y) = some (.addO, Y) :=
        fun _ => rfl
      simp only [hop]
      rw [ih b hNb hwb f (')' :: rest) rfl hfb]
      rfl
    | subE a b =>
      have hwa : wfExpr a = true := ((Bool.and_eq_true _ _).mp hwf).1
      have hwb : wfExpr b = true := ((Bool.and_eq_true _ _).mp hwf).2
      have hmeq : exprMeasure (PExpr.subE a b) =
          max (exprMeasure a) (exprMeasure b) + 1 := rfl
      have hfa : exprMeasure a ≤ f := by
        rw [hmeq] at hf
        have := le_max_left (exprMeasure a) (exprMeasure b)
        omega
      have hfb : exprMeasure b ≤ f := by
        rw [hmeq] at hf
        have := le_max_right (exprMeasure a) (exprMeasure b)
        omega
      have hNa : exprMeasure a ≤ N := by
        rw [hmeq] at hN
        have := le_max_left (exprMeasure a) (exprMeasure b)
        omega
      have hNb : exprMeasure b ≤ N := by
        rw [hmeq] at hN
        have := le_max_right (exprMeasure a) (exprMeasure b)
        omega
      have hshape : printExpr (PExpr.subE a b) ++ rest =
          '(' :: (printExpr a ++ (" - ".data ++ (printExpr b ++ ')' :: rest))) := by
        have h0 : printExpr (PExpr.subE a b) =
            '(' :: (printExpr a ++ " - ".data ++ printExpr b ++ [')']) := rfl
        rw [h0]
        simp [List.append_assoc]
      rw [hshape]
      have k1 : ∀ X : List Char, keywordAt "true".data ('(' :: X) = none := fun _ => rfl
      have k2 : ∀ X : List Char, keywordAt "false".data ('(' :: X) = none := fun _ => rfl
      have k3 : ∀ X : List Char, keywordAt "principal".data ('(' :: X) = none := fun _ => rfl
      have k4 : ∀ X : List Char, keywordAt "action".data ('(' :: X) = none := fun _ => rfl
      have k5 : ∀ X : List Char, keywordAt "resource".data ('(' :: X) = none := fun _ => rfl
      have k6 : ∀ X : List Char, keywordAt "context".data ('(' :: X) = none := fun _ => rfl
      simp only [parseExpr, k1, k2, k3, k4, k5, k6]
      rw [ih a hNa hwa f (" - ".data ++ (printExpr b ++ ')' :: rest)) rfl hfa]
      have hop : ∀ Y : List Char, opSplit (" - ".data ++ Y) = some (.subO, Y) :=
        fun _ => rfl
      simp only [hop]
      rw [ih b hNb hwb f (')' :: rest) rfl hfb]
      rfl
    | getA e1 attr =>
      have hwa : wfExpr e1 = true := hwf
      have hmeq : exprMeasure (PExpr.getA e1 attr) = exprMeasure e1 + 1 := rfl
      have hfa : exprMeasure e1 ≤ f := by rw [hmeq] at hf; omega
      have hNa : exprMeasure e1 ≤ N := by rw [hmeq] at hN; omega
      have hshape : printExpr (PExpr.getA e1 attr) ++ rest =
          '(' :: (printExpr e1 ++
            (" . ".data ++ ('"' :: (escapeChars attr.data ++ '"' :: (')' :: rest))))) := by
        have h0 : printExpr (PExpr.getA e1 attr) =
            '(' :: (printExpr e1 ++ " . ".data ++
              '"' :: (escapeChars attr.data ++ "\")".data)) := rfl
        rw [h0]
        simp [List.append_assoc]
      rw [hshape]
      have k1 : ∀ X : List Char, keywordAt "true".data ('(' :: X) = none := fun _ => rfl
      have k2 : ∀ X : List Char, keywordAt "false".data ('(' :: X) = none := fun _ => rfl
      have k3 : ∀ X : List Char, keywordAt "principal".data ('(' :: X) = none := fun _ => rfl
      have k4 : ∀ X : List Char, keywordAt "action".data ('(' :: X) = none := fun _ => rfl
      have k5 : ∀ X : List Char, keywordAt "resource".data ('(' :: X) = none := fun _ => rfl
      have k6 : ∀ X : List Char, keywordAt "context".data ('(' :: X) = none := fun _ => rfl
      simp only [parseExpr, k1, k2, k3, k4, k5, k6]
      rw [ih e1 hNa hwa f
        (" . ".data ++ ('"' :: (escapeChars attr.data ++ '"' :: (')' :: rest)))) rfl hfa]
      have hop : ∀ Y : List Char, opSplit (" . ".data ++ ('"' :: Y)) = some (.getO, Y) :=
        fun _ => rfl
      simp only [hop]
      rw [escape_unescape attr.data (')' :: rest)]
      rfl
    | hasA e1 attr =>
      have hwa : wfExpr e1 = true := hwf
      have hmeq : exprMeasure (PExpr.hasA e1 attr) = exprMeasure e1 + 1 := rfl
      have hfa : exprMeasure e1 ≤ f := by rw [hmeq] at hf; omega
      have hNa : exprMeasure e1 ≤ N := by rw [hmeq] at hN; omega
      have hshape : printExpr (PExpr.hasA e1 attr) ++ rest =
          '(' :: (printExpr e1 ++
            (" has ".data ++ ('"' :: (escapeChars attr.data ++ '"' :: (')' :: rest))))) := by
        have h0 : printExpr (PExpr.hasA e1 attr) =
            '(' :: (printExpr e1 ++ " has ".data ++
              '"' :: (escapeChars attr.data ++ "\")".data)) := rfl
        rw [h0]
        simp [List.append_assoc]
      rw [hshape]
      have k1 : ∀ X : List Char, keywordAt "true".data ('(' :: X) = none := fun _ => rfl
      have k2 : ∀ X : List Char, keywordAt "false".data ('(' :: X) = none := fun _ => rfl
      have k3 : ∀ X : List Char, keywordAt "principal".data ('(' :: X) = none := fun _ => rfl
      have k4 : ∀ X : List Char, keywordAt "action".data ('(' :: X) = none := fun _ => rfl
      have k5 : ∀ X : List Char, keywordAt "resource".data ('(' :: X) = none := fun _ => rfl
      have k6 : ∀ X : List Char, keywordAt "context".data ('(' :: X) = none := fun _ => rfl
      simp only [parseExpr, k1, k2, k3, k4, k5, k6]
      rw [ih e1 hNa hwa f
        (" has ".data ++ ('"' :: (escapeChars attr.data ++ '"' :: (')' :: rest)))) rfl hfa]
      have hop : ∀ Y : List Char, opSplit (" has ".data ++ ('"' :: Y)) = some (.hasO, Y) :=
        fun _ => rfl
      simp only [hop]
      rw [escape_unescape attr.data (')' :: rest)]
      rfl
    | setE es =>
      have hwl : wfExprList es = true := hwf
      have hmeq : exprMeasure (PExpr.setE es) = listMeasure es + 1 := rfl
      have hfl : listMeasure es ≤ f := by rw [hmeq] at hf; omega
      have hNl : listMeasure es ≤ N := by rw [hmeq] at hN; omega
      cases es with
      | nil => rfl
      | cons e0 t0 =>
        have hIHel : ∀ e ∈ (e0 :: t0), ∀ (fuel : Nat) (rest : List Char),
            headDelim rest = true → exprMeasure e ≤ fuel →
            parseExpr fuel (printExpr e ++ rest) = some (e, rest) := by
          intro x hx fuel rest hdl hm
          have hlt := mem_listMeasure (e0 :: t0) x hx
          exact ih x (by omega) (wfExprList_mem _ hwl x hx) fuel rest hdl hm
        have hlaux := parseExprList_print_aux ']' (by decide) (by decide) (e0 :: t0)
          (by simp) (fun x hx => wfExprList_mem _ hwl x hx) hIHel f rest hfl
        have hshape : printExpr (PExpr.setE (e0 :: t0)) ++ rest =
            '[' :: (printExprList (e0 :: t0) ++ ']' :: rest) := by
          have h0 : printExpr (PExpr.setE (e0 :: t0)) =
              '[' :: (printExprList (e0 :: t0) ++ [']']) := rfl
          rw [h0]
          simp [List.append_assoc]
        rw [hshape]
        have k1 : ∀ X : List Char, keywordAt "true".data ('[' :: X) = none := fun _ => rfl
        have k2 : ∀ X : List Char, keywordAt "false".data ('[' :: X) = none := fun _ => rfl
        have k3 : ∀ X : List Char, keywordAt "principal".data ('[' :: X) = none := fun _ => rfl
        have k4 : ∀ X : List Char, keywordAt "action".data ('[' :: X) = none := fun _ => rfl
        have k5 : ∀ X : List Char, keywordAt "resource".data ('[' :: X) = none := fun _ => rfl
        have k6 : ∀ X : List Char, keywordAt "context".data ('[' :: X) = none := fun _ => rfl
        simp only [parseExpr, k1, k2, k3, k4, k5, k6]
        obtain ⟨c0, t0', hpe0, hch0⟩ :=
          printExpr_head e0 (wfExprList_mem _ hwl e0 (List.mem_cons_self e0 t0))
        obtain ⟨t1, hplh⟩ := printExprList_cons_head e0 t0 c0 t0' hpe0
        split
        next rest2 heq =>
          exfalso
          rw [hplh, List.cons_append] at heq
          injection heq with hc0 _
          rw [hc0] at hch0
          exact absurd hch0 (by decide)
        next =>
          rw [hlaux]
    | recordE fs =>
      have hwl : wfRecList fs = true := hwf
      have hmeq : exprMeasure (PExpr.recordE fs) = recMeasure fs + 1 := rfl
      have hfl : recMeasure fs ≤ f := by rw [hmeq] at hf; omega
      have hNl : recMeasure fs ≤ N := by rw [hmeq] at hN; omega
      cases fs with
      | nil => rfl
      | cons p0 t0 =>
        have hIHel : ∀ p ∈ (p0 :: t0), ∀ (fuel : Nat) (rest : List Char),
            headDelim rest = true → exprMeasure p.2 ≤ fuel →
            parseExpr fuel (printExpr p.2 ++ rest) = some (p.2, rest) := by
          intro x hx fuel rest hdl hm
          have hlt := mem_recMeasure (p0 :: t0) x hx
          exact ih x.2 (by omega) (wfRecList_mem _ hwl x hx) fuel rest hdl hm
        have hlaux := parseRecordList_print_aux (p0 :: t0)
          (by simp) (fun x hx => wfRecList_mem _ hwl x hx) hIHel f rest hfl
        have hshape : printExpr (PExpr.recordE (p0 :: t0)) ++ rest =
            '{' :: (printRecordList (p0 :: t0) ++ '}' :: rest) := by
          have h0 : printExpr (PExpr.recordE (p0 :: t0)) =
              '{' :: (printRecordList (p0 :: t0) ++ ['}']) := rfl
          rw [h0]
          simp [List.append_assoc]
        rw [hshape]
        have k1 : ∀ X : List Char, keywordAt "true".data ('{' :: X) = none := fun _ => rfl
        have k2 : ∀ X : List Char, keywordAt "false".data ('{' :: X) = none := fun _ => rfl
        have k3 : ∀ X : List Char, keywordAt "principal".data ('{' :: X) = none := fun _ => rfl
        have k4 : ∀ X : List Char, keywordAt "action".data ('{' :: X) = none := fun _ => rfl
        have k5 : ∀ X : List Char, keywordAt "resource".data ('{' :: X) = none := fun _ => rfl
        have k6 : ∀ X : List Char, keywordAt "context".data ('{' :: X) = none := fun _ => rfl
        simp only [parseExpr, k1, k2, k3, k4, k5, k6]
        obtain ⟨t1, hplh⟩ := printRecordList_cons_head p0 t0
        split
        next rest2 heq =>
          exfalso
          rw [hplh, List.cons_append] at heq
          injection heq with hc0 _
          exact absurd hc0 (by decide)
        next =>
          rw [hlaux]
    | extE fn args =>
      have hwe : wfExtName fn = true := ((Bool.and_eq_true _ _).mp hwf).1
      have hwargs : wfExprList args = true := ((Bool.and_eq_true _ _).mp hwf).2
      have hwty : wfTy fn = true :=
        ((Bool.and_eq_true _ _).mp ((Bool.and_eq_true _ _).mp hwe).1).1
      have hnd0 : headNotDigit fn.data = true :=
        ((Bool.and_eq_true _ _).mp ((Bool.and_eq_true _ _).mp hwe).1).2
      have hnkw : grammarKeywords.contains fn = false := by
        have := ((Bool.and_eq_true _ _).mp hwe).2
        simpa using this
      have h1 : fn.data.isEmpty = false := by
        have := ((Bool.and_eq_true _ _).mp hwty).1
        simpa using this
      have h2 : fn.data.all identish = true := ((Bool.and_eq_true _ _).mp hwty).2
      have hmeq : exprMeasure (PExpr.extE fn args) = listMeasure args + 1 := rfl
      have hfl : listMeasure args ≤ f := by rw [hmeq] at hf; omega
      have hNl : listMeasure args ≤ N := by rw [hmeq] at hN; omega
      have hBne : ∀ w : String, w ∈ grammarKeywords → fn.data ≠ w.data := by
        intro w hw heqd
        have heq : fn = w := by
          have := congrArg String.mk heqd
          rwa [strMkData, strMkData] at this
        have hcon : grammarKeywords.contains fn = true := by
          rw [heq]
          exact List.elem_eq_true_of_mem hw
        rw [hcon] at hnkw
        cases hnkw
      have hkwall : ∀ w : String, w ∈ grammarKeywords →
          w.data.all isIdentChar = true := by decide
      have hshape : printExpr (PExpr.extE fn args) ++ rest =
          fn.data ++ ('(' :: (printExprList args ++ ')' :: rest)) := by
        have h0 : printExpr (PExpr.extE fn args) =
            fn.data ++ '(' :: (printExprList args ++ [')']) := rfl
        rw [h0]
        simp [List.append_assoc]
      have hkA : ∀ w : String, w ∈ grammarKeywords →
          keywordAt w.data (fn.data ++ ('(' :: (printExprList args ++ ')' :: rest))) =
            none := fun w hw =>
        keywordAt_ident_block fn.data w.data '(' (printExprList args ++ ')' :: rest)
          (hkwall w hw) h2 (hBne w hw) (by decide)
      have hsplit := takeWhileP_append identish fn.data
          ('(' :: (printExprList args ++ ')' :: rest))
          (fun c hc => List.all_eq_true.mp h2 c hc)
          (by
            intro y hy
            have hy0 : '(' = y := by simpa using hy
            subst hy0
            decide)
      cases htyd : fn.data with
      | nil => rw [htyd] at h1; simp at h1
      | cons c0 t0 =>
        have hc0id : identish c0 = true := by
          rw [htyd, List.all_cons] at h2
          exact ((Bool.and_eq_true _ _).mp h2).1
        have hc0nd : c0.isDigit = false := by
          rw [htyd] at hnd0
          have hh : headNotDigit (c0 :: t0) = !c0.isDigit := rfl
          rw [hh] at hnd0
          simpa using hnd0
        have hin : fn.data ++ ('(' :: (printExprList args ++ ')' :: rest)) =
            c0 :: (t0 ++ ('(' :: (printExprList args ++ ')' :: rest))) := by
          rw [htyd]
          rfl
        have hk1 := hkA "true" (by decide)
        have hk2 := hkA "false" (by decide)
        have hk3 := hkA "principal" (by decide)
        have hk4 := hkA "action" (by decide)
        have hk5 := hkA "resource" (by decide)
        have hk6 := hkA "context" (by decide)
        rw [hin] at hk1 hk2 hk3 hk4 hk5 hk6
        rw [hshape, hin,
          parseExpr_atom_step f c0 _ hk1 hk2 hk3 hk4 hk5 hk6 hc0id]
        have hnd : ¬(c0 = '-') :=
          fun he => by rw [he] at hc0id; exact absurd hc0id (by decide)
        rw [if_neg hnd, if_neg (by simp [hc0nd]), ← hin, hsplit.1, hsplit.2]
        show (if fn.data.isEmpty = true then none
              else
                match printExprList args ++ ')' :: rest with
                | ')' :: rest2 => some (.extE (String.mk fn.data) [], rest2)
                | _ =>
                  match parseExprList f ')' (printExprList args ++ ')' :: rest) with
                  | some (args', rest2) =>
                    some (.extE (String.mk fn.data) args', rest2)
                  | none => none) = some (PExpr.extE fn args, rest)
        rw [if_neg (by simp [h1])]
        cases args with
        | nil => rfl
        | cons e0 ta =>
          have hIHel : ∀ e ∈ (e0 :: ta), ∀ (fuel : Nat) (rest : List Char),
              headDelim rest = true → exprMeasure e ≤ fuel →
              parseExpr fuel (printExpr e ++ rest) = some (e, rest) := by
            intro x hx fuel rest hdl hm
            have hlt := mem_listMeasure (e0 :: ta) x hx
            exact ih x (by omega) (wfExprList_mem _ hwargs x hx) fuel rest hdl hm
          have hlaux := parseExprList_print_aux ')' (by decide) (by decide) (e0 :: ta)
            (by simp) (fun x hx => wfExprList_mem _ hwargs x hx) hIHel f rest hfl
          obtain ⟨cc, tt, hpe0, hch0⟩ :=
            printExpr_head e0 (wfExprList_mem _ hwargs e0 (List.mem_cons_self e0 ta))
          obtain ⟨t1, hplh⟩ := printExprList_cons_head e0 ta cc tt hpe0
          split
          next rest2 heq =>
            exfalso
            rw [hplh, List.cons_append] at heq
            injection heq with hc1 _
            rw [hc1] at hch0
            exact absurd hch0 (by decide)
          next =>
            rw [hlaux]

/-- Parsing a printed expression recovers it. -/
theorem parseExpr_print (e : PExpr) (fuel : Nat) (rest : List Char)
    (hwf : wfExpr e = true) (hd : headDelim rest = true)
    (hf : exprMeasure e ≤ fuel) :
    parseExpr fuel (printExpr e ++ rest) = some (e, rest) :=
  parseExpr_print_bound (exprMeasure e) e le_rfl hwf fuel rest hd hf

/-- Any successfully parsed expression, expression list or record list is
well-formed. -/
theorem parseAll_wf : ∀ (fuel : Nat),
    (∀ (input : List Char) (e : PExpr) (rest : List Char),
      parseExpr fuel input = some (e, rest) → wfExpr e = true) ∧
    (∀ (closer : Char) (input : List Char) (es : List PExpr) (rest : List Char),
      parseExprList fuel closer input = some (es, rest) → wfExprList es = true) ∧
    (∀ (input : List Char) (fs : List (String × PExpr)) (rest : List Char),
      parseRecordList fuel input = some (fs, rest) → wfRecList fs = true) := by
  intro fuel
  induction fuel with
  | zero =>
    refine ⟨?_, ?_, ?_⟩
    · intro input e rest h
      simp [parseExpr] at h
    · intro closer input es rest h
      simp [parseExprList] at h
    · intro input fs rest h
      simp [parseRecordList] at h
  | succ f ihf =>
    obtain ⟨ih1, ih2, ih3⟩ := ihf
    refine ⟨?_, ?_, ?_⟩
    · intro input e rest h
      simp only [parseExpr] at h
      cases hk1 : keywordAt "true".data input with
      | some r =>
        simp only [hk1, Option.some.injEq, Prod.mk.injEq] at h
        obtain ⟨he, _⟩ := h
        subst he
        rfl
      | none =>
      simp only [hk1] at h
      cases hk2 : keywordAt "false".data input with
      | some r =>
        simp only [hk2, Option.some.injEq, Prod.mk.injEq] at h
        obtain ⟨he, _⟩ := h
        subst he
        rfl
      | none =>
      simp only [hk2] at h
      cases hk3 : keywordAt "principal".data input with
      | some r =>
        simp only [hk3, Option.some.injEq, Prod.mk.injEq] at h
        obtain ⟨he, _⟩ := h
        subst he
        rfl
      | none =>
      simp only [hk3] at h
      cases hk4 : keywordAt "action".data input with
      | some r =>
        simp only [hk4, Option.some.injEq, Prod.mk.injEq] at h
        obtain ⟨he, _⟩ := h
        subst he
        rfl
      | none =>
      simp only [hk4] at h
      cases hk5 : keywordAt "resource".data input with
      | some r =>
        simp only [hk5, Option.some.injEq, Prod.mk.injEq] at h
        obtain ⟨he, _⟩ := h
        subst he
        rfl
      | none =>
      simp only [hk5] at h
      cases hk6 : keywordAt "context".data input with
      | some r =>
        simp only [hk6, Option.some.injEq, Prod.mk.injEq] at h
        obtain ⟨he, _⟩ := h
        subst he
        rfl
      | none =>
      simp only [hk6] at h
      split at h
      next rest1 =>
        -- '!' :: rest1
        split at h
        next e1 rest2 hpa =>
          simp only [Option.some.injEq, Prod.mk.injEq] at h
          obtain ⟨he, _⟩ := h
          subst he
          simp [wfExpr, ih1 _ _ _ hpa]
        next => simp at h
      next rest1 =>
        -- '(' :: rest1
        split at h
        next hpa => simp at h
        next a rest2 hpa =>
          split at h
          next rest3 hop =>
            split at h
            next hpb => simp at h
            next b rest4 hpb =>
              split at h
              next rest5 =>
                simp only [Option.some.injEq, Prod.mk.injEq] at h
                obtain ⟨he, _⟩ := h
                subst he
                simp [wfExpr, ih1 _ _ _ hpa, ih1 _ _ _ hpb]
              next => simp at h
          next rest3 hop =>
            split at h
            next hpb => simp at h
            next b rest4 hpb =>
              split at h
              next rest5 =>
                simp only [Option.some.injEq, Prod.mk.injEq] at h
                obtain ⟨he, _⟩ := h
                subst he
                simp [wfExpr, ih1 _ _ _ hpa, ih1 _ _ _ hpb]
              next => simp at h
          next rest3 hop =>
            split at h
            next hpb => simp at h
            next b rest4 hpb =>
              split at h
              next rest5 =>
                simp only [Option.some.injEq, Prod.mk.injEq] at h
                obtain ⟨he, _⟩ := h
                subst he
                simp [wfExpr, ih1 _ _ _ hpa, ih1 _ _ _ hpb]
              next => simp at h
          next rest3 hop =>
            split at h
            next hpb => simp at h
            next b rest4 hpb =>
              split at h
              next rest5 =>
                simp only [Option.some.injEq, Prod.mk.injEq] at h
                obtain ⟨he, _⟩ := h
                subst he
                simp [wfExpr, ih1 _ _ _ hpa, ih1 _ _ _ hpb]
              next => simp at h
          next rest3 hop =>
            split at h
            next hpb => simp at h
            next b rest4 hpb =>
              split at h
              next rest5 =>
                simp only [Option.some.injEq, Prod.mk.injEq] at h
                obtain ⟨he, _⟩ := h
                subst he
                simp [wfExpr, ih1 _ _ _ hpa, ih1 _ _ _ hpb]
              next => simp at h
          next rest3 hop =>
            split at h
            next hpb => simp at h
            next b rest4 hpb =>
              split at h
              next rest5 =>
                simp only [Option.some.injEq, Prod.mk.injEq] at h
                obtain ⟨he, _⟩ := h
                subst he
                simp [wfExpr, ih1 _ _ _ hpa, ih1 _ _ _ hpb]
              next => simp at h
          next rest3 hop =>
            split at h
            next attr rest4 hun =>
              split at h
              next rest5 =>
                simp only [Option.some.injEq, Prod.mk.injEq] at h
                obtain ⟨he, _⟩ := h
                subst he
                simp [wfExpr, ih1 _ _ _ hpa]
              next => simp at h
            next => simp at h
          next rest3 hop =>
            split at h
            next attr rest4 hun =>
              split at h
              next rest5 =>
                simp only [Option.some.injEq, Prod.mk.injEq] at h
                obtain ⟨he, _⟩ := h
                subst he
                simp [wfExpr, ih1 _ _ _ hpa]
              next => simp at h
            next => simp at h
          next hop => simp at h
      next rest1 =>
        -- '[' :: rest1
        split at h
        next rest2 =>
          simp only [Option.some.injEq, Prod.mk.injEq] at h
          obtain ⟨he, _⟩ := h
          subst he
          rfl
        next =>
          split at h
          next es1 rest2 hpl =>
            simp only [Option.some.injEq, Prod.mk.injEq] at h
            obtain ⟨he, _⟩ := h
            subst he
            exact ih2 _ _ _ _ hpl
          next => simp at h
      next rest1 =>
        -- '{' :: rest1
        split at h
        next rest2 =>
          simp only [Option.some.injEq, Prod.mk.injEq] at h
          obtain ⟨he, _⟩ := h
          subst he
          rfl
        next =>
          split at h
          next fs1 rest2 hpl =>
            simp only [Option.some.injEq, Prod.mk.injEq] at h
            obtain ⟨he, _⟩ := h
            subst he
            exact ih3 _ _ _ hpl
          next => simp at h
      next rest1 =>
        -- '"' :: rest1
        split at h
        next s1 rest2 hun =>
          simp only [Option.some.injEq, Prod.mk.injEq] at h
          obtain ⟨he, _⟩ := h
          subst he
          rfl
        next => simp at h
      next c restc hne1 hne2 hne3 hne4 hne5 =>
        -- identifier-ish or numeric head
        split at h
        next hdash =>
          split at h
          next hemp => simp at h
          next hemp =>
            simp only [Option.some.injEq, Prod.mk.injEq] at h
            obtain ⟨he, _⟩ := h
            subst he
            rfl
        next hdash =>
          split at h
          next hdig =>
            simp only [Option.some.injEq, Prod.mk.injEq] at h
            obtain ⟨he, _⟩ := h
            subst he
            rfl
          next hdig =>
            split at h
            next restArgs hdrop =>
              split at h
              next hemp => simp at h
              next hemp =>
                have hidc : identish c = true := by
                  cases hic : identish c with
                  | true => rfl
                  | false =>
                    exfalso
                    have htk : (c :: restc).takeWhile identish = [] := by
                      simp [List.takeWhile_cons, hic]
                    rw [htk] at hemp
                    simp at hemp
                have hB : (c :: restc).takeWhile identish = c :: restc.takeWhile identish := by
                  simp [List.takeWhile_cons, hidc]
                have hBid : ((c :: restc).takeWhile identish).all identish = true :=
                  takeWhile_all identish (c :: restc)
                have hBne : ((c :: restc).takeWhile identish).isEmpty = false := by
                  rw [hB]
                  rfl
                have hBhead : headNotDigit ((c :: restc).takeWhile identish) = true := by
                  rw [hB]
                  have hh : headNotDigit (c :: restc.takeWhile identish) = !c.isDigit := rfl
                  rw [hh]
                  simp [hdig]
                have htdw : (c :: restc).takeWhile identish ++ '(' :: restArgs = c :: restc := by
                  have := List.takeWhile_append_dropWhile (p := identish) (l := c :: restc)
                  rw [hdrop] at this
                  exact this
                have hnkw : ∀ w : String, w ∈ grammarKeywords →
                    (c :: restc).takeWhile identish ≠ w.data := by
                  intro w hw heqB
                  have hself : keywordAt w.data (c :: restc) = some ('(' :: restArgs) := by
                    rw [← htdw, heqB]
                    exact keywordAt_self w.data ('(' :: restArgs) rfl
                  have hnone : keywordAt w.data (c :: restc) = none := by
                    simp only [grammarKeywords, List.mem_cons,
                      List.not_mem_nil, or_false] at hw
                    rcases hw with rfl | rfl | rfl | rfl | rfl | rfl <;> assumption
                  rw [hself] at hnone
                  cases hnone
                have hwext : wfExtName (String.mk ((c :: restc).takeWhile identish)) = true := by
                  unfold wfExtName wfTy
                  have hd1 : (String.mk ((c :: restc).takeWhile identish)).data =
                      (c :: restc).takeWhile identish := rfl
                  rw [hd1]
                  simp only [Bool.and_eq_true]
                  refine ⟨⟨⟨?_, ?_⟩, ?_⟩, ?_⟩
                  · simp only [Bool.not_eq_true']
                    exact hBne
                  · exact hBid
                  · exact hBhead
                  · simp only [Bool.not_eq_true']
                    cases hcon : grammarKeywords.contains
                        (String.mk ((c :: restc).takeWhile identish)) with
                    | false => rfl
                    | true =>
                      exfalso
                      have hmem : String.mk ((c :: restc).takeWhile identish) ∈
                          grammarKeywords := by
                        have := List.mem_of_elem_eq_true hcon
                        exact this
                      have := hnkw _ hmem
                      exact this rfl
                split at h
                next rest2 =>
                  simp only [Option.some.injEq, Prod.mk.injEq] at h
                  obtain ⟨he, _⟩ := h
                  subst he
                  simp [wfExpr, hwext, wfExprList]
                next =>
                  split at h
                  next args rest2 hpl =>
                    simp only [Option.some.injEq, Prod.mk.injEq] at h
                    obtain ⟨he, _⟩ := h
                    subst he
                    simp [wfExpr, hwext, ih2 _ _ _ _ hpl]
                  next => simp at h
            next hdrop =>
              split at h
              next u rest2 hpe =>
                simp only [Option.some.injEq, Prod.mk.injEq] at h
                obtain ⟨he, _⟩ := h
                subst he
                exact parseEuid_wf _ _ _ hpe
              next => simp at h
      next => simp at h
    · intro closer input es rest h
      simp only [parseExprList] at h
      split at h
      next hpe => simp at h
      next e rest1 hpe =>
        split at h
        next rest2 =>
          split at h
          next es1 rest3 hpl =>
            simp only [Option.some.injEq, Prod.mk.injEq] at h
            obtain ⟨he, _⟩ := h
            subst he
            simp [wfExprList, ih1 _ _ _ hpe, ih2 _ _ _ _ hpl]
          next => simp at h
        next d rest2 =>
          split at h
          next hdc =>
            simp only [Option.some.injEq, Prod.mk.injEq] at h
            obtain ⟨he, _⟩ := h
            subst he
            simp [wfExprList, ih1 _ _ _ hpe]
          next => simp at h
        next => simp at h
    · intro input fs rest h
      simp only [parseRecordList] at h
      split at h
      next rest1 =>
        split at h
        next k rest2 hun =>
          split at h
          next rest3 =>
            split at h
            next hpv => simp at h
            next v rest4 hpv =>
              split at h
              next rest5 =>
                split at h
                next fs1 rest6 hpl =>
                  simp only [Option.some.injEq, Prod.mk.injEq] at h
                  obtain ⟨he, _⟩ := h
                  subst he
                  simp [wfRecList, ih1 _ _ _ hpv, ih3 _ _ _ hpl]
                next => simp at h
              next rest5 =>
                simp only [Option.some.injEq, Prod.mk.injEq] at h
                obtain ⟨he, _⟩ := h
                subst he
                simp [wfRecList, ih1 _ _ _ hpv]
              next => simp at h
          next => simp at h
        next => simp at h
      next => simp at h

/-- Any successfully parsed expression is well-formed. -/
theorem parseExpr_wf (fuel : Nat) (input : List Char) (e : PExpr) (rest : List Char)
    (h : parseExpr fuel input = some (e, rest)) : wfExpr e = true :=
  (parseAll_wf fuel).1 input e rest h

/-- A literal starting with a space never matches an input that does not
start with a space. -/
theorem expectChars_space_head (kw input : List Char) (hns : headNonSpace input = true) :
    expectChars (' ' :: kw) input = none := by
  cases input with
  | nil => rfl
  | cons c xs =>
    unfold headNonSpace at hns
    have hc : c ≠ ' ' := by simpa using hns
    simp [expectChars, Ne.symm hc]

/-- Reduction of the scope parser on an `is` constraint. -/
theorem parseScope_is_step (v X : List Char) :
    parseScope v (v ++ (' ' :: 'i' :: 's' :: ' ' :: X)) =
      (if (X.takeWhile identish).isEmpty = true then none
       else
         match X.dropWhile identish with
         | ' ' :: 'i' :: 'n' :: ' ' :: rest3 =>
           match parseEuid rest3 with
           | some (u, rest4) =>
             some (.isS (String.mk (X.takeWhile identish)) (some u), rest4)
           | none => none
         | restOther => some (.isS (String.mk (X.takeWhile identish)) none, restOther)) := by
  unfold parseScope
  rw [expectChars_append]
  rfl

/-- Parsing a printed scope recovers it when the remainder starts with
neither a space nor an identifier character. -/
theorem parseScope_print (v : List Char) (s : ScopeText) (rest : List Char)
    (hwf : wfScope s = true) (hrest : headNonSpace rest = true)
    (hdl : headDelim rest = true) :
    parseScope v (printScope v s ++ rest) = some (s, rest) := by
  have hdlid : ∀ y, rest.head? = some y → identish y = false := by
    intro y hy
    cases rest with
    | nil => simp at hy
    | cons r0 rs =>
      have hy0 : r0 = y := by simpa using hy
      subst hy0
      have hh : headDelim (r0 :: rs) = !identish r0 := rfl
      rw [hh] at hdl
      simpa using hdl
  cases s with
  | any =>
    unfold parseScope
    simp only [printScope]
    rw [expectChars_append]
    cases rest with
    | nil => rfl
    | cons c xs =>
      unfold headNonSpace at hrest
      have hc : c ≠ ' ' := by simpa using hrest
      split
      next heq => simp at heq
      next r heq =>
        injection heq with hr
        subst hr
        split
        next rest2 heq2 =>
          exfalso
          injection heq2 with h1 _
          exact hc h1
        next rest2 heq2 =>
          exfalso
          injection heq2 with h1 _
          exact hc h1
        next rest2 heq2 =>
          exfalso
          injection heq2 with h1 _
          exact hc h1
        next => rfl
  | eqS u =>
    unfold parseScope
    simp only [printScope]
    have hshape : (v ++ " == ".data ++ printEuid u) ++ rest =
        v ++ (" == ".data ++ (printEuid u ++ rest)) := by
      simp [List.append_assoc]
    rw [hshape, expectChars_append]
    have heqs : ∀ Y : List Char, " == ".data ++ Y = ' ' :: '=' :: '=' :: ' ' :: Y :=
      fun _ => rfl
    simp only [heqs]
    rw [parseEuid_print u rest hwf]
  | memS u =>
    unfold parseScope
    simp only [printScope]
    have hshape : (v ++ " in ".data ++ printEuid u) ++ rest =
        v ++ (" in ".data ++ (printEuid u ++ rest)) := by
      simp [List.append_assoc]
    rw [hshape, expectChars_append]
    have hins : ∀ Y : List Char, " in ".data ++ Y = ' ' :: 'i' :: 'n' :: ' ' :: Y :=
      fun _ => rfl
    simp only [hins]
    rw [parseEuid_print u rest hwf]
  | isS ty m =>
    cases m with
    | none =>
      have hwty : wfTy ty = true := hwf
      have h1 : ty.data.isEmpty = false := by
        have := ((Bool.and_eq_true _ _).mp hwty).1
        simpa using this
      have h2 : ty.data.all identish = true := ((Bool.and_eq_true _ _).mp hwty).2
      have hshape : printScope v (.isS ty none) ++ rest =
          v ++ (' ' :: 'i' :: 's' :: ' ' :: (ty.data ++ rest)) := by
        simp only [printScope]
        simp [List.append_assoc]
      rw [hshape, parseScope_is_step]
      have hsplit := takeWhileP_append identish ty.data rest
          (fun c hc => List.all_eq_true.mp h2 c hc) hdlid
      rw [hsplit.1, hsplit.2, if_neg (by simp [h1])]
      cases rest with
      | nil => rfl
      | cons c xs =>
        unfold headNonSpace at hrest
        have hc : c ≠ ' ' := by simpa using hrest
        split
        next rest3 heq =>
          exfalso
          injection heq with h1 _
          exact hc h1
        next => rfl
    | some u =>
      have hwty : wfTy ty = true := ((Bool.and_eq_true _ _).mp hwf).1
      have hwu : wfEuid u = true := ((Bool.and_eq_true _ _).mp hwf).2
      have h1 : ty.data.isEmpty = false := by
        have := ((Bool.and_eq_true _ _).mp hwty).1
        simpa using this
      have h2 : ty.data.all identish = true := ((Bool.and_eq_true _ _).mp hwty).2
      have hshape : printScope v (.isS ty (some u)) ++ rest =
          v ++ (' ' :: 'i' :: 's' :: ' ' ::
            (ty.data ++ (' ' :: 'i' :: 'n' :: ' ' :: (printEuid u ++ rest)))) := by
        simp only [printScope]
        simp [List.append_assoc]
      rw [hshape, parseScope_is_step]
      have hsplit := takeWhileP_append identish ty.data
          (' ' :: 'i' :: 'n' :: ' ' :: (printEuid u ++ rest))
          (fun c hc => List.all_eq_true.mp h2 c hc)
          (by
            intro y hy
            have hy0 : ' ' = y := by simpa using hy
            subst hy0
            decide)
      rw [hsplit.1, hsplit.2, if_neg (by simp [h1])]
      show (match parseEuid (printEuid u ++ rest) with
            | some (u', rest4) => some (ScopeText.isS (String.mk ty.data) (some u'), rest4)
            | none => none) = some (ScopeText.isS ty (some u), rest)
      rw [parseEuid_print u rest hwu]

/-- Any successfully parsed scope is well-formed. -/
theorem parseScope_wf (v input : List Char) (s : ScopeText) (rest : List Char)
    (h : parseScope v input = some (s, rest)) : wfScope s = true := by
  unfold parseScope at h
  split at h
  next => simp at h
  next r hexp =>
    split at h
    next rest2 =>
      split at h
      next u rest3 hpe =>
        simp only [Option.some.injEq, Prod.mk.injEq] at h
        obtain ⟨he, _⟩ := h
        subst he
        exact parseEuid_wf _ _ _ hpe
      next => simp at h
    next rest2 =>
      split at h
      next u rest3 hpe =>
        simp only [Option.some.injEq, Prod.mk.injEq] at h
        obtain ⟨he, _⟩ := h
        subst he
        exact parseEuid_wf _ _ _ hpe
      next => simp at h
    next rest2 =>
      split at h
      next hemp => simp at h
      next hemp =>
        have hwty : wfTy (String.mk (rest2.takeWhile identish)) = true := by
          unfold wfTy
          have hd1 : (String.mk (rest2.takeWhile identish)).data =
              rest2.takeWhile identish := rfl
          rw [hd1]
          simp only [Bool.and_eq_true]
          refine ⟨?_, takeWhile_all identish rest2⟩
          simp only [Bool.not_eq_true']
          cases hi : (rest2.takeWhile identish).isEmpty with
          | false => rfl
          | true => exact absurd hi hemp
        split at h
        next rest3 =>
          split at h
          next u rest4 hpe =>
            simp only [Option.some.injEq, Prod.mk.injEq] at h
            obtain ⟨he, _⟩ := h
            subst he
            simp [wfScope, hwty, parseEuid_wf _ _ _ hpe]
          next => simp at h
        next restOther =>
          simp only [Option.some.injEq, Prod.mk.injEq] at h
          obtain ⟨he, _⟩ := h
          subst he
          exact hwty
    next =>
      simp only [Option.some.injEq, Prod.mk.injEq] at h
      obtain ⟨he, _⟩ := h
      subst he
      rfl

/-- A condition clause prints to at least one character. -/
theorem printConds_length (cs : List CondText) :
    cs.length ≤ (printConds cs).length := by
  induction cs with
  | nil => simp [printConds]
  | cons c cs ih =>
    have h1 : 1 ≤ (printCond c).length := by
      cases hk : c.kindWhen <;> simp [printCond, hk, List.length_append]
    simp only [printConds, List.length_append, List.length_cons]
    omega

/-- Parsing printed condition clauses recovers them when the remainder does
not start with a space. -/
theorem parseConds_print (cs : List CondText) :
    ∀ (fuel : Nat) (rest : List Char), wfConds cs = true →
      headNonSpace rest = true → cs.length + 1 ≤ fuel →
      parseConds fuel (printConds cs ++ rest) = some (cs, rest) := by
  induction cs with
  | nil =>
    intro fuel rest hwf hns hf
    cases fuel with
    | zero => omega
    | succ f =>
      have e1 : expectChars " when \x7b ".data rest = none :=
        expectChars_space_head "when \x7b ".data rest hns
      have e2 : expectChars " unless \x7b ".data rest = none :=
        expectChars_space_head "unless \x7b ".data rest hns
      simp only [printConds, List.nil_append, parseConds, e1, e2]
  | cons c cs ih =>
    intro fuel rest hwf hns hf
    cases fuel with
    | zero => omega
    | succ f =>
      have hwc : wfExpr c.body = true := ((Bool.and_eq_true _ _).mp hwf).1
      have hwcs : wfConds cs = true := ((Bool.and_eq_true _ _).mp hwf).2
      have hflen : cs.length + 1 ≤ f := by
        simp only [List.length_cons] at hf
        omega
      obtain ⟨kw, body⟩ := c
      have hwc' : wfExpr body = true := hwc
      cases kw with
      | true =>
        have hshape : printConds (⟨true, body⟩ :: cs) ++ rest =
            " when \x7b ".data ++
              (printExpr body ++ (" \x7d".data ++ (printConds cs ++ rest))) := by
          simp [printConds, printCond, List.append_assoc]
        have hpe := parseExpr_print body
          ((printExpr body ++ (" \x7d".data ++ (printConds cs ++ rest))).length)
          (" \x7d".data ++ (printConds cs ++ rest)) hwc' (by rfl)
          (by
            have := printExpr_length body
            simp only [List.length_append]
            omega)
        have hih := ih f rest hwcs hns hflen
        rw [hshape]
        simp only [parseConds, expectChars_append, hpe, hih]
      | false =>
        have e1 : ∀ X : List Char,
            expectChars " when \x7b ".data (" unless \x7b ".data ++ X) = none :=
          fun _ => rfl
        have hshape : printConds (⟨false, body⟩ :: cs) ++ rest =
            " unless \x7b ".data ++
              (printExpr body ++ (" \x7d".data ++ (printConds cs ++ rest))) := by
          simp [printConds, printCond, List.append_assoc]
        have hpe := parseExpr_print body
          ((printExpr body ++ (" \x7d".data ++ (printConds cs ++ rest))).length)
          (" \x7d".data ++ (printConds cs ++ rest)) hwc' (by rfl)
          (by
            have := printExpr_length body
            simp only [List.length_append]
            omega)
        have hih := ih f rest hwcs hns hflen
        rw [hshape]
        simp only [parseConds, e1, expectChars_append, hpe, hih]

/-- Any successfully parsed condition clauses are well-formed. -/
theorem parseConds_wf :
    ∀ (fuel : Nat) (input : List Char) (cs : List CondText) (rest : List Char),
      parseConds fuel input = some (cs, rest) → wfConds cs = true := by
  intro fuel
  induction fuel with
  | zero =>
    intro input cs rest h
    simp [parseConds] at h
  | succ f ih =>
    intro input cs rest h
    simp only [parseConds] at h
    split at h
    next r hexp =>
      split at h
      next e rest2 hpe =>
        split at h
        next rest3 hexp2 =>
          split at h
          next cs' rest4 hpc =>
            simp only [Option.some.injEq, Prod.mk.injEq] at h
            obtain ⟨he, _⟩ := h
            subst he
            simp [wfConds, parseExpr_wf _ _ _ _ hpe, ih _ _ _ hpc]
          next => simp at h
        next => simp at h
      next => simp at h
    next =>
      split at h
      next r hexp =>
        split at h
        next e rest2 hpe =>
          split at h
          next rest3 hexp2 =>
            split at h
            next cs' rest4 hpc =>
              simp only [Option.some.injEq, Prod.mk.injEq] at h
              obtain ⟨he, _⟩ := h
              subst he
              simp [wfConds, parseExpr_wf _ _ _ _ hpe, ih _ _ _ hpc]
            next => simp at h
          next => simp at h
        next => simp at h
      next =>
        simp only [Option.some.injEq, Prod.mk.injEq] at h
        obtain ⟨he, _⟩ := h
        subst he
        rfl

/-- Each annotation prints to at least one character. -/
theorem printAnnots_length (as_ : List (String × String)) :
    as_.length ≤ (printAnnots as_).length := by
  induction as_ with
  | nil => simp [printAnnots]
  | cons p t ih =>
    obtain ⟨k, v⟩ := p
    have hshape : printAnnots ((k, v) :: t) =
        '@' :: (k.data ++ '(' :: '"' ::
          (escapeChars v.data ++ '"' :: ')' :: ' ' :: printAnnots t)) := rfl
    rw [hshape]
    simp only [List.length_cons, List.length_append]
    omega

/-- Parsing printed annotations recovers them when the remainder does not
start with `@`. -/
theorem parseAnnots_print (as_ : List (String × String)) :
    ∀ (fuel : Nat) (rest : List Char), wfAnnots as_ = true →
      (∀ X : List Char, rest ≠ '@' :: X) → as_.length + 1 ≤ fuel →
      parseAnnots fuel (printAnnots as_ ++ rest) = some (as_, rest) := by
  induction as_ with
  | nil =>
    intro fuel rest hwf hat hf
    cases fuel with
    | zero => omega
    | succ f =>
      simp only [printAnnots, List.nil_append, parseAnnots]
  | cons p t ih =>
    intro fuel rest hwf hat hf
    obtain ⟨k, v⟩ := p
    cases fuel with
    | zero => omega
    | succ f =>
      have hwk : isIdent k = true := ((Bool.and_eq_true _ _).mp hwf).1
      have hwt : wfAnnots t = true := ((Bool.and_eq_true _ _).mp hwf).2
      have h1 : k.data.isEmpty = false := by
        have := ((Bool.and_eq_true _ _).mp hwk).1
        simpa using this
      have h2 : k.data.all isIdentChar = true := ((Bool.and_eq_true _ _).mp hwk).2
      have hflen : t.length + 1 ≤ f := by
        simp only [List.length_cons] at hf
        omega
      have hshape : printAnnots ((k, v) :: t) ++ rest =
          '@' :: (k.data ++ ('(' :: '"' ::
            (escapeChars v.data ++ '"' :: (')' :: ' ' :: (printAnnots t ++ rest))))) := by
        have h0 : printAnnots ((k, v) :: t) =
            '@' :: (k.data ++ '(' :: '"' ::
              (escapeChars v.data ++ '"' :: ')' :: ' ' :: printAnnots t)) := rfl
        rw [h0]
        simp [List.append_assoc]
      rw [hshape]
      have hsplit := takeWhileP_append isIdentChar k.data
          ('(' :: '"' :: (escapeChars v.data ++ '"' :: (')' :: ' ' :: (printAnnots t ++ rest))))
          (fun c hc => List.all_eq_true.mp h2 c hc)
          (by
            intro y hy
            have hy0 : '(' = y := by simpa using hy
            subst hy0
            decide)
      have hun := escape_unescape v.data (')' :: ' ' :: (printAnnots t ++ rest))
      have hih := ih f rest hwt hat hflen
      have hkne : (k.data.isEmpty = true) = False := by simp [h1]
      simp only [parseAnnots, hsplit.1, hsplit.2, hkne, if_false, hun, hih]

/-- Any successfully parsed annotations are well-formed. -/
theorem parseAnnots_wf :
    ∀ (fuel : Nat) (input : List Char) (as_ : List (String × String)) (rest : List Char),
      parseAnnots fuel input = some (as_, rest) → wfAnnots as_ = true := by
  intro fuel
  induction fuel with
  | zero =>
    intro input as_ rest h
    simp [parseAnnots] at h
  | succ f ih =>
    intro input as_ rest h
    simp only [parseAnnots] at h
    split at h
    next rest1 =>
      split at h
      next hemp => simp at h
      next hemp =>
        split at h
        next rest2 hdrop =>
          split at h
          next v rest3 hun =>
            split at h
            next rest4 =>
              split at h
              next as1 rest5 hpa =>
                simp only [Option.some.injEq, Prod.mk.injEq] at h
                obtain ⟨he, _⟩ := h
                subst he
                have hwk : isIdent (String.mk (rest1.takeWhile isIdentChar)) = true := by
                  unfold isIdent
                  have hd1 : (String.mk (rest1.takeWhile isIdentChar)).data =
                      rest1.takeWhile isIdentChar := rfl
                  rw [hd1]
                  simp only [Bool.and_eq_true]
                  refine ⟨?_, takeWhile_all isIdentChar rest1⟩
                  simp only [Bool.not_eq_true']
                  cases hi : (rest1.takeWhile isIdentChar).isEmpty with
                  | false => rfl
                  | true => exact absurd hi hemp
                simp [wfAnnots, hwk, ih _ _ _ hpa]
              next => simp at h
            next => simp at h
          next => simp at h
        next => simp at h
    next =>
      simp only [Option.some.injEq, Prod.mk.injEq] at h
      obtain ⟨he, _⟩ := h
      subst he
      rfl

/-- Parsing the printed body of a policy after its effect keyword recovers
all components. -/
theorem parsePolicyAfterEffect_print (annots : List (String × String)) (eff : Effect)
    (ps sa rs : ScopeText) (cs : List CondText)
    (hp : wfScope ps = true) (ha : wfScope sa = true)
    (hr : wfScope rs = true) (hc : wfConds cs = true) :
    parsePolicyAfterEffect annots eff
      (printScope "principal".data ps ++ (", ".data ++
        (printScope "action".data sa ++ (", ".data ++
          (printScope "resource".data rs ++
            (')' :: (printConds cs ++ [';']))))))) = some ⟨annots, eff, ps, sa, rs, cs⟩ := by
  have h1 := parseScope_print "principal".data ps
    (", ".data ++ (printScope "action".data sa ++ (", ".data ++
      (printScope "resource".data rs ++ (')' :: (printConds cs ++ [';'])))))) hp
    (by rfl) (by rfl)
  have h2 := parseScope_print "action".data sa
    (", ".data ++ (printScope "resource".data rs ++
      (')' :: (printConds cs ++ [';'])))) ha (by rfl) (by rfl)
  have h3 := parseScope_print "resource".data rs
    (')' :: (printConds cs ++ [';'])) hr (by rfl) (by rfl)
  have h4 := parseConds_print cs ((printConds cs ++ [';']).length + 1) [';'] hc (by rfl)
    (by
      have := printConds_length cs
      simp only [List.length_append]
      omega)
  simp only [parsePolicyAfterEffect, h1, h2, h3, h4, expectChars_append]

/-- Parsing a printed policy recovers it. -/
theorem parsePolicy_print (p : PolicyText) (hwf : wfPolicy p = true) :
    parsePolicyChars (printPolicyChars p) = some p := by
  obtain ⟨annots, eff, ps, sa, rs, cs⟩ := p
  unfold wfPolicy at hwf
  simp only at hwf
  have h1 := (Bool.and_eq_true _ _).mp hwf
  have h2 := (Bool.and_eq_true _ _).mp h1.1
  have h3 := (Bool.and_eq_true _ _).mp h2.1
  have h4 := (Bool.and_eq_true _ _).mp h3.1
  have hwa : wfAnnots annots = true := h4.1
  have hae := parsePolicyAfterEffect_print annots eff ps sa rs cs h4.2 h3.2 h2.2 h1.2
  cases eff with
  | permit =>
    have hshape : printPolicyChars ⟨annots, .permit, ps, sa, rs, cs⟩ =
        printAnnots annots ++ ("permit(".data ++
          (printScope "principal".data ps ++ (", ".data ++
            (printScope "action".data sa ++ (", ".data ++
              (printScope "resource".data rs ++
                (')' :: (printConds cs ++ [';'])))))))) := by
      simp [printPolicyChars, List.append_assoc]
    rw [hshape]
    have hat : ∀ X : List Char,
        "permit(".data ++
          (printScope "principal".data ps ++ (", ".data ++
            (printScope "action".data sa ++ (", ".data ++
              (printScope "resource".data rs ++
                (')' :: (printConds cs ++ [';']))))))) ≠ '@' :: X := by
      intro X heq
      injection heq with h0 _
      exact absurd h0 (by decide)
    have hannots := parseAnnots_print annots
      ((printAnnots annots ++ ("permit(".data ++
        (printScope "principal".data ps ++ (", ".data ++
          (printScope "action".data sa ++ (", ".data ++
            (printScope "resource".data rs ++
              (')' :: (printConds cs ++ [';']))))))))).length + 1)
      ("permit(".data ++
        (printScope "principal".data ps ++ (", ".data ++
          (printScope "action".data sa ++ (", ".data ++
            (printScope "resource".data rs ++
              (')' :: (printConds cs ++ [';'])))))))) hwa hat
      (by
        have := printAnnots_length annots
        simp only [List.length_append]
        omega)
    simp only [parsePolicyChars, hannots, expectChars_append, hae]
  | forbid =>
    have e1 : ∀ X : List Char,
        expectChars "permit(".data ("forbid(".data ++ X) = none := fun _ => rfl
    have hshape : printPolicyChars ⟨annots, .forbid, ps, sa, rs, cs⟩ =
        printAnnots annots ++ ("forbid(".data ++
          (printScope "principal".data ps ++ (", ".data ++
            (printScope "action".data sa ++ (", ".data ++
              (printScope "resource".data rs ++
                (')' :: (printConds cs ++ [';'])))))))) := by
      simp [printPolicyChars, List.append_assoc]
    rw [hshape]
    have hat : ∀ X : List Char,
        "forbid(".data ++
          (printScope "principal".data ps ++ (", ".data ++
            (printScope "action".data sa ++ (", ".data ++
              (printScope "resource".data rs ++
                (')' :: (printConds cs ++ [';']))))))) ≠ '@' :: X := by
      intro X heq
      injection heq with h0 _
      exact absurd h0 (by decide)
    have hannots := parseAnnots_print annots
      ((printAnnots annots ++ ("forbid(".data ++
        (printScope "principal".data ps ++ (", ".data ++
          (printScope "action".data sa ++ (", ".data ++
            (printScope "resource".data rs ++
              (')' :: (printConds cs ++ [';']))))))))).length + 1)
      ("forbid(".data ++
        (printScope "principal".data ps ++ (", ".data ++
          (printScope "action".data sa ++ (", ".data ++
            (printScope "resource".data rs ++
              (')' :: (printConds cs ++ [';'])))))))) hwa hat
      (by
        have := printAnnots_length annots
        simp only [List.length_append]
        omega)
    simp only [parsePolicyChars, hannots, e1, expectChars_append, hae]

/-- Any successfully parsed policy body is well-formed, given well-formed
annotations. -/
theorem parsePolicyAfterEffect_wf (annots : List (String × String)) (eff : Effect)
    (input : List Char) (p : PolicyText) (hwa : wfAnnots annots = true)
    (h : parsePolicyAfterEffect annots eff input = some p) :
    wfPolicy p = true := by
  unfold parsePolicyAfterEffect at h
  split at h
  next => simp at h
  next ps rest1 hps =>
    split at h
    next => simp at h
    next rest2 hexp1 =>
      split at h
      next => simp at h
      next sa rest3 hsa =>
        split at h
        next => simp at h
        next rest4 hexp2 =>
          split at h
          next => simp at h
          next rs rest5 hrs =>
            split at h
            next rest6 heq =>
              split at h
              next => simp at h
              next cs rest7 hpc =>
                split at h
                next heq2 =>
                  simp only [Option.some.injEq] at h
                  subst h
                  simp [wfPolicy, hwa, parseScope_wf _ _ _ _ hps,
                    parseScope_wf _ _ _ _ hsa, parseScope_wf _ _ _ _ hrs,
                    parseConds_wf _ _ _ _ hpc]
                next => simp at h
            next => simp at h

/-- Any successfully parsed policy is well-formed. -/
theorem parsePolicyText_wf (s : String) (p : PolicyText)
    (h : parsePolicyText s = some p) : wfPolicy p = true := by
  unfold parsePolicyText parsePolicyChars at h
  split at h
  next => simp at h
  next annots rest hpa =>
    have hwa := parseAnnots_wf _ _ _ _ hpa
    split at h
    next rest0 hexp => exact parsePolicyAfterEffect_wf _ _ _ _ hwa h
    next =>
      split at h
      next rest0 hexp => exact parsePolicyAfterEffect_wf _ _ _ _ hwa h
      next => simp at h

/-- C8: every successfully parsed policy reprints to a text that re-parses
to the same policy, so parse-then-print is idempotent and
semantics-preserving. -/
theorem c8_parse_print_round_trip (s : String) (p : PolicyText)
    (h : parsePolicyText s = some p) :
    parsePolicyText (printPolicy p) = some p ∧
    (parsePolicyText (printPolicy p)).map printPolicy = some (printPolicy p) := by
  have hwf := parsePolicyText_wf s p h
  have hrt : parsePolicyText (printPolicy p) = some p := by
    show parsePolicyChars (String.mk (printPolicyChars p)).data = some p
    have hdata : (String.mk (printPolicyChars p)).data = printPolicyChars p := rfl
    rw [hdata]
    exact parsePolicy_print p hwf
  refine ⟨hrt, ?_⟩
  rw [hrt]
  rfl

set_option maxRecDepth 4000 in
/-- C8 witness: the annotated policy text parses, and its reprint re-parses
to the same policy with the same canonical text. -/
theorem c8_parse_print_round_trip_witness :
    parsePolicyText c8wText = some c8wPolicy ∧
    parsePolicyText (printPolicy c8wPolicy) = some c8wPolicy ∧
    (parsePolicyText (printPolicy c8wPolicy)).map printPolicy =
      some (printPolicy c8wPolicy) := by
  have h : parsePolicyText c8wText = some c8wPolicy := by rfl
  have hc := c8_parse_print_round_trip c8wText c8wPolicy h
  exact ⟨h, hc.1, hc.2⟩

end CedarJavaFFI
